import Mathlib

/-!
# Wallet sign-in backend (`watson`): challenge codec, signature verifier, verify handler

Shallow embedding of `internal/auth/siwe.go`, `internal/auth/crypto.go` and
`internal/app/handlers.go`.

* Go strings are lists of Unicode code points (`GoString`); byte strings are lists of
  naturals below 256.
* Functions of libraries the program calls but does not define (Keccak-256, `time.Parse`,
  secp256k1 point recovery) are fields of `Primitives`; the general theorems hold for every
  choice of them, and the worked examples use a table of their real values.
* The database is a pair of row lists; the clock, the chain node, the id generator and
  database failures are inputs of each handler call (`VerifyEnv`).
-/

namespace Watson

/-- A Go string, as its sequence of code points. -/
abbrev GoString := List Char

/-- A byte string; every element is below 256. -/
abbrev Bytes := List Nat

/-- An instant (`time.Time`), in nanoseconds relative to the Unix epoch. -/
abbrev Time := Int

/-- Library functions used by the program. -/
structure Primitives where
  /-- The hash `crypto.Keccak256` of the concatenated input, 32 bytes. -/
  keccak256 : Bytes → Bytes
  /-- The call `time.Parse(time.RFC3339, s)`; `none` when it returns an error. -/
  parseRFC3339 : GoString → Option Time
  /-- Public-key recovery on secp256k1 from a 32-byte digest, the 64 bytes `r || s` and a
  recovery id below 4; the result is the 65-byte uncompressed key, `none` when no key is
  recovered. -/
  recoverPubkey : Bytes → Bytes → Nat → Option Bytes

/-! ## Regular expressions of `siwe.go`

All eight patterns are sequences of literal characters and greedy repetitions of a
character class, with one capture group and an optional anchor at the front. -/

/-- Class `\s` of Go regular expressions: `[\t\n\f\r ]`. -/
def reSpace (c : Char) : Bool :=
  c == '\t' || c == '\n' || c == Char.ofNat 12 || c == '\r' || c == ' '

/-- Class `\S` (also `[^\s]`). -/
def reNotSpace (c : Char) : Bool := !reSpace c

/-- Class `[^\n]`. -/
def reNotNewline (c : Char) : Bool := !(c == '\n')

/-- Class `[0-9]`. -/
def reDigit (c : Char) : Bool := decide ('0'.toNat ≤ c.toNat) && decide (c.toNat ≤ '9'.toNat)

/-- Class `[A-Za-z0-9]`. -/
def reAlnum (c : Char) : Bool :=
  (decide ('A'.toNat ≤ c.toNat) && decide (c.toNat ≤ 'Z'.toNat)) ||
  (decide ('a'.toNat ≤ c.toNat) && decide (c.toNat ≤ 'z'.toNat)) || reDigit c

/-- Class `[0-9a-fA-F]`. -/
def reHex (c : Char) : Bool :=
  reDigit c || (decide ('a'.toNat ≤ c.toNat) && decide (c.toNat ≤ 'f'.toNat)) ||
  (decide ('A'.toNat ≤ c.toNat) && decide (c.toNat ≤ 'F'.toNat))

/-- One element of a pattern. -/
inductive Node where
  /-- A literal character. -/
  | lit (c : Char)
  /-- A greedy repetition `cls{min,max}`; `max = none` for `*` and `+`. -/
  | rep (cls : Char → Bool) (min : Nat) (max : Option Nat)
  /-- Opening parenthesis of the capture group. -/
  | capOpen
  /-- Closing parenthesis of the capture group. -/
  | capClose

/-- Where a match may start. -/
inductive Anchor where
  /-- No anchor: any position. -/
  | free
  /-- The anchor `^` without flags: the beginning of the text. -/
  | text
  /-- The anchor `^` under `(?m)`: the beginning of the text or just after a newline. -/
  | line
deriving DecidableEq

/-- A compiled pattern. -/
structure Regex where
  anchor : Anchor
  nodes : List Node

/-- The literal characters of a string as pattern elements. -/
def lits (s : String) : List Node := s.toList.map Node.lit

/-- Greedy repetition of a class with backtracking: the continuation `k` receives the
characters taken (most recent first) and the remaining input; the longest run is offered
first and characters are given back one at a time while `k` fails. -/
def matchRep {α : Type} (cls : Char → Bool) (max : Option Nat)
    (k : List Char → List Char → Option α) : List Char → List Char → Option α
  | taken, [] => k taken []
  | taken, c :: s =>
    if cls c && (match max with
        | none => true
        | some m => decide (taken.length < m)) then
      match matchRep cls max k (c :: taken) s with
      | some r => some r
      | none => k taken (c :: s)
    else k taken (c :: s)

/-- Match a pattern at the front of the input. The flag tells whether the capture group is
open, `grp` holds the captured characters so far (most recent first); the result is the
text of the capture group. -/
def matchNodes : List Node → Bool → List Char → List Char → Option GoString
  | [], _, grp, _ => some grp.reverse
  | .lit c :: ns, g, grp, s =>
    match s with
    | [] => none
    | x :: rest => if x = c then matchNodes ns g (if g then x :: grp else grp) rest else none
  | .rep cls min max :: ns, g, grp, s =>
    matchRep cls max (fun taken rest =>
      if min ≤ taken.length then matchNodes ns g (if g then taken ++ grp else grp) rest
      else none) [] s
  | .capOpen :: ns, _, grp, s => matchNodes ns true grp s
  | .capClose :: ns, _, grp, s => matchNodes ns false grp s

/-- Whether the anchor allows a match to start after the character `prev` (`none` at the
beginning of the text). -/
def Anchor.allows : Anchor → Option Char → Bool
  | .free, _ => true
  | .text, prev => prev.isNone
  | .line, prev => prev.isNone || prev == some '\n'

/-- Leftmost match: try every position from left to right. -/
def searchFrom (r : Regex) : Option Char → List Char → Option GoString
  | prev, [] => if r.anchor.allows prev then matchNodes r.nodes false [] [] else none
  | prev, c :: s =>
    match (if r.anchor.allows prev then matchNodes r.nodes false [] (c :: s) else none) with
    | some g => some g
    | none => searchFrom r (some c) s

/-- The call `re.FindStringSubmatch(s)` for a pattern with one capture group: `none` for a
nil result, otherwise the text of group 1 (the result slice then has length 2). -/
def FindStringSubmatch (r : Regex) (s : GoString) : Option GoString := searchFrom r none s

/-- Pattern `^([^\s]+)\s+wants you to sign in with your Ethereum account:`. -/
def reFirstLine : Regex :=
  ⟨.text, [.capOpen, .rep reNotSpace 1 none, .capClose, .rep reSpace 1 none] ++
    lits "wants you to sign in with your Ethereum account:"⟩

/-- Pattern `\n(0x[0-9a-fA-F]{40})\n`. -/
def reAddress : Regex :=
  ⟨.free, [.lit '\n', .capOpen, .lit '0', .lit 'x', .rep reHex 40 (some 40), .capClose,
    .lit '\n']⟩

/-- Pattern `(?m)^URI:\s*(\S+)`. -/
def reURI : Regex :=
  ⟨.line, lits "URI:" ++ [.rep reSpace 0 none, .capOpen, .rep reNotSpace 1 none, .capClose]⟩

/-- Pattern `(?m)^Version:\s*([0-9]+)`. -/
def reVersion : Regex :=
  ⟨.line, lits "Version:" ++ [.rep reSpace 0 none, .capOpen, .rep reDigit 1 none, .capClose]⟩

/-- Pattern `(?m)^Chain ID:\s*([0-9]+)`. -/
def reChain : Regex :=
  ⟨.line, lits "Chain ID:" ++ [.rep reSpace 0 none, .capOpen, .rep reDigit 1 none, .capClose]⟩

/-- Pattern `(?m)^Nonce:\s*([A-Za-z0-9]+)`. -/
def reNonce : Regex :=
  ⟨.line, lits "Nonce:" ++ [.rep reSpace 0 none, .capOpen, .rep reAlnum 1 none, .capClose]⟩

/-- Pattern `(?m)^Issued At:\s*([^\n]+)`. -/
def reIssued : Regex :=
  ⟨.line, lits "Issued At:" ++
    [.rep reSpace 0 none, .capOpen, .rep reNotNewline 1 none, .capClose]⟩

/-- Pattern `(?m)^Expiration Time:\s*([^\n]+)`. -/
def reExp : Regex :=
  ⟨.line, lits "Expiration Time:" ++
    [.rep reSpace 0 none, .capOpen, .rep reNotNewline 1 none, .capClose]⟩

/-! ## Library helpers: whitespace, decimal numerals, hexadecimal, addresses -/

/-- The predicate `unicode.IsSpace`, which `strings.TrimSpace` uses. -/
def isSpaceUnicode (c : Char) : Bool :=
  let n := c.toNat
  (decide (9 ≤ n) && decide (n ≤ 13)) || n == 32 || n == 0x85 || n == 0xA0 || n == 0x1680 ||
  (decide (0x2000 ≤ n) && decide (n ≤ 0x200A)) || n == 0x2028 || n == 0x2029 || n == 0x202F ||
  n == 0x205F || n == 0x3000

/-- The call `strings.TrimSpace(s)`. -/
def TrimSpace (s : GoString) : GoString :=
  ((s.dropWhile isSpaceUnicode).reverse.dropWhile isSpaceUnicode).reverse

/-- The call `strings.TrimPrefix(s, "0x")`. -/
def trimPrefix0x : GoString → GoString
  | '0' :: 'x' :: rest => rest
  | s => s

/-- The verb `%d` of `fmt.Sprintf` on an `int64`. -/
def fmtInt (n : Int) : GoString :=
  if n < 0 then '-' :: Nat.toDigits 10 n.natAbs else Nat.toDigits 10 n.natAbs

/-- Value of a string of decimal digits. -/
def digitsValue (ds : GoString) : Nat := ds.foldl (fun acc c => acc * 10 + (c.toNat - 48)) 0

/-- The value `n` of `n, _ := strconv.ParseInt(ds, 10, 64)` on a non-empty string of decimal
digits: the number written, or the largest `int64` when it does not fit (the range error is
discarded by the caller). -/
def parseInt64Digits (ds : GoString) : Int := min (digitsValue ds : Int) (2 ^ 63 - 1)

/-- Length of a string in bytes (UTF-8). -/
def byteLen (s : GoString) : Nat := (s.map Char.utf8Size).sum

/-- The bytes of a string (UTF-8), as `[]byte(s)` gives them. -/
def utf8Bytes (s : GoString) : Bytes :=
  s.flatMap (fun c => (String.utf8EncodeChar c).map UInt8.toNat)

/-- Value of a hexadecimal digit (`encoding/hex`), `none` for any other character. -/
def fromHexChar (c : Char) : Option Nat :=
  let n := c.toNat
  if 48 ≤ n ∧ n ≤ 57 then some (n - 48)
  else if 97 ≤ n ∧ n ≤ 102 then some (n - 87)
  else if 65 ≤ n ∧ n ≤ 70 then some (n - 55)
  else none

/-- The loop of `hex.Decode`: the bytes decoded before the first problem, and whether the
whole input was decoded (no invalid character, even length). -/
def hexDecodePrefix : GoString → Bytes × Bool
  | [] => ([], true)
  | [_] => ([], false)
  | p :: q :: rest =>
    match fromHexChar p, fromHexChar q with
    | some a, some b => ((a * 16 + b) :: (hexDecodePrefix rest).1, (hexDecodePrefix rest).2)
    | _, _ => ([], false)

/-- The call `hex.DecodeString(s)`: `none` when it returns an error. -/
def hexDecodeString (s : GoString) : Option Bytes :=
  if (hexDecodePrefix s).2 then some (hexDecodePrefix s).1 else none

/-- Lower-case hexadecimal digit of a value below 16. -/
def hexDigit (n : Nat) : Char := if n < 10 then Char.ofNat (48 + n) else Char.ofNat (87 + n)

/-- The call `hex.EncodeToString(b)`. -/
def hexEncode (b : Bytes) : GoString := b.flatMap (fun x => [hexDigit (x / 16), hexDigit (x % 16)])

/-- An account identifier (`common.Address`), 20 bytes. -/
abbrev Address := Bytes

/-- The call `common.FromHex(s)`: an optional `0x`/`0X` is dropped, an odd number of bytes
is padded with a leading `0`, decoding errors are discarded. -/
def FromHex (s : GoString) : Bytes :=
  let t := match s with
    | '0' :: 'x' :: rest => rest
    | '0' :: 'X' :: rest => rest
    | _ => s
  (hexDecodePrefix (if byteLen t % 2 = 1 then '0' :: t else t)).1

/-- The call `common.BytesToAddress(b)`: the last 20 bytes, padded with zeros on the left. -/
def BytesToAddress (b : Bytes) : Address :=
  let c := if 20 < b.length then b.drop (b.length - 20) else b
  List.replicate (20 - c.length) 0 ++ c

/-- The call `common.HexToAddress(s)`. -/
def HexToAddress (s : GoString) : Address := BytesToAddress (FromHex s)

/-- The checksum loop of `Address.checksumHex`: digit `i` of the lower-case form becomes
upper case when it is a letter and nibble `i` of the hash is above 7. -/
def checksumCase (hash : Bytes) : Nat → GoString → GoString
  | _, [] => []
  | i, c :: cs =>
    let hashByte := if i % 2 = 0 then hash.getD (i / 2) 0 / 16 else hash.getD (i / 2) 0 % 16
    (if '9'.toNat < c.toNat ∧ 7 < hashByte then Char.ofNat (c.toNat - 32) else c) ::
      checksumCase hash (i + 1) cs

/-- The method `Address.Hex()`: `0x` and the 40 digits in mixed-case checksum form. -/
def Address.Hex (P : Primitives) (a : Address) : GoString :=
  '0' :: 'x' :: checksumCase (P.keccak256 ((hexEncode a).map Char.toNat)) 0 (hexEncode a)

/-! ## `siwe.go` -/

/-- The function `BuildSiweString`. -/
def BuildSiweString (domain address uri version : GoString) (chainID : Int)
    (nonce issuedAt expAt statement : GoString) : GoString :=
  (domain ++ " wants you to sign in with your Ethereum account:\n".toList) ++
  (address ++ "\n\n".toList) ++
  (if statement ≠ [] then statement ++ "\n\n".toList else []) ++
  ("URI: ".toList ++ uri ++ "\n".toList) ++
  ("Version: ".toList ++ version ++ "\n".toList) ++
  ("Chain ID: ".toList ++ fmtInt chainID ++ "\n".toList) ++
  ("Nonce: ".toList ++ nonce ++ "\n".toList) ++
  ("Issued At: ".toList ++ issuedAt ++ "\n".toList) ++
  ("Expiration Time: ".toList ++ expAt ++ "\n".toList)

/-- The struct `SiweParsed`. -/
structure SiweParsed where
  Domain : GoString
  Address : GoString
  URI : GoString
  Version : GoString
  Nonce : GoString
  ChainID : Int
  IssuedAt : Time
  Expires : Time
deriving DecidableEq

/-- The errors `ParseSiwe` returns. -/
inductive SiweError where
  | badHeader
  | noUri
  | noVersion
  | noChain
  | noNonce
  | noIssuedAt
  | noExp
  /-- The error of `time.Parse`. -/
  | badTime
deriving DecidableEq

deriving instance DecidableEq for Except

/-- The function `ParseSiwe`. -/
def ParseSiwe (P : Primitives) (s : GoString) : Except SiweError SiweParsed :=
  match FindStringSubmatch reFirstLine s, FindStringSubmatch reAddress s with
  | some m1, some m2 =>
    match FindStringSubmatch reURI s with
    | none => .error .noUri
    | some uri =>
    match FindStringSubmatch reVersion s with
    | none => .error .noVersion
    | some version =>
    match FindStringSubmatch reChain s with
    | none => .error .noChain
    | some chain =>
    match FindStringSubmatch reNonce s with
    | none => .error .noNonce
    | some nonce =>
    match FindStringSubmatch reIssued s with
    | none => .error .noIssuedAt
    | some issued =>
    match P.parseRFC3339 (TrimSpace issued) with
    | none => .error .badTime
    | some issuedAt =>
    match FindStringSubmatch reExp s with
    | none => .error .noExp
    | some exp =>
    match P.parseRFC3339 (TrimSpace exp) with
    | none => .error .badTime
    | some expires =>
      .ok { Domain := m1, Address := (HexToAddress m2).Hex P, URI := uri, Version := version,
            ChainID := parseInt64Digits chain, Nonce := nonce, IssuedAt := issuedAt,
            Expires := expires }
  | _, _ => .error .badHeader

/-! ## `crypto.go` -/

/-- The loop of `strconvLen`: `b` is the 20-byte buffer, `i` the write index. The first
argument bounds the number of iterations (the value itself is enough, it shrinks at every
step). An index below the buffer is a run-time panic, `none`. -/
def strconvLenLoop : Nat → List Nat → Nat → Nat → Option (List Nat × Nat)
  | 0, b, i, n => if 0 < n then none else some (b, i)
  | fuel + 1, b, i, n =>
    if 0 < n then
      if i = 0 then none
      else strconvLenLoop fuel (b.set (i - 1) (48 + n % 10)) (i - 1) (n / 10)
    else some (b, i)

/-- The function `strconvLen` on a non-negative `int`; `none` when it panics. -/
def strconvLen (n : Nat) : Option GoString :=
  if n = 0 then some ['0']
  else (strconvLenLoop n (List.replicate 20 0) 20 n).map
    (fun r => (r.1.drop r.2).map Char.ofNat)

/-- The constant `"\x19Ethereum Signed Message:\n"`. -/
def eip191Prefix : GoString := Char.ofNat 0x19 :: "Ethereum Signed Message:\n".toList

/-- The function `EIP191Hash`; `none` when `strconvLen` panics. -/
def EIP191Hash (P : Primitives) (message : GoString) : Option Bytes :=
  (strconvLen (byteLen message)).map
    (fun len => P.keccak256 (utf8Bytes (eip191Prefix ++ len) ++ utf8Bytes message))

/-- The errors of the two verifiers. -/
inductive VerifyError where
  /-- The error of `hex.DecodeString`. -/
  | badHex
  /-- The error `bad sig len`. -/
  | badSigLen
  /-- The error of `crypto.SigToPub`. -/
  | recoveryFailed
  /-- The error of the `eth_call` request. -/
  | callFailed
  /-- The error `bad 1271 resp`. -/
  | bad1271Resp
deriving DecidableEq

/-- The function `hexToSigBytes`. -/
def hexToSigBytes (sigHex : GoString) : Except VerifyError Bytes :=
  match hexDecodeString (trimPrefix0x sigHex) with
  | none => .error .badHex
  | some b =>
    if b.length ≠ 65 then .error .badSigLen
    else if b.getD 64 0 = 0 ∨ b.getD 64 0 = 1 then .ok (b.set 64 ((b.getD 64 0 + 27) % 256))
    else .ok b

/-- The call `crypto.SigToPub(hash, sig)` of go-ethereum (cgo build, which this program
uses): `secp256k1.RecoverPubkey` rejects a digest that is not 32 bytes
(`ErrInvalidMsgLen`), a signature that is not 65 bytes (`ErrInvalidSignatureLen`) and a
recovery id `sig[64] >= 4` (`ErrInvalidRecoveryID`) before it recovers the key. -/
def SigToPub (P : Primitives) (hash sig : Bytes) : Option Bytes :=
  if hash.length ≠ 32 then none
  else if sig.length ≠ 65 then none
  else if 4 ≤ sig.getD 64 0 then none
  else P.recoverPubkey hash (sig.take 64) (sig.getD 64 0)

/-- The call `crypto.PubkeyToAddress(pub)`: the last 20 bytes of the hash of the key
without its format byte. -/
def PubkeyToAddress (P : Primitives) (pub : Bytes) : Address :=
  BytesToAddress ((P.keccak256 (pub.drop 1)).drop 12)

/-- Lower-case form of a character, letters `A` to `Z` only. -/
def asciiLower (c : Char) : Char :=
  if 65 ≤ c.toNat ∧ c.toNat ≤ 90 then Char.ofNat (c.toNat + 32) else c

/-- The call `strings.ToLower(s)` on text without letters outside `A-Za-z`. -/
def ToLower (s : GoString) : GoString := s.map asciiLower

/-- The call `strings.EqualFold(s, t)` on text without letters outside `A-Za-z` (its two
arguments are outputs of `Address.Hex`). -/
def EqualFold (s t : GoString) : Bool := decide (ToLower s = ToLower t)

/-- The function `VerifyEOA`. -/
def VerifyEOA (P : Primitives) (hash : Bytes) (signature : GoString) (expected : Address) :
    Except VerifyError Bool :=
  match hexToSigBytes signature with
  | .error e => .error e
  | .ok sig =>
    match SigToPub P hash sig with
    | none => .error .recoveryFailed
    | some pub => .ok (EqualFold ((PubkeyToAddress P pub).Hex P) (expected.Hex P))

/-- What a call into the client library does: it returns a value, it returns an error, or
it stops in a run-time panic. -/
inductive Returned (α : Type) where
  /-- The call returns a value and a nil error. -/
  | value (v : α)
  /-- The call returns an error. -/
  | error
  /-- The call panics. -/
  | panic
deriving DecidableEq

/-- The chain node behind `ethclient.Client`, as seen during one request. -/
structure Rpc where
  /-- The transport that `ethclient.Dial(RPC_URL)` chose, the field `isHTTP` of
  `rpc.Client`: true for an `http` or `https` URL, false for a websocket or IPC endpoint. -/
  isHTTP : Bool
  /-- The answer of the node to `eth_getCode` for an address at the latest block; `none`
  when the request fails. -/
  getCode : Address → Option Bytes
  /-- The call `rpc.Client().Call(&out, "eth_call", {to, data}, "latest")`: the string
  written to `out`, `none` when the call returns an error. -/
  ethCall : Address → GoString → Option GoString

/-- The method `ethclient.Client.CodeAt(ctx, addr, nil)`; `ctx` is `none` for a nil
context. The client passes the context on to `rpc.Client.CallContext`. Over HTTP,
`http.NewRequestWithContext` refuses a nil context with the error `net/http: nil Context`
before any request is sent. On the other transports `Client.send` evaluates `ctx.Done()`,
a method call on a nil interface, which is a run-time panic. With a context, the answer of
the node is returned. -/
def Rpc.CodeAt (rpc : Rpc) (ctx : Option Unit) (addr : Address) : Returned Bytes :=
  match ctx with
  | none => if rpc.isHTTP then .error else .panic
  | some _ =>
    match rpc.getCode addr with
    | none => .error
    | some code => .value code

/-- The function `IsContract`. It calls `rpc.CodeAt(nil, addr, nil)`: the context it passes
is nil. -/
def IsContract (rpc : Rpc) (addr : Address) : Returned Bool :=
  match rpc.CodeAt none addr with
  | .value code => .value (decide (0 < code.length))
  | .error => .error
  | .panic => .panic

/-- The variable `magicValue`. -/
def magicValue : Bytes := [0x16, 0x26, 0xBA, 0x7E]

/-- The call `common.BytesToHash(b)`: the last 32 bytes, padded with zeros on the left. -/
def BytesToHash (b : Bytes) : Bytes :=
  let c := if 32 < b.length then b.drop (b.length - 32) else b
  List.replicate (32 - c.length) 0 ++ c

/-- A 256-bit big-endian word holding `n`. -/
def word256 (n : Nat) : Bytes := (List.range 32).map (fun i => n / 256 ^ (31 - i) % 256)

/-- The call `parsed.Pack("isValidSignature", hash, sig)` for the ABI of `erc1271ABIJSON`:
the 4-byte selector of `isValidSignature(bytes32,bytes)`, the hash, the offset of the
dynamic argument, its length and its bytes padded to a multiple of 32. -/
def packIsValidSignature (P : Primitives) (hash sig : Bytes) : Bytes :=
  (P.keccak256 (utf8Bytes "isValidSignature(bytes32,bytes)".toList)).take 4 ++ hash ++
    word256 64 ++ word256 sig.length ++ sig ++ List.replicate ((32 - sig.length % 32) % 32) 0

/-- The function `VerifyERC1271`. Parsing the constant ABI and packing a 32-byte hash and a
byte string for it return no error, so the three error exits are the signature decoding,
the call and the response check. -/
def VerifyERC1271 (P : Primitives) (rpc : Rpc) (contract : Address) (hash : Bytes)
    (sigHex : GoString) : Except VerifyError Bool :=
  match hexDecodeString (trimPrefix0x sigHex) with
  | none => .error .badHex
  | some sig =>
    match rpc.ethCall contract
        ('0' :: 'x' :: hexEncode (packIsValidSignature P (BytesToHash hash) sig)) with
    | none => .error .callFailed
    | some out =>
      match hexDecodeString (trimPrefix0x out) with
      | none => .error .bad1271Resp
      | some outBytes =>
        if outBytes.length < 4 then .error .bad1271Resp
        else .ok (outBytes.getD 0 0 == magicValue.getD 0 0 &&
                  outBytes.getD 1 0 == magicValue.getD 1 0 &&
                  outBytes.getD 2 0 == magicValue.getD 2 0 &&
                  outBytes.getD 3 0 == magicValue.getD 3 0)

/-! ## `handlers.go`: the store and `handleVerify` -/

/-- The fields of `App` that the handlers read; durations are in nanoseconds. -/
structure App where
  Domain : GoString
  OriginURI : GoString
  ChainID : Int
  CookieName : GoString
  NonceTTL : Int
  SessTTL : Int

/-- A row of table `auth_nonces`, with the columns the queries name. -/
structure NonceRow where
  nonce : GoString
  used : Int
  expires_at : Time
deriving DecidableEq

/-- A row of table `sessions`, with the columns the queries name. -/
structure SessionRow where
  sid : GoString
  address : GoString
  expires_at : Time
deriving DecidableEq

/-- The database: the rows of the two tables, in storage order. -/
structure DB where
  auth_nonces : List NonceRow
  sessions : List SessionRow
deriving DecidableEq

/-- The struct `verifyReq`. -/
structure verifyReq where
  Message : GoString
  Signature : GoString

/-- What one run of `handleVerify` receives from outside the program. -/
structure VerifyEnv where
  /-- The chain node. -/
  rpc : Rpc
  /-- The value of `time.Now()` at the nonce check. -/
  nowCheck : Time
  /-- The value of `time.Now()` when the session expiry is computed. -/
  nowSession : Time
  /-- The value of `uuid.NewString()`. -/
  sid : GoString
  /-- The nonce query fails with an error other than `sql.ErrNoRows`. -/
  selectFails : Bool
  /-- The `UPDATE auth_nonces` statement fails. -/
  updateFails : Bool
  /-- The `INSERT INTO sessions` statement fails. -/
  insertFails : Bool

/-- The zero value of `time.Time` (1 January of year 1, UTC). -/
def zeroTime : Time := -62135596800000000000

/-- The method `t.After(u)`. -/
def Time.After (t u : Time) : Bool := decide (u < t)

/-- The exit points of `handleVerify`. -/
inductive Outcome where
  /-- Status 400, `bad json`. -/
  | badJson
  /-- Status 400, `bad siwe`. -/
  | badSiwe
  /-- Status 400, `domain mismatch`. -/
  | domainMismatch
  /-- Status 400, `uri mismatch`. -/
  | uriMismatch
  /-- Status 400, `chainId mismatch`. -/
  | chainIdMismatch
  /-- Status 400, `invalid nonce`. -/
  | invalidNonce
  /-- Status 500, `db`, after the nonce query. -/
  | dbSelect
  /-- The run stops in a panic, of `strconvLen` or of the client library; no status is
  written. -/
  | panicked
  /-- Status 500, `rpc`. -/
  | rpcError
  /-- Status 401, `signature invalid`. -/
  | signatureInvalid
  /-- Status 500, `db`, after the `UPDATE`. -/
  | dbUpdate
  /-- Status 500, `db`, after the `INSERT`. -/
  | dbInsert
  /-- Status 204 with the session cookie (value and expiry). -/
  | ok (sid : GoString) (expires : Time)
deriving DecidableEq

/-- The status code written, `none` when the handler panics. -/
def Outcome.status : Outcome → Option Nat
  | .badJson | .badSiwe | .domainMismatch | .uriMismatch | .chainIdMismatch
  | .invalidNonce => some 400
  | .dbSelect | .rpcError | .dbUpdate | .dbInsert => some 500
  | .signatureInvalid => some 401
  | .ok _ _ => some 204
  | .panicked => none

/-- The query `SELECT used, expires_at FROM auth_nonces WHERE nonce = ?` read by
`QueryRow`: the first matching row. -/
def selectNonce (db : DB) (nonce : GoString) : Option NonceRow :=
  db.auth_nonces.find? (fun r => decide (r.nonce = nonce))

/-- The statement `UPDATE auth_nonces SET used = 1 WHERE nonce = ?`. -/
def markUsed (db : DB) (nonce : GoString) : DB :=
  { db with auth_nonces :=
      db.auth_nonces.map (fun r => if r.nonce = nonce then { r with used := 1 } else r) }

/-- The statement `INSERT INTO sessions (sid, address, expires_at) VALUES (?,?,?)`. -/
def insertSession (db : DB) (row : SessionRow) : DB :=
  { db with sessions := db.sessions ++ [row] }

/-- What `QueryRow(...).Scan(&used, &exp)` does in `handleVerify`. -/
inductive NonceScan where
  /-- A row was found and scanned into the two variables; the error is nil. -/
  | row (used : Int) (exp : Time)
  /-- No row: the error is `sql.ErrNoRows`, the variables keep their zero values. -/
  | noRows
  /-- Another error: the variables keep their zero values. -/
  | failed
deriving DecidableEq

/-- The nonce query of `handleVerify` in a given environment. -/
def queryNonce (env : VerifyEnv) (db : DB) (nonce : GoString) : NonceScan :=
  if env.selectFails then .failed
  else match selectNonce db nonce with
    | some r => .row r.used r.expires_at
    | none => .noRows

/-- The variable `used` after the scan. -/
def NonceScan.used : NonceScan → Int
  | .row u _ => u
  | _ => 0

/-- The variable `exp` after the scan. -/
def NonceScan.exp : NonceScan → Time
  | .row _ e => e
  | _ => zeroTime

/-- The test `errors.Is(err, sql.ErrNoRows)`. -/
def NonceScan.isNoRows : NonceScan → Bool
  | .noRows => true
  | _ => false

/-- The test `err != nil`. -/
def NonceScan.isErr : NonceScan → Bool
  | .row _ _ => false
  | _ => true

/-- The method `App.handleVerify`: the database after the run and the exit taken. `body` is
the decoded request, `none` when `json.Decode` returns an error. A statement that fails
leaves the database as it was. -/
def handleVerify (P : Primitives) (a : App) (env : VerifyEnv) (db : DB)
    (body : Option verifyReq) : DB × Outcome :=
  match body with
  | none => (db, .badJson)
  | some req =>
  match ParseSiwe P req.Message with
  | .error _ => (db, .badSiwe)
  | .ok parsed =>
  if TrimSpace parsed.Domain ≠ a.Domain then (db, .domainMismatch)
  else if TrimSpace parsed.URI ≠ a.OriginURI then (db, .uriMismatch)
  else if parsed.ChainID ≠ a.ChainID then (db, .chainIdMismatch)
  else
  let q := queryNonce env db parsed.Nonce
  if q.isNoRows || decide (q.used ≠ 0) || env.nowCheck.After q.exp then (db, .invalidNonce)
  else if q.isErr then (db, .dbSelect)
  else
  match EIP191Hash P req.Message with
  | none => (db, .panicked)
  | some hash =>
  let addr := HexToAddress parsed.Address
  match IsContract env.rpc addr with
  | .panic => (db, .panicked)
  | .error => (db, .rpcError)
  | .value isContract =>
  match (if isContract then VerifyERC1271 P env.rpc addr hash req.Signature
         else VerifyEOA P hash req.Signature addr) with
  | .error _ => (db, .signatureInvalid)
  | .ok false => (db, .signatureInvalid)
  | .ok true =>
  if env.updateFails then (db, .dbUpdate)
  else if env.insertFails then (markUsed db parsed.Nonce, .dbInsert)
  else
    (insertSession (markUsed db parsed.Nonce)
      ⟨env.sid, ToLower (addr.Hex P), env.nowSession + a.SessTTL⟩,
     .ok env.sid (env.nowSession + a.SessTTL))

/-- A sequence of `handleVerify` runs, one after another on the same database: the database
at the end. Each run has its own environment and request body. -/
def runVerify (P : Primitives) (a : App) : DB → List (VerifyEnv × Option verifyReq) → DB
  | db, [] => db
  | db, c :: cs => runVerify P a (handleVerify P a c.1 db c.2).1 cs

/-- The nonce a request presents: the `Nonce` field of its parsed message. -/
def presentedNonce (P : Primitives) (body : Option verifyReq) : Option GoString :=
  match body with
  | none => none
  | some req =>
    match ParseSiwe P req.Message with
    | .error _ => none
    | .ok parsed => some parsed.Nonce

/-- The exits that lie after the nonce check of `handleVerify`. -/
def Outcome.pastNonceCheck : Outcome → Bool
  | .panicked | .rpcError | .signatureInvalid | .dbUpdate | .dbInsert | .ok _ _ => true
  | _ => false

/-! ## `handlers.go` and `middleware.go`: challenge requests and sessions -/

/-- The JSON body of `POST /nonce`. -/
structure nonceReq where
  Address : GoString
  ChainID : Int
  Origin : GoString
deriving DecidableEq

/-- The JSON answer of `POST /nonce`. -/
structure nonceRes where
  Nonce : GoString
  Message : GoString
  ExpiresAt : Time
deriving DecidableEq

/-- What one run of `handleNonce` reads from outside the program: the 16 bytes that
`rand.Read` delivers, the clock at its two readings, and whether the `INSERT` fails. -/
structure NonceEnv where
  random : Bytes
  nowExpiry : Time
  nowIssued : Time
  insertFails : Bool

/-- The exits of `handleNonce`. -/
inductive NonceOutcome where
  /-- Status 400, `bad json`. -/
  | badJson
  /-- Status 400, `wrong chainId`. -/
  | wrongChainId
  /-- Status 400, `wrong origin`. -/
  | wrongOrigin
  /-- Status 500, `db`. -/
  | db
  /-- Status 200 with the challenge. -/
  | ok (res : nonceRes)
deriving DecidableEq

/-- The status code that `handleNonce` writes. -/
def NonceOutcome.status : NonceOutcome → Nat
  | .badJson | .wrongChainId | .wrongOrigin => 400
  | .db => 500
  | .ok _ => 200

/-- The function `randHex`: the hex digits of the random bytes. -/
def randHex (random : Bytes) : GoString := hexEncode random

/-- Modelled from the spec: the statement `INSERT INTO auth_nonces (nonce, expires_at)
VALUES (?, ?)`. The table definition is not among the sources; the column `used` of the new
row takes the value of an unconsumed nonce, 0. -/
def insertNonce (db : DB) (nonce : GoString) (expires : Time) : DB :=
  { db with auth_nonces := db.auth_nonces ++ [⟨nonce, 0, expires⟩] }

/-- The method `App.handleNonce`: the database after the run and the exit taken. `body` is
the decoded request, `none` when `json.Decode` returns an error; `formatRFC3339` is
`Time.Format(time.RFC3339)`. -/
def handleNonce (formatRFC3339 : Time → GoString) (a : App) (env : NonceEnv) (db : DB)
    (body : Option nonceReq) : DB × NonceOutcome :=
  match body with
  | none => (db, .badJson)
  | some req =>
  if req.ChainID ≠ a.ChainID then (db, .wrongChainId)
  else if !(a.OriginURI.isPrefixOf req.Origin) then (db, .wrongOrigin)
  else
  let nonce := randHex env.random
  let expires := env.nowExpiry + a.NonceTTL
  if env.insertFails then (db, .db)
  else
  let issuedAt := formatRFC3339 env.nowIssued
  let expAt := formatRFC3339 expires
  let msg := BuildSiweString a.Domain req.Address a.OriginURI "1".toList a.ChainID nonce
    issuedAt expAt []
  (insertNonce db nonce expires, .ok ⟨nonce, msg, expires⟩)

/-- What one run of `handleMe` or of the handler that `authMiddleware` returns reads from
outside the program: the clock and whether the session query fails. -/
structure SessionEnv where
  now : Time
  selectFails : Bool

/-- The query `SELECT address, expires_at FROM sessions WHERE sid = ?` read by `QueryRow`:
the first matching row. -/
def selectSession (db : DB) (sid : GoString) : Option SessionRow :=
  db.sessions.find? (fun r => decide (r.sid = sid))

/-- What `QueryRow(...).Scan(&address, &exp)` does in `handleMe` and `authMiddleware`. -/
inductive SessionScan where
  /-- A row was found and scanned into the two variables; the error is nil. -/
  | row (address : GoString) (exp : Time)
  /-- No row: the error is `sql.ErrNoRows`, the variables keep their zero values. -/
  | noRows
  /-- Another error: the variables keep their zero values. -/
  | failed
deriving DecidableEq

/-- The session query in a given environment. -/
def querySession (env : SessionEnv) (db : DB) (sid : GoString) : SessionScan :=
  if env.selectFails then .failed
  else match selectSession db sid with
    | some r => .row r.address r.expires_at
    | none => .noRows

/-- The variable `address` after the scan. -/
def SessionScan.address : SessionScan → GoString
  | .row a _ => a
  | _ => []

/-- The variable `exp` after the scan. -/
def SessionScan.exp : SessionScan → Time
  | .row _ e => e
  | _ => zeroTime

/-- The test `errors.Is(err, sql.ErrNoRows)`. -/
def SessionScan.isNoRows : SessionScan → Bool
  | .noRows => true
  | _ => false

/-- The test `err != nil`. -/
def SessionScan.isErr : SessionScan → Bool
  | .row _ _ => false
  | _ => true

/-- The exits of `handleMe`. -/
inductive MeOutcome where
  /-- Status 401, `no session`. -/
  | noSession
  /-- Status 401, `expired`. -/
  | expired
  /-- Status 500, `db`. -/
  | db
  /-- Status 200 with the address of the session. -/
  | ok (address : GoString)
deriving DecidableEq

/-- The status code that `handleMe` writes. -/
def MeOutcome.status : MeOutcome → Nat
  | .noSession | .expired => 401
  | .db => 500
  | .ok _ => 200

/-- The method `App.handleMe`. The request is given by what `readSID(r, a.CookieName)`
returns: the value of the session cookie, `none` when the request carries none. -/
def handleMe (env : SessionEnv) (db : DB) (cookie : Option GoString) : MeOutcome :=
  match cookie with
  | none => .noSession
  | some sid =>
  let q := querySession env db sid
  if q.isNoRows || env.now.After q.exp then .expired
  else if q.isErr then .db
  else .ok q.address

/-- The exits of the handler that `authMiddleware` returns. -/
inductive AuthOutcome (R : Type) where
  /-- Status 401, `Not authenticated`; the protected handler is not called. -/
  | notAuthenticated
  /-- Status 500, `db`; the protected handler is not called. -/
  | db
  /-- The protected handler is called with `address` under `addressKey` in the request
  context; `response` is what it does. -/
  | served (address : GoString) (response : R)

/-- The status code that the middleware itself writes, `none` when it hands the request to
the protected handler. -/
def AuthOutcome.status {R : Type} : AuthOutcome R → Option Nat
  | .notAuthenticated => some 401
  | .db => some 500
  | .served _ _ => none

/-- The protected handler was called. -/
def AuthOutcome.called {R : Type} : AuthOutcome R → Bool
  | .served _ _ => true
  | _ => false

/-- The method `App.authMiddleware`: `next` is the protected handler as a function of the
address it finds in the request context. -/
def authMiddleware {R : Type} (next : GoString → R) (env : SessionEnv) (db : DB)
    (cookie : Option GoString) : AuthOutcome R :=
  match cookie with
  | none => .notAuthenticated
  | some sid =>
  let q := querySession env db sid
  if q.isNoRows || env.now.After q.exp then .notAuthenticated
  else if q.isErr then .db
  else .served q.address (next q.address)

/-- The statement `DELETE FROM sessions WHERE sid = ?`. -/
def deleteSession (db : DB) (sid : GoString) : DB :=
  { db with sessions := db.sessions.filter (fun r => decide (r.sid ≠ sid)) }

/-- The answer of `handleLogout`: the status and the cookie it sets. -/
structure LogoutResponse where
  status : Nat
  cookieValue : GoString
  maxAge : Int
deriving DecidableEq

/-- The method `App.handleLogout`: the database after the run and the answer. The result
of the `DELETE` is discarded; a statement that fails leaves the database as it was. -/
def handleLogout (deleteFails : Bool) (db : DB) (cookie : Option GoString) :
    DB × LogoutResponse :=
  ((match cookie with
    | some sid => if deleteFails then db else deleteSession db sid
    | none => db),
   ⟨204, [], -1⟩)

/-! ## The field sets of the challenge codec -/

/-- The arguments of `BuildSiweString`. -/
structure Fields where
  domain : GoString
  address : GoString
  statement : GoString
  uri : GoString
  version : GoString
  chainId : Int
  nonce : GoString
  issuedAt : GoString
  expirationTime : GoString

/-- The message built from a field set. -/
def Fields.build (f : Fields) : GoString :=
  BuildSiweString f.domain f.address f.uri f.version f.chainId f.nonce f.issuedAt
    f.expirationTime f.statement

/-- An address line: `0x` and 40 hexadecimal digits. -/
def validAddress : GoString → Bool
  | '0' :: 'x' :: h => h.length == 40 && h.all reHex
  | _ => false

/-- A timestamp that `time.Parse(time.RFC3339, ·)` accepts, without white space. -/
def validTimestamp (P : Primitives) (ts : GoString) : Bool :=
  !ts.isEmpty && ts.all (fun c => !isSpaceUnicode c) && (P.parseRFC3339 ts).isSome

/-- A valid field set: domain and URI non-empty without white space, address `0x` and 40
hexadecimal digits, version a decimal numeral, chain id a non-negative `int64`, nonce
non-empty alphanumeric, both timestamps accepted by the RFC 3339 parser. The statement is
free. -/
def validFields (P : Primitives) (f : Fields) : Bool :=
  !f.domain.isEmpty && f.domain.all reNotSpace &&
  validAddress f.address &&
  !f.uri.isEmpty && f.uri.all reNotSpace &&
  !f.version.isEmpty && f.version.all reDigit &&
  decide (0 ≤ f.chainId) && decide (f.chainId < 2 ^ 63) &&
  !f.nonce.isEmpty && f.nonce.all reAlnum &&
  validTimestamp P f.issuedAt && validTimestamp P f.expirationTime

/-- The labels that `ParseSiwe` looks for at the beginning of a line. -/
def labels : List GoString :=
  ["URI:".toList, "Version:".toList, "Chain ID:".toList, "Nonce:".toList,
   "Issued At:".toList, "Expiration Time:".toList]

/-- No line of the text begins with `L`; the flag tells whether the text starts at the
beginning of a line. -/
def lineStartsFree (L : GoString) : Bool → GoString → Bool
  | _, [] => true
  | bol, c :: s => !(bol && L.isPrefixOf (c :: s)) && lineStartsFree L (c == '\n') s

/-- No line of the text begins with one of the six labels. -/
def noLabelLine (s : GoString) : Bool := labels.all (fun L => lineStartsFree L true s)

/-- The text made of the given lines, each followed by a newline. -/
def unlines (ls : List GoString) : GoString := ls.flatMap (fun l => l ++ ['\n'])

/-- The lines of a built message before the labelled fields: greeting, address, an empty
line and, for a non-empty statement, the statement and an empty line. -/
def headerLines (f : Fields) : List GoString :=
  [f.domain ++ " wants you to sign in with your Ethereum account:".toList, f.address, []] ++
  (if f.statement ≠ [] then [f.statement, []] else [])

/-- The six labelled lines of a built message. -/
def fieldLines (f : Fields) : List GoString :=
  ["URI: ".toList ++ f.uri, "Version: ".toList ++ f.version,
   "Chain ID: ".toList ++ fmtInt f.chainId, "Nonce: ".toList ++ f.nonce,
   "Issued At: ".toList ++ f.issuedAt, "Expiration Time: ".toList ++ f.expirationTime]

/-! ## Inputs of the worked examples

The key `0x4c0883a69102937d6231471b5dbb6204fe5129617082792ae468d01a3f362318` has the address
`0x2c7536E3605D9C16a7a3D7b1898e529396a65c23`; it signs the personal-message digest of the
challenge that `handleNonce` builds for this address and the nonce `abc123`. -/

/-- A server configuration. -/
def demoApp : App :=
  { Domain := "example.com".toList, OriginURI := "https://app.example".toList, ChainID := 1,
    CookieName := "sid".toList, NonceTTL := 300000000000, SessTTL := 900000000000 }

/-- The signer's address line, in checksum form. -/
def demoAddress : GoString := "0x2c7536E3605D9C16a7a3D7b1898e529396a65c23".toList

/-- The challenge for `demoAddress` and nonce `abc123` (237 bytes). -/
def demoMessage : GoString :=
  BuildSiweString demoApp.Domain demoAddress demoApp.OriginURI "1".toList demoApp.ChainID
    "abc123".toList "2025-01-01T00:00:00Z".toList "2025-01-01T00:05:00Z".toList []

/-- The signer's public key, uncompressed (65 bytes). -/
def honestPubkey : Bytes :=
  [4, 78, 59, 129, 175, 156, 34, 52, 202, 208, 157, 103, 156, 230, 3, 94, 209, 57, 35, 71,
   206, 100, 206, 64, 95, 93, 205, 54, 34, 138, 37, 222, 110, 71, 253, 53, 196, 33, 93, 30,
   223, 83, 230, 248, 61, 227, 68, 97, 92, 231, 25, 189, 176, 253, 135, 143, 110, 215, 111,
   6, 221, 39, 121, 86, 222]

/-- The signer's address, 20 bytes. -/
def honestAddress : Address :=
  [44, 117, 54, 227, 96, 93, 156, 22, 167, 163, 215, 177, 137, 142, 82, 147, 150, 166, 92, 35]

/-- The personal-message digest of `demoMessage`, 32 bytes. -/
def honestDigest : Bytes :=
  [217, 53, 8, 204, 159, 93, 149, 118, 177, 175, 226, 4, 169, 234, 235, 160, 43, 184, 52,
   199, 168, 24, 157, 52, 138, 29, 231, 130, 129, 49, 85, 126]

/-- The signature `r || s || v` of the digest as a wallet sends it, with `v = 28`
(recovery id 1). -/
def honestSigBytes : Bytes :=
  [3, 193, 167, 182, 61, 132, 185, 243, 240, 149, 25, 122, 118, 93, 33, 64, 215, 242, 74,
   154, 196, 65, 31, 35, 145, 89, 60, 247, 45, 252, 171, 123, 112, 38, 123, 63, 103, 77, 234,
   129, 67, 34, 126, 219, 171, 218, 243, 165, 242, 39, 4, 217, 20, 70, 10, 41, 190, 19, 219,
   139, 104, 169, 117, 77, 28]

/-- The signature as the request carries it. -/
def honestSignature : GoString :=
  ("0x03c1a7b63d84b9f3f095197a765d2140d7f24a9ac4411f2391593cf72dfcab7b" ++
   "70267b3f674dea8143227edbabdaf3a5f22704d914460a29be13db8b68a9754d1c").toList

/-- The 266 bytes that the signer hashes: the byte `0x19`, the text
`Ethereum Signed Message:`, a newline, the digits `237` and the 237 bytes of the challenge
of the worked example. -/
def demoPreimage : Bytes :=
  [25, 69, 116, 104, 101, 114, 101, 117, 109, 32, 83, 105, 103, 110, 101, 100, 32, 77, 101,
   115, 115, 97, 103, 101, 58, 10, 50, 51, 55, 101, 120, 97, 109, 112, 108, 101, 46, 99,
   111, 109, 32, 119, 97, 110, 116, 115, 32, 121, 111, 117, 32, 116, 111, 32, 115, 105, 103,
   110, 32, 105, 110, 32, 119, 105, 116, 104, 32, 121, 111, 117, 114, 32, 69, 116, 104, 101,
   114, 101, 117, 109, 32, 97, 99, 99, 111, 117, 110, 116, 58, 10, 48, 120, 50, 99, 55, 53,
   51, 54, 69, 51, 54, 48, 53, 68, 57, 67, 49, 54, 97, 55, 97, 51, 68, 55, 98, 49, 56, 57,
   56, 101, 53, 50, 57, 51, 57, 54, 97, 54, 53, 99, 50, 51, 10, 10, 85, 82, 73, 58, 32, 104,
   116, 116, 112, 115, 58, 47, 47, 97, 112, 112, 46, 101, 120, 97, 109, 112, 108, 101, 10,
   86, 101, 114, 115, 105, 111, 110, 58, 32, 49, 10, 67, 104, 97, 105, 110, 32, 73, 68, 58,
   32, 49, 10, 78, 111, 110, 99, 101, 58, 32, 97, 98, 99, 49, 50, 51, 10, 73, 115, 115, 117,
   101, 100, 32, 65, 116, 58, 32, 50, 48, 50, 53, 45, 48, 49, 45, 48, 49, 84, 48, 48, 58,
   48, 48, 58, 48, 48, 90, 10, 69, 120, 112, 105, 114, 97, 116, 105, 111, 110, 32, 84, 105,
   109, 101, 58, 32, 50, 48, 50, 53, 45, 48, 49, 45, 48, 49, 84, 48, 48, 58, 48, 53, 58, 48,
   48, 90, 10]

/-- The library functions, tabulated at the inputs the worked examples reach, with the
values the real functions give there: Keccak-256 of the signer's key, of the lower-case hex
digits of its address, of the prefixed challenge and of the ERC-1271 method signature; the
two timestamps of the challenge; key recovery from the digest and `r || s` at recovery
id 1. The theorems quantify over all `Primitives`; this instance only serves to run the
program on concrete inputs. -/
def demoPrimitives : Primitives where
  keccak256 := fun b =>
    if b = honestPubkey.drop 1 then
      [45, 7, 17, 38, 88, 114, 144, 154, 100, 132, 149, 137, 44, 117, 54, 227, 96, 93, 156,
       22, 167, 163, 215, 177, 137, 142, 82, 147, 150, 166, 92, 35]
    else if b = (hexEncode honestAddress).map Char.toNat then
      [85, 163, 71, 219, 96, 169, 143, 255, 13, 38, 245, 27, 30, 225, 84, 0, 163, 37, 133,
       126, 170, 98, 162, 1, 135, 40, 223, 132, 153, 12, 56, 115]
    else if b = demoPreimage then
      honestDigest
    else if b = utf8Bytes "isValidSignature(bytes32,bytes)".toList then
      [22, 38, 186, 126, 53, 111, 89, 121, 221, 53, 90, 61, 43, 251, 67, 232, 4, 32, 164,
       128, 195, 184, 84, 237, 206, 40, 106, 130, 215, 73, 104, 105]
    else List.replicate 32 0
  parseRFC3339 := fun s =>
    if s = "2025-01-01T00:00:00Z".toList then some 1735689600000000000
    else if s = "2025-01-01T00:05:00Z".toList then some 1735689900000000000
    else none
  recoverPubkey := fun h rs v =>
    if h = honestDigest ∧ rs = honestSigBytes.take 64 ∧ v = 1 then some honestPubkey else none

/-- A database with the nonce `abc123` issued, unused, expiring at 00:05:00. -/
def demoDB : DB :=
  { auth_nonces := [⟨"abc123".toList, 0, 1735689900000000000⟩], sessions := [] }

/-- A chain node reached over HTTP on which every address is a contract that accepts every
signature. -/
def acceptingRpc : Rpc :=
  { isHTTP := true, getCode := fun _ => some [0x60],
    ethCall := fun _ _ => some ("0x1626ba7e".toList ++ List.replicate 56 '0') }

/-- An environment at 00:01:00 with the accepting node and no database failure. -/
def demoEnv : VerifyEnv :=
  { rpc := acceptingRpc, nowCheck := 1735689660000000000, nowSession := 1735689660000000000,
    sid := "session-1".toList, selectFails := false, updateFails := false, insertFails := false }

/-- The environment `demoEnv` at 00:05:00 exactly, the expiry of the nonce of `demoDB`. -/
def boundaryEnv : VerifyEnv := { demoEnv with nowCheck := 1735689900000000000 }

/-- The request carrying the challenge and the signer's signature. -/
def demoReq : verifyReq := { Message := demoMessage, Signature := honestSignature }

/-- A valid field set with a statement of two lines. -/
def demoFields : Fields :=
  { domain := "example.com".toList, address := demoAddress,
    statement := "Sign in to the audit desk.\nThe terms of service apply.".toList,
    uri := "https://app.example".toList, version := "1".toList, chainId := 1,
    nonce := "abc123".toList, issuedAt := "2025-01-01T00:00:00Z".toList,
    expirationTime := "2025-01-01T00:05:00Z".toList }

/-- The field set `demoFields` without statement and with the address written in lower
case. -/
def lowerCaseFields : Fields :=
  { demoFields with
    address := "0x2c7536e3605d9c16a7a3d7b1898e529396a65c23".toList, statement := [] }

/-- The field set `demoFields` without statement and with a domain that begins with a
label. -/
def labelDomainFields : Fields :=
  { demoFields with domain := "URI:evil.example".toList, statement := [] }

/-- The field set `demoFields` with a statement whose second line begins with a label. -/
def labelStatementFields : Fields :=
  { demoFields with statement := "Sign in to the audit desk.\nNonce: stolen".toList }

/-- The field set `demoFields` with a statement that is a `URI:` line. -/
def forgedUriFields : Fields :=
  { demoFields with statement := "URI: https://evil.example".toList }

/-- The parsed form of `demoMessage`. -/
def demoParsed : SiweParsed :=
  { Domain := "example.com".toList, Address := demoAddress,
    URI := "https://app.example".toList, Version := "1".toList, Nonce := "abc123".toList,
    ChainID := 1, IssuedAt := 1735689600000000000, Expires := 1735689900000000000 }

/-- The node `acceptingRpc` reached over a websocket. -/
def websocketRpc : Rpc := { acceptingRpc with isHTTP := false }

/-- The environment `demoEnv` with the node reached over a websocket. -/
def websocketEnv : VerifyEnv := { demoEnv with rpc := websocketRpc }

/-- The request carrying the challenge and a signature string that is not hexadecimal. -/
def badSigReq : verifyReq := { Message := demoMessage, Signature := "0xzz".toList }

/-- The environment `demoEnv` with a nonce query that fails. -/
def lookupFailsEnv : VerifyEnv := { demoEnv with selectFails := true }

/-- The challenge of the worked example without its last line: greeting, address, URI,
version, chain id, nonce and issue time, and no `Expiration Time:` line. -/
def noExpMessage : GoString :=
  unlines ["example.com wants you to sign in with your Ethereum account:".toList,
    demoAddress, [], "URI: https://app.example".toList, "Version: 1".toList,
    "Chain ID: 1".toList, "Nonce: abc123".toList, "Issued At: 2025-01-01T00:00:00Z".toList]

/-- The challenge of the worked example with the given `URI` and `Chain ID` lines. -/
def rawMessage (uriLine chainLine : GoString) : GoString :=
  unlines ["example.com wants you to sign in with your Ethereum account:".toList,
    demoAddress, [], uriLine, "Version: 1".toList, chainLine, "Nonce: abc123".toList,
    "Issued At: 2025-01-01T00:00:00Z".toList,
    "Expiration Time: 2025-01-01T00:05:00Z".toList]

/-- A message whose chain id, twenty nines, does not fit an `int64`. -/
def overflowMessage : GoString :=
  rawMessage "URI: https://app.example".toList "Chain ID: 99999999999999999999".toList

/-- A message whose chain id is followed by letters on its line. -/
def trailingMessage : GoString :=
  rawMessage "URI: https://app.example".toList "Chain ID: 1abc".toList

/-- A message whose `URI:` line carries no value. -/
def emptyUriMessage : GoString := rawMessage "URI:".toList "Chain ID: 1".toList

/-- The layout `time.RFC3339` of `Time.Format`, tabulated at the two instants of the worked
example. -/
def demoFormat (t : Time) : GoString :=
  if t = 1735689600000000000 then "2025-01-01T00:00:00Z".toList
  else if t = 1735689900000000000 then "2025-01-01T00:05:00Z".toList
  else []

/-- An environment of `handleNonce` at 00:00:00 with sixteen random bytes and no database
failure. -/
def demoNonceEnv : NonceEnv :=
  { random := [171, 193, 35, 0, 1, 2, 3, 4, 5, 6, 7, 8, 9, 10, 11, 12],
    nowExpiry := 1735689600000000000, nowIssued := 1735689600000000000,
    insertFails := false }

/-- A challenge request for the signer's address on chain 5, from the configured origin. -/
def wrongChainReq : nonceReq :=
  { Address := demoAddress, ChainID := 5, Origin := "https://app.example".toList }

/-- A database with one session of the signer, expiring at 00:16:00. -/
def sessionDB : DB :=
  { auth_nonces := [⟨"abc123".toList, 1, 1735689900000000000⟩],
    sessions := [⟨"session-1".toList, "0x2c7536e3605d9c16a7a3d7b1898e529396a65c23".toList,
      1735690560000000000⟩] }

/-- An environment of the session handlers at 00:02:00 with no database failure. -/
def demoSessionEnv : SessionEnv := { now := 1735689720000000000, selectFails := false }

/-- An environment of the session handlers at 00:17:00, after the expiry of the session of
`sessionDB`. -/
def lateSessionEnv : SessionEnv := { now := 1735690620000000000, selectFails := false }

/-! # Theorems -/

/-! ## `handleVerify`: the paths through the handler -/

/-- Every run of `handleVerify` either leaves the database as it was and takes one of the
early exits, or went through all checks with a verified signature and marked the nonce. -/
theorem handleVerify_paths (P : Primitives) (a : App) (env : VerifyEnv) (db : DB)
    (body : Option verifyReq) :
    ((handleVerify P a env db body).1 = db ∧
      (handleVerify P a env db body).2 ∈ [Outcome.badJson, .badSiwe, .domainMismatch,
        .uriMismatch, .chainIdMismatch, .invalidNonce, .dbSelect, .panicked, .rpcError,
        .signatureInvalid, .dbUpdate]) ∨
    ∃ req parsed hash c, body = some req ∧ ParseSiwe P req.Message = .ok parsed ∧
      EIP191Hash P req.Message = some hash ∧
      IsContract env.rpc (HexToAddress parsed.Address) = .value c ∧
      (if c then VerifyERC1271 P env.rpc (HexToAddress parsed.Address) hash req.Signature
       else VerifyEOA P hash req.Signature (HexToAddress parsed.Address)) = .ok true ∧
      env.updateFails = false ∧
      ((env.insertFails = true ∧
          handleVerify P a env db body = (markUsed db parsed.Nonce, .dbInsert)) ∨
       (env.insertFails = false ∧
          handleVerify P a env db body =
            (insertSession (markUsed db parsed.Nonce)
              ⟨env.sid, ToLower ((HexToAddress parsed.Address).Hex P),
                env.nowSession + a.SessTTL⟩,
             .ok env.sid (env.nowSession + a.SessTTL)))) := by
  cases body with
  | none => left; simp [handleVerify]
  | some req =>
  cases hp : ParseSiwe P req.Message with
  | error e => left; simp [handleVerify, hp]
  | ok parsed =>
  by_cases hd : TrimSpace parsed.Domain = a.Domain
  swap
  · left; simp [handleVerify, hp, hd]
  by_cases hu : TrimSpace parsed.URI = a.OriginURI
  swap
  · left; simp [handleVerify, hp, hd, hu]
  by_cases hc : parsed.ChainID = a.ChainID
  swap
  · left; simp [handleVerify, hp, hd, hu, hc]
  by_cases hn : ((queryNonce env db parsed.Nonce).isNoRows ||
      decide ((queryNonce env db parsed.Nonce).used ≠ 0) ||
      env.nowCheck.After (queryNonce env db parsed.Nonce).exp) = true
  · left; simp only [handleVerify, hp, hd, hu, hc, hn]; simp
  by_cases he : (queryNonce env db parsed.Nonce).isErr = true
  · left; simp only [handleVerify, hp, hd, hu, hc, hn, he]; simp
  cases hh : EIP191Hash P req.Message with
  | none => left; simp only [handleVerify, hp, hd, hu, hc, hn, he, hh]; simp
  | some hash =>
  cases hk : IsContract env.rpc (HexToAddress parsed.Address) with
  | panic => left; simp only [handleVerify, hp, hd, hu, hc, hn, he, hh, hk]; simp
  | error => left; simp only [handleVerify, hp, hd, hu, hc, hn, he, hh, hk]; simp
  | value c =>
  cases hv : (if c then VerifyERC1271 P env.rpc (HexToAddress parsed.Address) hash req.Signature
       else VerifyEOA P hash req.Signature (HexToAddress parsed.Address)) with
  | error e => left; simp only [handleVerify, hp, hd, hu, hc, hn, he, hh, hk, hv]; simp
  | ok b =>
  cases b with
  | false => left; simp only [handleVerify, hp, hd, hu, hc, hn, he, hh, hk, hv]; simp
  | true =>
  by_cases hupd : env.updateFails = true
  · left; simp only [handleVerify, hp, hd, hu, hc, hn, he, hh, hk, hv, hupd]; simp
  right
  refine ⟨req, parsed, hash, c, rfl, hp, hh, hk, hv, by simpa using hupd, ?_⟩
  by_cases hins : env.insertFails = true
  · left; simp only [handleVerify, hp, hd, hu, hc, hn, he, hh, hk, hv, hupd, hins]; simp
  · right; simp only [handleVerify, hp, hd, hu, hc, hn, he, hh, hk, hv, hupd, hins]
    simp [hins]

/-- After `markUsed`, every row of the nonce is used. -/
theorem markUsed_used (db : DB) (N : GoString) :
    ∀ r ∈ (markUsed db N).auth_nonces, r.nonce = N → r.used = 1 := by
  intro r hr hN
  simp only [markUsed, List.mem_map] at hr
  obtain ⟨r0, _, h0⟩ := hr
  by_cases h : r0.nonce = N
  · rw [if_pos h] at h0; rw [← h0]
  · rw [if_neg h] at h0; rw [h0] at h; exact absurd hN h

/-- The statement `markUsed` never resets a used row. -/
theorem markUsed_keeps_used (db : DB) (M N : GoString)
    (h : ∀ r ∈ db.auth_nonces, r.nonce = N → r.used = 1) :
    ∀ r ∈ (markUsed db M).auth_nonces, r.nonce = N → r.used = 1 := by
  intro r hr hN
  simp only [markUsed, List.mem_map] at hr
  obtain ⟨r0, hmem, h0⟩ := hr
  by_cases hM : r0.nonce = M
  · rw [if_pos hM] at h0; rw [← h0]
  · rw [if_neg hM] at h0; rw [h0] at hmem; exact h r hmem hN

/-- A run of `handleVerify` never resets a used row. -/
theorem handleVerify_keeps_used (P : Primitives) (a : App) (env : VerifyEnv) (db : DB)
    (body : Option verifyReq) (N : GoString)
    (h : ∀ r ∈ db.auth_nonces, r.nonce = N → r.used = 1) :
    ∀ r ∈ (handleVerify P a env db body).1.auth_nonces, r.nonce = N → r.used = 1 := by
  rcases handleVerify_paths P a env db body with ⟨h1, _⟩ |
    ⟨req, parsed, hash, c, _, _, _, _, _, _, ⟨_, h2⟩ | ⟨_, h2⟩⟩
  · rw [h1]; exact h
  · rw [h2]; exact markUsed_keeps_used db parsed.Nonce N h
  · rw [h2]; exact markUsed_keeps_used db parsed.Nonce N h

/-- A sequence of runs never resets a used row. -/
theorem runVerify_keeps_used (P : Primitives) (a : App)
    (calls : List (VerifyEnv × Option verifyReq)) (N : GoString) :
    ∀ db : DB, (∀ r ∈ db.auth_nonces, r.nonce = N → r.used = 1) →
      ∀ r ∈ (runVerify P a db calls).auth_nonces, r.nonce = N → r.used = 1 := by
  induction calls with
  | nil => intro db h; exact h
  | cons c cs ih =>
    intro db h
    exact ih _ (handleVerify_keeps_used P a c.1 db c.2 N h)

/-- A successful run leaves every row of the presented nonce used. -/
theorem handleVerify_ok_marks (P : Primitives) (a : App) (env : VerifyEnv) (db : DB)
    (body : Option verifyReq) (N : GoString) (sid : GoString) (e : Time)
    (hok : (handleVerify P a env db body).2 = .ok sid e)
    (hN : presentedNonce P body = some N) :
    ∀ r ∈ (handleVerify P a env db body).1.auth_nonces, r.nonce = N → r.used = 1 := by
  rcases handleVerify_paths P a env db body with ⟨_, h1⟩ |
    ⟨req, parsed, hash, c, hb, hp, _, _, _, _, ⟨_, h2⟩ | ⟨_, h2⟩⟩
  · rw [hok] at h1; simp at h1
  · rw [h2] at hok; simp at hok
  · subst hb
    simp only [presentedNonce, hp, Option.some.injEq] at hN
    rw [h2, ← hN]
    exact markUsed_used db parsed.Nonce

/-- With every row of the presented nonce used, a run stops at the nonce check at the
latest and changes nothing. -/
theorem handleVerify_used_rejected (P : Primitives) (a : App) (env : VerifyEnv) (db : DB)
    (body : Option verifyReq) (N : GoString)
    (h : ∀ r ∈ db.auth_nonces, r.nonce = N → r.used = 1)
    (hN : presentedNonce P body = some N) :
    (handleVerify P a env db body).1 = db ∧
    (handleVerify P a env db body).2 ∈
      [Outcome.domainMismatch, .uriMismatch, .chainIdMismatch, .invalidNonce, .dbSelect] ∧
    (env.selectFails = false →
      (handleVerify P a env db body).2 ∈
        [Outcome.domainMismatch, .uriMismatch, .chainIdMismatch, .invalidNonce]) := by
  cases body with
  | none => simp [presentedNonce] at hN
  | some req =>
  cases hp : ParseSiwe P req.Message with
  | error e => simp [presentedNonce, hp] at hN
  | ok parsed =>
  simp only [presentedNonce, hp, Option.some.injEq] at hN
  by_cases hd : TrimSpace parsed.Domain = a.Domain
  swap
  · simp [handleVerify, hp, hd]
  by_cases hu : TrimSpace parsed.URI = a.OriginURI
  swap
  · simp [handleVerify, hp, hd, hu]
  by_cases hc : parsed.ChainID = a.ChainID
  swap
  · simp [handleVerify, hp, hd, hu, hc]
  by_cases hf : env.selectFails = true
  · have hq : queryNonce env db parsed.Nonce = .failed := by simp [queryNonce, hf]
    by_cases ht : env.nowCheck.After zeroTime = true
    · simp [handleVerify, hp, hd, hu, hc, hq, NonceScan.isNoRows, NonceScan.used,
        NonceScan.exp, NonceScan.isErr, ht, hf]
    · simp [handleVerify, hp, hd, hu, hc, hq, NonceScan.isNoRows, NonceScan.used,
        NonceScan.exp, NonceScan.isErr, ht, hf]
  · cases hs : selectNonce db parsed.Nonce with
    | none =>
      have hq : queryNonce env db parsed.Nonce = .noRows := by simp [queryNonce, hf, hs]
      simp [handleVerify, hp, hd, hu, hc, hq, NonceScan.isNoRows]
    | some r =>
      have hq : queryNonce env db parsed.Nonce = .row r.used r.expires_at := by
        simp [queryNonce, hf, hs]
      have hmem : r ∈ db.auth_nonces := List.mem_of_find?_eq_some hs
      have hrn : r.nonce = parsed.Nonce := by
        have := List.find?_some hs
        simpa using this
      have hused : r.used = 1 := h r hmem (hrn.trans hN)
      simp [handleVerify, hp, hd, hu, hc, hq, NonceScan.isNoRows, NonceScan.used, hused]

/-- The two tests after the nonce query let a run through exactly when the query did not
fail and found an unused row whose expiry is not before the current time. -/
theorem nonce_gate_iff (env : VerifyEnv) (db : DB) (nonce : GoString) :
    (((queryNonce env db nonce).isNoRows || decide ((queryNonce env db nonce).used ≠ 0) ||
        env.nowCheck.After (queryNonce env db nonce).exp) = false ∧
      (queryNonce env db nonce).isErr = false) ↔
    (env.selectFails = false ∧
      ∃ r, selectNonce db nonce = some r ∧ r.used = 0 ∧ env.nowCheck ≤ r.expires_at) := by
  by_cases hf : env.selectFails = true
  · simp [queryNonce, hf, NonceScan.isErr]
  · cases hs : selectNonce db nonce with
    | none => simp [queryNonce, hf, hs, NonceScan.isNoRows]
    | some r =>
      simp [queryNonce, hf, hs, NonceScan.isNoRows, NonceScan.used, NonceScan.exp,
        NonceScan.isErr, Time.After]

/-- A run whose message parses and passes the domain, URI and chain checks gets past the
nonce check exactly when the two tests after the nonce query let it through; otherwise it
changes nothing and answers `invalid nonce` or, on a failed query, `db`. -/
theorem handleVerify_gate (P : Primitives) (a : App) (env : VerifyEnv) (db : DB)
    (req : verifyReq) (parsed : SiweParsed)
    (hp : ParseSiwe P req.Message = .ok parsed)
    (hd : TrimSpace parsed.Domain = a.Domain) (hu : TrimSpace parsed.URI = a.OriginURI)
    (hc : parsed.ChainID = a.ChainID) :
    ((handleVerify P a env db (some req)).2.pastNonceCheck = true ↔
      (((queryNonce env db parsed.Nonce).isNoRows ||
          decide ((queryNonce env db parsed.Nonce).used ≠ 0) ||
          env.nowCheck.After (queryNonce env db parsed.Nonce).exp) = false ∧
        (queryNonce env db parsed.Nonce).isErr = false)) ∧
    ((handleVerify P a env db (some req)).2.pastNonceCheck = false →
      (handleVerify P a env db (some req)).1 = db ∧
      (handleVerify P a env db (some req)).2 ∈ [Outcome.invalidNonce, .dbSelect] ∧
      (env.selectFails = false → (handleVerify P a env db (some req)).2 = .invalidNonce)) := by
  by_cases hn : ((queryNonce env db parsed.Nonce).isNoRows ||
      decide ((queryNonce env db parsed.Nonce).used ≠ 0) ||
      env.nowCheck.After (queryNonce env db parsed.Nonce).exp) = true
  · have h1 : handleVerify P a env db (some req) = (db, .invalidNonce) := by
      simp only [handleVerify, hp, hd, hu, hc, hn]; simp
    rw [h1]; simp only [Outcome.pastNonceCheck]
    refine ⟨⟨fun h => by simp at h, fun h => ?_⟩, fun _ => by simp⟩
    rw [h.1] at hn; simp at hn
  by_cases he : (queryNonce env db parsed.Nonce).isErr = true
  · have h1 : handleVerify P a env db (some req) = (db, .dbSelect) := by
      simp only [handleVerify, hp, hd, hu, hc, hn, he]; simp
    have hf : env.selectFails = true := by
      by_contra hf
      cases hs : selectNonce db parsed.Nonce with
      | none => simp [queryNonce, hf, hs, NonceScan.isNoRows] at hn
      | some r => simp [queryNonce, hf, hs, NonceScan.isErr] at he
    rw [h1]; simp [Outcome.pastNonceCheck, he, hf]
  have hn2 := Bool.eq_false_iff.mpr hn
  have he2 := Bool.eq_false_iff.mpr he
  have hpast : (handleVerify P a env db (some req)).2.pastNonceCheck = true := by
    cases hh : EIP191Hash P req.Message with
    | none => simp only [handleVerify, hp, hd, hu, hc, hn, he, hh]; simp [Outcome.pastNonceCheck]
    | some hash =>
    cases hk : IsContract env.rpc (HexToAddress parsed.Address) with
    | panic =>
      simp only [handleVerify, hp, hd, hu, hc, hn, he, hh, hk]; simp [Outcome.pastNonceCheck]
    | error =>
      simp only [handleVerify, hp, hd, hu, hc, hn, he, hh, hk]; simp [Outcome.pastNonceCheck]
    | value c =>
    cases hv : (if c then VerifyERC1271 P env.rpc (HexToAddress parsed.Address) hash
          req.Signature
        else VerifyEOA P hash req.Signature (HexToAddress parsed.Address)) with
    | error e =>
      simp only [handleVerify, hp, hd, hu, hc, hn, he, hh, hk, hv]
      simp [Outcome.pastNonceCheck]
    | ok b =>
    cases b with
    | false =>
      simp only [handleVerify, hp, hd, hu, hc, hn, he, hh, hk, hv]
      simp [Outcome.pastNonceCheck]
    | true =>
    by_cases hupd : env.updateFails = true
    · simp only [handleVerify, hp, hd, hu, hc, hn, he, hh, hk, hv, hupd]
      simp [Outcome.pastNonceCheck]
    by_cases hins : env.insertFails = true
    · simp only [handleVerify, hp, hd, hu, hc, hn, he, hh, hk, hv, hupd, hins]
      simp [Outcome.pastNonceCheck]
    · simp only [handleVerify, hp, hd, hu, hc, hn, he, hh, hk, hv, hupd, hins]
      simp [Outcome.pastNonceCheck]
  rw [hpast]
  exact ⟨⟨fun _ => ⟨hn2, he2⟩, fun _ => rfl⟩, fun h => by simp at h⟩

/-- A successful run passed the domain, URI and chain checks. -/
theorem handleVerify_ok_prechecks (P : Primitives) (a : App) (env : VerifyEnv) (db : DB)
    (body : Option verifyReq) (sid : GoString) (e : Time)
    (hok : (handleVerify P a env db body).2 = .ok sid e) :
    ∃ req parsed, body = some req ∧ ParseSiwe P req.Message = .ok parsed ∧
      TrimSpace parsed.Domain = a.Domain ∧ TrimSpace parsed.URI = a.OriginURI ∧
      parsed.ChainID = a.ChainID := by
  cases body with
  | none => simp [handleVerify] at hok
  | some req =>
  cases hp : ParseSiwe P req.Message with
  | error e => simp [handleVerify, hp] at hok
  | ok parsed =>
  by_cases hd : TrimSpace parsed.Domain = a.Domain
  swap
  · simp [handleVerify, hp, hd] at hok
  by_cases hu : TrimSpace parsed.URI = a.OriginURI
  swap
  · simp [handleVerify, hp, hd, hu] at hok
  by_cases hc : parsed.ChainID = a.ChainID
  swap
  · simp [handleVerify, hp, hd, hu, hc] at hok
  exact ⟨req, parsed, rfl, hp, hd, hu, hc⟩

/-! ## C4: when the nonce check lets a run through -/

/-- C4, as the code behaves: a run whose message parses and passes the domain, URI and
chain checks gets past the nonce check if and only if the query does not fail and finds a
row for the nonce with `used = 0` and the current time not after `expires_at`
(`now ≤ expires_at`); a nonce presented after its expiry is rejected and nothing changes. -/
theorem nonce_acceptance (P : Primitives) (a : App) (env : VerifyEnv) (db : DB)
    (req : verifyReq) (parsed : SiweParsed)
    (hp : ParseSiwe P req.Message = .ok parsed)
    (hd : TrimSpace parsed.Domain = a.Domain) (hu : TrimSpace parsed.URI = a.OriginURI)
    (hc : parsed.ChainID = a.ChainID) :
    ((handleVerify P a env db (some req)).2.pastNonceCheck = true ↔
      (env.selectFails = false ∧
        ∃ r, selectNonce db parsed.Nonce = some r ∧ r.used = 0 ∧
          env.nowCheck ≤ r.expires_at)) ∧
    (∀ r, selectNonce db parsed.Nonce = some r → r.expires_at < env.nowCheck →
      (handleVerify P a env db (some req)).1 = db ∧
      (handleVerify P a env db (some req)).2 ∈ [Outcome.invalidNonce, .dbSelect]) := by
  obtain ⟨h1, h2⟩ := handleVerify_gate P a env db req parsed hp hd hu hc
  have hiff := h1.trans (nonce_gate_iff env db parsed.Nonce)
  refine ⟨hiff, fun r hr hlt => ?_⟩
  have hnot : (handleVerify P a env db (some req)).2.pastNonceCheck = false := by
    rw [Bool.eq_false_iff]
    intro hpast
    obtain ⟨_, r2, hr2, _, hle⟩ := hiff.mp hpast
    rw [hr] at hr2
    cases hr2
    exact absurd hle (not_le.mpr hlt)
  exact ⟨(h2 hnot).1, (h2 hnot).2.1⟩

set_option maxRecDepth 1000000 in
/-- The theorem `nonce_acceptance` on the worked example, one minute after issue. -/
theorem nonce_acceptance_witness :
    (handleVerify demoPrimitives demoApp demoEnv demoDB (some demoReq)).2.pastNonceCheck =
      true ↔
    (demoEnv.selectFails = false ∧
      ∃ r, selectNonce demoDB "abc123".toList = some r ∧ r.used = 0 ∧
        demoEnv.nowCheck ≤ r.expires_at) :=
  (nonce_acceptance demoPrimitives demoApp demoEnv demoDB demoReq
    { Domain := "example.com".toList, Address := demoAddress,
      URI := "https://app.example".toList, Version := "1".toList, Nonce := "abc123".toList,
      ChainID := 1, IssuedAt := 1735689600000000000, Expires := 1735689900000000000 }
    (by decide) (by decide) (by decide) (by decide)).1

set_option maxRecDepth 1000000 in
/-- C4 fails as stated at the boundary: the nonce expires at 00:05:00, the request is
checked at 00:05:00 exactly (so `now < expiresAt` is false), and the run gets past the
nonce check; it ends after it, at the account-kind query, with 500 `rpc`. -/
theorem nonce_boundary_counterexample :
    (selectNonce demoDB "abc123".toList).map NonceRow.expires_at = some boundaryEnv.nowCheck ∧
    (handleVerify demoPrimitives demoApp boundaryEnv demoDB (some demoReq)).2.pastNonceCheck =
      true ∧
    (handleVerify demoPrimitives demoApp boundaryEnv demoDB (some demoReq)).2 = .rpcError := by
  decide

/-! ## C5: sessions change only on success -/

/-- C5: a run of `handleVerify` that does not end in success leaves the session table as it
was; when the session table changes, the message parsed, the verifier chosen by the
account kind returned true without error, every row of the presented nonce is marked used
in the resulting database, and exactly one session row was appended. -/
theorem session_only_after_proof (P : Primitives) (a : App) (env : VerifyEnv) (db : DB)
    (body : Option verifyReq) :
    ((∀ sid e, (handleVerify P a env db body).2 ≠ .ok sid e) →
      (handleVerify P a env db body).1.sessions = db.sessions) ∧
    ((handleVerify P a env db body).1.sessions ≠ db.sessions →
      ∃ req parsed hash c, body = some req ∧ ParseSiwe P req.Message = .ok parsed ∧
        EIP191Hash P req.Message = some hash ∧
        IsContract env.rpc (HexToAddress parsed.Address) = .value c ∧
        (if c then VerifyERC1271 P env.rpc (HexToAddress parsed.Address) hash req.Signature
         else VerifyEOA P hash req.Signature (HexToAddress parsed.Address)) = .ok true ∧
        (handleVerify P a env db body).1.auth_nonces = (markUsed db parsed.Nonce).auth_nonces ∧
        (∀ r ∈ (handleVerify P a env db body).1.auth_nonces,
          r.nonce = parsed.Nonce → r.used = 1) ∧
        (handleVerify P a env db body).1.sessions =
          db.sessions ++ [⟨env.sid, ToLower ((HexToAddress parsed.Address).Hex P),
            env.nowSession + a.SessTTL⟩] ∧
        (handleVerify P a env db body).2 = .ok env.sid (env.nowSession + a.SessTTL)) := by
  rcases handleVerify_paths P a env db body with ⟨h1, _⟩ |
    ⟨req, parsed, hash, c, hb, hp, hh, hk, hv, _, ⟨_, h2⟩ | ⟨_, h2⟩⟩
  · exact ⟨fun _ => by rw [h1], fun h => absurd (by rw [h1]) h⟩
  · refine ⟨fun _ => by rw [h2]; rfl, fun h => absurd (by rw [h2]; rfl) h⟩
  · refine ⟨fun h => absurd (by rw [h2]) (h _ _), fun _ => ?_⟩
    refine ⟨req, parsed, hash, c, hb, hp, hh, hk, hv, by rw [h2]; rfl, ?_, by rw [h2]; rfl,
      by rw [h2]⟩
    rw [h2]
    exact markUsed_used db parsed.Nonce

/-! ## C6: the personal-message digest -/

/-- The decimal digit character of a value below 10 has code `48 + d`. -/
theorem digitChar_eq_ofNat (d : Nat) (h : d < 10) : Nat.digitChar d = Char.ofNat (48 + d) := by
  interval_cases d <;> rfl

/-- With enough fuel, `Nat.toDigitsCore` puts the numeral of `n` in front of the
accumulator. -/
theorem toDigitsCore_eq_append (n : Nat) :
    ∀ (fuel : Nat) (ds : List Char), n < fuel →
      Nat.toDigitsCore 10 fuel n ds = Nat.toDigits 10 n ++ ds := by
  induction n using Nat.strong_induction_on with
  | _ n ih =>
    intro fuel ds hf
    obtain ⟨f, rfl⟩ : ∃ f, fuel = f + 1 := ⟨fuel - 1, by omega⟩
    unfold Nat.toDigits
    simp only [Nat.toDigitsCore]
    by_cases h0 : n / 10 = 0
    · simp [h0]
    · simp only [h0, if_false]
      have hlt : n / 10 < n := by omega
      rw [ih (n / 10) hlt f _ (by omega), ih (n / 10) hlt n _ hlt]
      simp

/-- The numeral of a number below 10 is one digit. -/
theorem toDigits_small (n : Nat) (h : n < 10) : Nat.toDigits 10 n = [Char.ofNat (48 + n)] := by
  unfold Nat.toDigits
  simp only [Nat.toDigitsCore]
  have h0 : n / 10 = 0 := by omega
  have h1 : n % 10 = n := by omega
  simp [h0, h1, digitChar_eq_ofNat n h]

/-- The numeral of a number from 10 on is the numeral of its tenth followed by its last
digit. -/
theorem toDigits_step (n : Nat) (h : 10 ≤ n) :
    Nat.toDigits 10 n = Nat.toDigits 10 (n / 10) ++ [Char.ofNat (48 + n % 10)] := by
  have h0 : n / 10 ≠ 0 := by omega
  conv_lhs => unfold Nat.toDigits
  simp only [Nat.toDigitsCore, h0, if_false]
  rw [toDigitsCore_eq_append (n / 10) n _ (by omega),
    digitChar_eq_ofNat _ (Nat.mod_lt _ (by decide))]

/-- After a write at index `j`, the buffer from `j` on starts with the value written. -/
theorem drop_set_self (b : List Nat) (j x : Nat) (h : j < b.length) :
    (b.set j x).drop j = x :: b.drop (j + 1) := by
  induction b generalizing j with
  | nil => simp at h
  | cons y ys ih =>
    cases j with
    | zero => simp
    | succ j => simpa using ih j (by simpa using h)

/-- The loop of `strconvLen` stops at once on zero. -/
theorem strconvLenLoop_zero (fuel : Nat) (b : List Nat) (i : Nat) :
    strconvLenLoop fuel b i 0 = some (b, i) := by
  cases fuel <;> simp [strconvLenLoop]

/-- The loop of `strconvLen` writes the numeral of `n` just below index `i` and never leaves
the buffer, provided the numeral has at most `i` digits. -/
theorem strconvLenLoop_spec :
    ∀ (fuel n i : Nat) (b : List Nat), n ≤ fuel → 0 < n → n < 10 ^ i → i ≤ b.length →
      ∃ r, strconvLenLoop fuel b i n = some r ∧
        (r.1.drop r.2).map Char.ofNat = Nat.toDigits 10 n ++ (b.drop i).map Char.ofNat := by
  intro fuel
  induction fuel with
  | zero => intro n i b h1 h2; omega
  | succ fuel ih =>
    intro n i b hf hn hlt hi
    have hi0 : i ≠ 0 := by
      rintro rfl
      simp at hlt
      omega
    obtain ⟨j, rfl⟩ : ∃ j, i = j + 1 := ⟨i - 1, by omega⟩
    have hdrop : ((b.set j (48 + n % 10)).drop j).map Char.ofNat =
        Char.ofNat (48 + n % 10) :: (b.drop (j + 1)).map Char.ofNat := by
      rw [drop_set_self b j _ (by omega)]
      rfl
    simp only [strconvLenLoop, hn, if_true, hi0, if_false, Nat.add_sub_cancel]
    by_cases hs : n < 10
    · have h0 : n / 10 = 0 := by omega
      have h1 : n % 10 = n := by omega
      rw [h0, strconvLenLoop_zero]
      refine ⟨_, rfl, ?_⟩
      rw [hdrop, toDigits_small n hs, h1]
      rfl
    · have hlt2 : n / 10 < 10 ^ j := by
        rw [Nat.div_lt_iff_lt_mul (by decide)]
        rw [pow_succ] at hlt
        exact hlt
      obtain ⟨r, hr, hrd⟩ := ih (n / 10) j (b.set j (48 + n % 10)) (by omega) (by omega) hlt2
        (by simp; omega)
      refine ⟨r, hr, ?_⟩
      rw [hrd, hdrop, toDigits_step n (by omega)]
      simp

/-- The function `strconvLen` returns the decimal numeral of every `n` below `10 ^ 20`, in
particular of every non-negative 64-bit `n`, without leaving its buffer. -/
theorem strconvLen_eq (n : Nat) (h : n < 10 ^ 20) : strconvLen n = some (Nat.toDigits 10 n) := by
  unfold strconvLen
  by_cases h0 : n = 0
  · subst h0; rfl
  · obtain ⟨r, hr, hrd⟩ := strconvLenLoop_spec n n 20 (List.replicate 20 0) (le_refl n)
      (by omega) h (by simp)
    simp only [h0, if_false, hr, Option.map_some']
    rw [hrd]
    simp

/-- The bytes of a concatenation are the bytes of its parts. -/
theorem utf8Bytes_append (s t : GoString) : utf8Bytes (s ++ t) = utf8Bytes s ++ utf8Bytes t := by
  simp [utf8Bytes]

/-- The bytes of a decimal digit. -/
theorem utf8Bytes_digit (d : Nat) (h : d < 10) :
    utf8Bytes [Char.ofNat (48 + d)] = [(Char.ofNat (48 + d)).toNat] := by
  interval_cases d <;> decide

/-- The bytes of a decimal numeral are the codes of its digits. -/
theorem utf8Bytes_toDigits (n : Nat) :
    utf8Bytes (Nat.toDigits 10 n) = (Nat.toDigits 10 n).map Char.toNat := by
  induction n using Nat.strong_induction_on with
  | _ n ih =>
    by_cases hs : n < 10
    · rw [toDigits_small n hs, utf8Bytes_digit n hs]
      rfl
    · rw [toDigits_step n (by omega), utf8Bytes_append, ih (n / 10) (by omega),
        utf8Bytes_digit (n % 10) (Nat.mod_lt _ (by decide))]
      simp

/-- The length in bytes is the size of the UTF-8 encoding of the string. -/
theorem utf8ByteSize_go_eq (m : List Char) : String.utf8ByteSize.go m = byteLen m := by
  induction m with
  | nil => rfl
  | cons c cs ih =>
    simp only [String.utf8ByteSize.go, byteLen, List.map_cons, List.sum_cons] at ih ⊢
    omega

/-- The bytes of a string are its UTF-8 encoding. -/
theorem toUTF8_eq (m : GoString) :
    (String.mk m).toUTF8.data.toList.map UInt8.toNat = utf8Bytes m := by
  simp [String.toUTF8, utf8Bytes, List.map_flatMap]

/-- C6: `strconvLen` returns the standard decimal numeral of every non-negative 64-bit `n`
without leaving its 20-byte buffer, and for every message whose length in bytes is such an
`n`, `EIP191Hash` is Keccak-256 of the 26 bytes `0x19`, `Ethereum Signed Message:`, newline,
followed by the digits of the decimal numeral of the size of the UTF-8 encoding of the
message, followed by that encoding. -/
theorem eip191Hash_eq (P : Primitives) (m : GoString)
    (h : (String.mk m).utf8ByteSize < 2 ^ 63) :
    (∀ n : Nat, n < 2 ^ 63 → strconvLen n = some (Nat.repr n).toList) ∧
    EIP191Hash P m = some (P.keccak256
      ([25, 69, 116, 104, 101, 114, 101, 117, 109, 32, 83, 105, 103, 110, 101, 100, 32, 77,
        101, 115, 115, 97, 103, 101, 58, 10] ++
       (Nat.repr (String.mk m).utf8ByteSize).toList.map Char.toNat ++
       (String.mk m).toUTF8.data.toList.map UInt8.toNat)) := by
  have hlen : ∀ n : Nat, n < 2 ^ 63 → strconvLen n = some (Nat.toDigits 10 n) :=
    fun n hn => strconvLen_eq n (lt_trans hn (by norm_num))
  have hsize : (String.mk m).utf8ByteSize = byteLen m := utf8ByteSize_go_eq m
  have hpre : utf8Bytes eip191Prefix =
      [25, 69, 116, 104, 101, 114, 101, 117, 109, 32, 83, 105, 103, 110, 101, 100, 32, 77,
        101, 115, 115, 97, 103, 101, 58, 10] := by decide
  refine ⟨hlen, ?_⟩
  rw [hsize] at h ⊢
  rw [toUTF8_eq]
  have hrepr : (Nat.repr (byteLen m)).toList = Nat.toDigits 10 (byteLen m) := rfl
  rw [hrepr, ← utf8Bytes_toDigits, ← hpre]
  simp [EIP191Hash, hlen _ h, utf8Bytes_append]

set_option maxRecDepth 1000000 in
/-- The theorem `eip191Hash_eq` on the challenge of the worked example: its encoding has 237
bytes, the bytes hashed are the 266 bytes of `demoPreimage`, and the digest is the one the
signer signed. -/
theorem eip191Hash_eq_witness :
    (String.mk demoMessage).utf8ByteSize = 237 ∧
    strconvLen 237 = some "237".toList ∧
    EIP191Hash demoPrimitives demoMessage = some honestDigest := by
  have hsize : (String.mk demoMessage).utf8ByteSize = 237 := by
    rw [show (String.mk demoMessage).utf8ByteSize = byteLen demoMessage from
      utf8ByteSize_go_eq demoMessage]
    decide
  have h := eip191Hash_eq demoPrimitives demoMessage (by rw [hsize]; decide)
  have hbytes : [25, 69, 116, 104, 101, 114, 101, 117, 109, 32, 83, 105, 103, 110, 101, 100,
      32, 77, 101, 115, 115, 97, 103, 101, 58, 10] ++
      (Nat.repr (String.mk demoMessage).utf8ByteSize).toList.map Char.toNat ++
      (String.mk demoMessage).toUTF8.data.toList.map UInt8.toNat = demoPreimage := by
    rw [hsize, toUTF8_eq]
    decide
  have k : demoPrimitives.keccak256 demoPreimage = honestDigest := by decide
  have h2 := h.2
  rw [hbytes, k] at h2
  exact ⟨hsize, h.1 237 (by decide), h2⟩

/-! ## C7, C8: `VerifyEOA` -/

/-- The result of `hexToSigBytes` on input that decodes to `b`. -/
theorem hexToSigBytes_decoded (sigHex : GoString) (b : Bytes)
    (hd : hexDecodeString (trimPrefix0x sigHex) = some b) :
    hexToSigBytes sigHex =
      if b.length ≠ 65 then .error .badSigLen
      else if b.getD 64 0 = 0 ∨ b.getD 64 0 = 1 then
        .ok (b.set 64 ((b.getD 64 0 + 27) % 256))
      else .ok b := by
  unfold hexToSigBytes
  rw [hd]

/-- Reading back the element just written. -/
theorem getD_set_self (b : List Nat) (i x : Nat) (h : i < b.length) :
    (b.set i x).getD i 0 = x := by
  simp [List.getD_eq_getElem?_getD, List.getElem?_set, h]

/-- C7, what the code does: for every digest and every signature string that decodes to 65
bytes whose recovery id is one of 0, 1, 27, 28 (the values an honest signer produces),
`hexToSigBytes` hands `crypto.SigToPub` the recovery id 27 or 28, which the library rejects,
and `VerifyEOA` returns an error, whatever the key, the digest and the expected address. -/
theorem verifyEOA_rejects_honest_recovery_ids (P : Primitives) (hash : Bytes)
    (signature : GoString) (expected : Address) (b : Bytes)
    (hdec : hexDecodeString (trimPrefix0x signature) = some b) (hlen : b.length = 65)
    (hv : b.getD 64 0 = 0 ∨ b.getD 64 0 = 1 ∨ b.getD 64 0 = 27 ∨ b.getD 64 0 = 28) :
    VerifyEOA P hash signature expected = .error .recoveryFailed := by
  have hsig : ∃ sig, hexToSigBytes signature = .ok sig ∧ 4 ≤ sig.getD 64 0 := by
    rw [hexToSigBytes_decoded signature b hdec, if_neg (not_not.mpr hlen)]
    by_cases h01 : b.getD 64 0 = 0 ∨ b.getD 64 0 = 1
    · rw [if_pos h01]
      refine ⟨_, rfl, ?_⟩
      rw [getD_set_self b 64 _ (by omega)]
      rcases h01 with h | h <;> rw [h] <;> decide
    · rw [if_neg h01]
      refine ⟨_, rfl, ?_⟩
      rcases hv with h | h | h | h
      · exact absurd (Or.inl h) h01
      · exact absurd (Or.inr h) h01
      · rw [h]; decide
      · rw [h]; decide
  obtain ⟨sig, hs, h4⟩ := hsig
  have hpub : SigToPub P hash sig = none := by
    unfold SigToPub
    split_ifs <;> rfl
  unfold VerifyEOA
  rw [hs]
  simp only [hpub]

set_option maxRecDepth 1000000 in
/-- The theorem `verifyEOA_rejects_honest_recovery_ids` on the honest signature: in the
format of the library (recovery id 1) the signer's key and address are recovered from the
digest of the challenge, and `VerifyEOA` on the signature as sent returns an error. -/
theorem verifyEOA_rejects_honest_recovery_ids_witness :
    SigToPub demoPrimitives honestDigest (honestSigBytes.set 64 1) = some honestPubkey ∧
    PubkeyToAddress demoPrimitives honestPubkey = honestAddress ∧
    HexToAddress demoAddress = honestAddress ∧
    VerifyEOA demoPrimitives honestDigest honestSignature honestAddress =
      .error .recoveryFailed :=
  ⟨by decide, by decide, by decide,
   verifyEOA_rejects_honest_recovery_ids demoPrimitives honestDigest honestSignature
     honestAddress honestSigBytes (by decide) (by decide) (by decide)⟩

/-- Lower-casing undoes the checksum case of one hexadecimal digit. -/
theorem asciiLower_checksum_digit (n hb : Nat) (h : n < 16) :
    asciiLower (if '9'.toNat < (hexDigit n).toNat ∧ 7 < hb
      then Char.ofNat ((hexDigit n).toNat - 32) else hexDigit n) = hexDigit n := by
  by_cases h7 : 7 < hb
  · interval_cases n <;> simp only [h7, and_true] <;> decide
  · interval_cases n <;> simp only [h7, and_false, if_false] <;> decide

/-- Lower-casing undoes the checksum case of a string of lower-case hexadecimal digits. -/
theorem toLower_checksumCase (hash : Bytes) (s : GoString)
    (hs : ∀ c ∈ s, ∃ n, n < 16 ∧ c = hexDigit n) :
    ∀ i : Nat, ToLower (checksumCase hash i s) = s := by
  induction s with
  | nil => intro i; rfl
  | cons c cs ih =>
    intro i
    obtain ⟨n, hn, rfl⟩ := hs c (List.mem_cons_self _ _)
    simp only [checksumCase, ToLower, List.map_cons]
    rw [asciiLower_checksum_digit n _ hn]
    congr 1
    exact ih (fun c hc => hs c (List.mem_cons_of_mem _ hc)) (i + 1)

/-- The characters of `hexEncode` are lower-case hexadecimal digits. -/
theorem hexEncode_digits (a : Bytes) (ha : ∀ x ∈ a, x < 256) :
    ∀ c ∈ hexEncode a, ∃ n, n < 16 ∧ c = hexDigit n := by
  intro c hc
  simp only [hexEncode, List.mem_flatMap, List.mem_cons, List.mem_singleton,
    List.not_mem_nil, or_false] at hc
  obtain ⟨x, hx, h | h⟩ := hc
  · exact ⟨x / 16, by have := ha x hx; omega, h⟩
  · exact ⟨x % 16, by omega, h⟩

/-- Distinct values below 16 have distinct digits. -/
theorem hexDigit_inj (n m : Nat) (hn : n < 16) (hm : m < 16) (h : hexDigit n = hexDigit m) :
    n = m := by
  interval_cases n <;> interval_cases m <;> first | rfl | (exact absurd h (by decide))

/-- Distinct byte strings have distinct encodings. -/
theorem hexEncode_inj (a : Bytes) :
    ∀ b : Bytes, (∀ x ∈ a, x < 256) → (∀ x ∈ b, x < 256) → hexEncode a = hexEncode b →
      a = b := by
  induction a with
  | nil =>
    intro b _ _ h
    cases b with
    | nil => rfl
    | cons y ys => simp [hexEncode] at h
  | cons x xs ih =>
    intro b ha hb h
    cases b with
    | nil => simp [hexEncode] at h
    | cons y ys =>
      simp only [hexEncode, List.flatMap_cons, List.cons_append, List.nil_append,
        List.cons.injEq] at h
      obtain ⟨h1, h2, h3⟩ := h
      have hx := ha x (List.mem_cons_self _ _)
      have hy := hb y (List.mem_cons_self _ _)
      have e1 := hexDigit_inj _ _ (by omega) (by omega) h1
      have e2 := hexDigit_inj _ _ (Nat.mod_lt _ (by decide)) (Nat.mod_lt _ (by decide)) h2
      have exy : x = y := by omega
      rw [exy, ih ys (fun z hz => ha z (List.mem_cons_of_mem _ hz))
        (fun z hz => hb z (List.mem_cons_of_mem _ hz)) h3]

/-- The lower-case form of `Address.Hex` is `0x` and the plain encoding. -/
theorem toLower_hex (P : Primitives) (a : Address) (ha : ∀ x ∈ a, x < 256) :
    ToLower (a.Hex P) = '0' :: 'x' :: hexEncode a := by
  have h := toLower_checksumCase (P.keccak256 ((hexEncode a).map Char.toNat)) (hexEncode a)
    (hexEncode_digits a ha) 0
  simp only [ToLower] at h
  simp only [Address.Hex, ToLower, List.map_cons, h]
  rfl

/-- C8: `VerifyEOA` returns an error exactly when the signature string, without one leading
`0x`, is not valid hex, or decodes to a length other than 65, or key recovery fails on the
bytes handed to `crypto.SigToPub`; otherwise it returns no error and the boolean is the
case-insensitive comparison of the hex form of the recovered address with the hex form of
the expected one, which holds exactly when the two addresses are equal. -/
theorem verifyEOA_result (P : Primitives) (hash : Bytes) (signature : GoString)
    (expected : Address) :
    ((∃ e, VerifyEOA P hash signature expected = .error e) ↔
      (hexDecodeString (trimPrefix0x signature) = none ∨
       (∃ b, hexDecodeString (trimPrefix0x signature) = some b ∧ b.length ≠ 65) ∨
       (∃ sig, hexToSigBytes signature = .ok sig ∧ SigToPub P hash sig = none))) ∧
    (∀ sig pub, hexToSigBytes signature = .ok sig → SigToPub P hash sig = some pub →
      VerifyEOA P hash signature expected =
        .ok (EqualFold ((PubkeyToAddress P pub).Hex P) (expected.Hex P))) ∧
    (∀ a b : Address, (∀ x ∈ a, x < 256) → (∀ x ∈ b, x < 256) →
      (EqualFold (a.Hex P) (b.Hex P) = true ↔ a = b)) := by
  refine ⟨?_, ?_, ?_⟩
  · cases hd : hexDecodeString (trimPrefix0x signature) with
    | none => simp [VerifyEOA, hexToSigBytes, hd]
    | some b =>
      by_cases hl : b.length = 65
      · have hs : ∃ sig, hexToSigBytes signature = .ok sig := by
          rw [hexToSigBytes_decoded signature b hd, if_neg (not_not.mpr hl)]
          split_ifs <;> exact ⟨_, rfl⟩
        obtain ⟨sig, hs⟩ := hs
        cases hp : SigToPub P hash sig with
        | none => simp [VerifyEOA, hs, hp, hl]
        | some pub => simp [VerifyEOA, hs, hp, hl]
      · have hs : hexToSigBytes signature = .error .badSigLen := by
          rw [hexToSigBytes_decoded signature b hd, if_pos hl]
        simp [VerifyEOA, hs, hl]
  · intro sig pub hs hp
    simp [VerifyEOA, hs, hp]
  · intro a b ha hb
    simp only [EqualFold, decide_eq_true_eq, toLower_hex P a ha, toLower_hex P b hb,
      List.cons.injEq, true_and]
    exact ⟨hexEncode_inj a b ha hb, fun h => by rw [h]⟩

/-! ## C9: `VerifyERC1271` -/

/-- The four byte comparisons of `VerifyERC1271` hold exactly when the first four bytes are
the magic value. -/
theorem magic_test_iff (l : Bytes) (h : 4 ≤ l.length) :
    (l.getD 0 0 == magicValue.getD 0 0 && l.getD 1 0 == magicValue.getD 1 0 &&
      l.getD 2 0 == magicValue.getD 2 0 && l.getD 3 0 == magicValue.getD 3 0) = true ↔
    l.take 4 = magicValue := by
  match l, h with
  | x0 :: x1 :: x2 :: x3 :: rest, _ =>
    simp [magicValue, and_assoc]

/-- Fewer than four bytes are not the magic value. -/
theorem short_not_magic (l : Bytes) (h : l.length < 4) : l.take 4 ≠ magicValue := by
  intro e
  have := congrArg List.length e
  simp [magicValue] at this
  omega

/-- C9: `VerifyERC1271` returns true if and only if the signature string decodes, the
`eth_call` returns without error, the returned string decodes and its first four bytes are
the magic value `0x1626ba7e`; four or more bytes that start otherwise give false; a call
error, an undecodable return and a return shorter than four bytes give an error. -/
theorem verifyERC1271_magic (P : Primitives) (rpc : Rpc) (contract : Address) (hash : Bytes)
    (sigHex : GoString) :
    (VerifyERC1271 P rpc contract hash sigHex = .ok true ↔
      ∃ sig out outBytes, hexDecodeString (trimPrefix0x sigHex) = some sig ∧
        rpc.ethCall contract
          ('0' :: 'x' :: hexEncode (packIsValidSignature P (BytesToHash hash) sig)) = some out ∧
        hexDecodeString (trimPrefix0x out) = some outBytes ∧
        outBytes.take 4 = magicValue) ∧
    (∀ sig, hexDecodeString (trimPrefix0x sigHex) = some sig →
      (rpc.ethCall contract
          ('0' :: 'x' :: hexEncode (packIsValidSignature P (BytesToHash hash) sig)) = none →
        VerifyERC1271 P rpc contract hash sigHex = .error .callFailed) ∧
      (∀ out, rpc.ethCall contract
          ('0' :: 'x' :: hexEncode (packIsValidSignature P (BytesToHash hash) sig)) = some out →
        (hexDecodeString (trimPrefix0x out) = none →
          VerifyERC1271 P rpc contract hash sigHex = .error .bad1271Resp) ∧
        (∀ outBytes, hexDecodeString (trimPrefix0x out) = some outBytes →
          (outBytes.length < 4 →
            VerifyERC1271 P rpc contract hash sigHex = .error .bad1271Resp) ∧
          (4 ≤ outBytes.length → outBytes.take 4 ≠ magicValue →
            VerifyERC1271 P rpc contract hash sigHex = .ok false)))) := by
  refine ⟨⟨fun h => ?_, ?_⟩, ?_⟩
  · cases hs : hexDecodeString (trimPrefix0x sigHex) with
    | none => simp [VerifyERC1271, hs] at h
    | some sig =>
    cases hc : rpc.ethCall contract
        ('0' :: 'x' :: hexEncode (packIsValidSignature P (BytesToHash hash) sig)) with
    | none => simp [VerifyERC1271, hs, hc] at h
    | some out =>
    cases ho : hexDecodeString (trimPrefix0x out) with
    | none => simp [VerifyERC1271, hs, hc, ho] at h
    | some outBytes =>
    by_cases hl : outBytes.length < 4
    · simp only [VerifyERC1271, hs, hc, ho, if_pos hl] at h
      cases h
    · simp only [VerifyERC1271, hs, hc, ho, if_neg hl, Except.ok.injEq] at h
      exact ⟨sig, out, outBytes, rfl, hc, ho, (magic_test_iff outBytes (by omega)).mp h⟩
  · rintro ⟨sig, out, outBytes, hs, hc, ho, hm⟩
    have hl : ¬ outBytes.length < 4 := fun hl => short_not_magic outBytes hl hm
    simp only [VerifyERC1271, hs, hc, ho, if_neg hl, Except.ok.injEq]
    exact (magic_test_iff outBytes (by omega)).mpr hm
  · intro sig hs
    refine ⟨fun hc => by simp only [VerifyERC1271, hs, hc], fun out hc =>
      ⟨fun ho => by simp only [VerifyERC1271, hs, hc, ho], fun outBytes ho =>
        ⟨fun hl => by simp only [VerifyERC1271, hs, hc, ho, if_pos hl], fun h4 hne => ?_⟩⟩⟩
    have hl : ¬ outBytes.length < 4 := by omega
    simp only [VerifyERC1271, hs, hc, ho, if_neg hl, Except.ok.injEq, Bool.eq_false_iff]
    exact fun h => hne ((magic_test_iff outBytes h4).mp h)

/-! ## The pattern matcher -/

/-- Literal pattern elements in front of a pattern consume exactly these characters. -/
theorem matchNodes_lits (L : List Char) (ns : List Node) (grp s : List Char) :
    matchNodes (L.map Node.lit ++ ns) false grp (L ++ s) = matchNodes ns false grp s := by
  induction L with
  | nil => rfl
  | cons c cs ih => simp [matchNodes, ih]

/-- Literal pattern elements fail on text that does not start with them. -/
theorem matchNodes_lits_none (L : List Char) (ns : List Node) (g : Bool) :
    ∀ (grp s : List Char), L.isPrefixOf s = false →
      matchNodes (L.map Node.lit ++ ns) g grp s = none := by
  induction L with
  | nil => intro grp s h; simp at h
  | cons c cs ih =>
    intro grp s h
    cases s with
    | nil => simp [matchNodes]
    | cons x rest =>
      by_cases hx : x = c
      · subst hx
        simp only [List.isPrefixOf, beq_self_eq_true, Bool.true_and] at h
        simp [matchNodes, ih _ rest h]
      · simp [matchNodes, hx]

/-- A greedy unbounded repetition followed by text outside the class takes the whole run,
when the rest of the pattern then matches. -/
theorem matchRep_greedy {α : Type} (cls : Char → Bool) (k : List Char → List Char → Option α)
    (w r : List Char) (v : α) (hw : ∀ c ∈ w, cls c = true)
    (hr : ∀ c r0, r = c :: r0 → cls c = false) :
    ∀ taken : List Char, k (w.reverse ++ taken) r = some v →
      matchRep cls none k taken (w ++ r) = some v := by
  induction w with
  | nil =>
    intro taken hk
    cases r with
    | nil => simpa [matchRep] using hk
    | cons c r0 => simpa [matchRep, hr c r0 rfl] using hk
  | cons x xs ih =>
    intro taken hk
    have hx : cls x = true := hw x (List.mem_cons_self _ _)
    have h := ih (fun c hc => hw c (List.mem_cons_of_mem _ hc)) (x :: taken)
      (by simpa using hk)
    simp [matchRep, hx, h]

/-- A repetition bounded by `m` stops after `m` characters. -/
theorem matchRep_bounded {α : Type} (cls : Char → Bool) (k : List Char → List Char → Option α)
    (m : Nat) (w r : List Char) (v : α) (hw : ∀ c ∈ w, cls c = true) :
    ∀ taken : List Char, taken.length + w.length = m → k (w.reverse ++ taken) r = some v →
      matchRep cls (some m) k taken (w ++ r) = some v := by
  induction w with
  | nil =>
    intro taken hm hk
    have hm2 : ¬ taken.length < m := by simp at hm; omega
    cases r with
    | nil => simpa [matchRep] using hk
    | cons c r0 => simpa [matchRep, hm2] using hk
  | cons x xs ih =>
    intro taken hm hk
    have hx : cls x = true := hw x (List.mem_cons_self _ _)
    have hlt : taken.length < m := by simp at hm; omega
    have h := ih (fun c hc => hw c (List.mem_cons_of_mem _ hc)) (x :: taken)
      (by simp at hm ⊢; omega) (by simpa using hk)
    simp [matchRep, hx, hlt, h]

/-- The search tries the current position and then moves on. -/
theorem searchFrom_cons (r : Regex) (prev : Option Char) (c : Char) (s : List Char) :
    searchFrom r prev (c :: s) =
      match (if r.anchor.allows prev then matchNodes r.nodes false [] (c :: s) else none) with
      | some g => some g
      | none => searchFrom r (some c) s := rfl

/-- A match at the first position is the result of the search. -/
theorem searchFrom_here (r : Regex) (prev : Option Char) (s g : List Char)
    (ha : r.anchor.allows prev = true) (hm : matchNodes r.nodes false [] s = some g) :
    searchFrom r prev s = some g := by
  cases s with
  | nil => simp [searchFrom, ha, hm]
  | cons c s => simp [searchFrom, ha, hm]

/-- Unfolding of `lineStartsFree` on a non-empty text. -/
theorem lineStartsFree_cons (L : List Char) (bol : Bool) (c : Char) (s : List Char) :
    lineStartsFree L bol (c :: s) =
      (!(bol && L.isPrefixOf (c :: s)) && lineStartsFree L (c == '\n') s) := rfl

/-- A text that begins with another character does not begin with the label. -/
theorem isPrefixOf_cons_ne (l c : Char) (ls s : List Char) (h : l ≠ c) :
    (l :: ls).isPrefixOf (c :: s) = false := by
  simp only [List.isPrefixOf]
  rw [beq_eq_false_iff_ne.mpr h]
  rfl

/-- A prefix of a text is a prefix of every extension of it. -/
theorem isPrefixOf_append (y : List Char) :
    ∀ L x : List Char, L.isPrefixOf x = true → L.isPrefixOf (x ++ y) = true := by
  intro L
  induction L with
  | nil => intro x _; simp [List.isPrefixOf]
  | cons l ls ih =>
    intro x h
    cases x with
    | nil => simp [List.isPrefixOf] at h
    | cons c cs =>
      simp only [List.cons_append, List.isPrefixOf, Bool.and_eq_true] at h ⊢
      exact ⟨h.1, ih cs h.2⟩

/-- A label without newline that starts a text lies before the first newline. -/
theorem isPrefixOf_line (x rest : List Char) :
    ∀ L : List Char, '\n' ∉ L → L.isPrefixOf (x ++ '\n' :: rest) = true →
      L.isPrefixOf x = true := by
  induction x with
  | nil =>
    intro L hL h
    cases L with
    | nil => rfl
    | cons l ls =>
      simp only [List.nil_append, List.isPrefixOf, Bool.and_eq_true, beq_iff_eq] at h
      exact absurd (h.1 ▸ List.mem_cons_self _ _) hL
  | cons c cs ih =>
    intro L hL h
    cases L with
    | nil => rfl
    | cons l ls =>
      simp only [List.cons_append, List.isPrefixOf, Bool.and_eq_true, beq_iff_eq] at h ⊢
      exact ⟨h.1, ih ls (fun hm => hL (List.mem_cons_of_mem _ hm)) h.2⟩

/-- A non-empty label without newline does not start a text that begins with a newline. -/
theorem isPrefixOf_newline (L : List Char) (hL0 : L ≠ []) (hLn : '\n' ∉ L) (s : List Char) :
    L.isPrefixOf ('\n' :: s) = false := by
  cases L with
  | nil => exact absurd rfl hL0
  | cons l ls =>
    exact isPrefixOf_cons_ne l '\n' ls s (fun h => hLn (h ▸ List.mem_cons_self _ _))

/-- The search for a label at the beginning of a line passes over a stretch of text, closed
by a newline, in which no line begins with the label. -/
theorem searchFrom_skip_line (L : List Char) (ns : List Node) (hL0 : L ≠ [])
    (hLn : '\n' ∉ L) (rest : List Char) :
    ∀ (x : List Char) (prev : Option Char),
      lineStartsFree L (Anchor.line.allows prev) (x ++ ['\n']) = true →
      searchFrom ⟨.line, L.map Node.lit ++ ns⟩ prev (x ++ '\n' :: rest) =
        searchFrom ⟨.line, L.map Node.lit ++ ns⟩ (some '\n') rest := by
  intro x
  induction x with
  | nil =>
    intro prev _
    rw [List.nil_append, searchFrom_cons]
    simp only [matchNodes_lits_none L ns false [] _ (isPrefixOf_newline L hL0 hLn rest),
      ite_self]
  | cons c cs ih =>
    intro prev hfree
    rw [List.cons_append, lineStartsFree_cons, Bool.and_eq_true] at hfree
    obtain ⟨h1, h2⟩ := hfree
    have hnone : (if (Anchor.line).allows prev = true
        then matchNodes (L.map Node.lit ++ ns) false [] (c :: (cs ++ '\n' :: rest))
        else none) = none := by
      by_cases ha : Anchor.line.allows prev = true
      · rw [if_pos ha]
        apply matchNodes_lits_none
        rw [Bool.eq_false_iff]
        intro hp
        have hq := isPrefixOf_append ['\n'] L (c :: cs)
          (isPrefixOf_line (c :: cs) rest L hLn hp)
        rw [List.cons_append] at hq
        rw [ha, hq] at h1
        cases h1
      · rw [if_neg ha]
    rw [List.cons_append, searchFrom_cons]
    simp only [hnone]
    exact ih (some c) (by simpa [Anchor.allows] using h2)

/-- The search for a label at the beginning of a line passes over whole lines that do not
begin with the label, and returns the match found on the text after them. -/
theorem search_after_lines (L : List Char) (ns : List Node) (hL0 : L ≠ [])
    (hLn : '\n' ∉ L) (rest g : List Char)
    (hm : matchNodes (L.map Node.lit ++ ns) false [] rest = some g) :
    ∀ (pre : List GoString) (prev : Option Char), Anchor.line.allows prev = true →
      (∀ l ∈ pre, lineStartsFree L true (l ++ ['\n']) = true) →
      searchFrom ⟨.line, L.map Node.lit ++ ns⟩ prev (unlines pre ++ rest) = some g := by
  intro pre
  induction pre with
  | nil =>
    intro prev ha _
    exact searchFrom_here _ prev rest g ha hm
  | cons l ls ih =>
    intro prev ha hfree
    have h1 : lineStartsFree L (Anchor.line.allows prev) (l ++ ['\n']) = true := by
      rw [ha]; exact hfree l (List.mem_cons_self _ _)
    have : unlines (l :: ls) ++ rest = l ++ '\n' :: (unlines ls ++ rest) := by
      simp [unlines]
    rw [this, searchFrom_skip_line L ns hL0 hLn _ l prev h1]
    exact ih (some '\n') rfl (fun l0 h0 => hfree l0 (List.mem_cons_of_mem _ h0))

/-- A line without newline that does not begin with the label has no line beginning with
the label. -/
theorem lineStartsFree_single (L : List Char) :
    ∀ (x : List Char) (bol : Bool), '\n' ∉ x →
      (bol = true → L.isPrefixOf (x ++ ['\n']) = false) →
      lineStartsFree L bol (x ++ ['\n']) = true := by
  intro x
  induction x with
  | nil =>
    intro bol _ h
    rw [List.nil_append, lineStartsFree_cons]
    cases bol with
    | false => rfl
    | true =>
      have := h rfl
      rw [List.nil_append] at this
      rw [this]; rfl
  | cons c cs ih =>
    intro bol hx h
    have hc : (c == '\n') = false :=
      beq_eq_false_iff_ne.mpr (fun e => hx (e ▸ List.mem_cons_self _ _))
    have hcs : '\n' ∉ cs := fun e => hx (List.mem_cons_of_mem _ e)
    have ht := ih false hcs (fun hf => by cases hf)
    rw [List.cons_append, lineStartsFree_cons, hc, ht]
    cases bol with
    | false => rfl
    | true =>
      have := h rfl
      rw [List.cons_append] at this
      rw [this]; rfl

/-- Closing a text in which no line begins with the label by a newline adds no such line. -/
theorem lineStartsFree_snoc (L : List Char) (hL0 : L ≠ []) (hLn : '\n' ∉ L) :
    ∀ (s : List Char) (bol : Bool), lineStartsFree L bol s = true →
      lineStartsFree L bol (s ++ ['\n']) = true := by
  intro s
  induction s with
  | nil =>
    intro bol _
    rw [List.nil_append, lineStartsFree_cons, isPrefixOf_newline L hL0 hLn []]
    simp [lineStartsFree]
  | cons c cs ih =>
    intro bol h
    rw [lineStartsFree_cons, Bool.and_eq_true] at h
    obtain ⟨h1, h2⟩ := h
    rw [List.cons_append, lineStartsFree_cons, ih _ h2, Bool.and_true]
    cases bol with
    | false => rfl
    | true =>
      have hp : L.isPrefixOf (c :: (cs ++ ['\n'])) = false := by
        rw [Bool.eq_false_iff]
        intro hp
        have hq := isPrefixOf_line (c :: cs) [] L hLn (by simpa using hp)
        rw [hq] at h1
        cases h1
      rw [hp]; rfl

/-- A field pattern `label\s*(cls+)` on a line `label value` captures the value, when the
value is a non-empty run of the class that starts outside white space and the class does
not contain the newline. -/
theorem match_field (L : List Char) (cls : Char → Bool) (value rest : List Char)
    (hne : value ≠ []) (hcls : ∀ c ∈ value, cls c = true)
    (hsp : ∀ c ∈ value, reSpace c = false) (hnl : cls '\n' = false) :
    matchNodes (L.map Node.lit ++ [.rep reSpace 0 none, .capOpen, .rep cls 1 none, .capClose])
      false [] (L ++ ' ' :: (value ++ '\n' :: rest)) = some value := by
  rw [matchNodes_lits]
  simp only [matchNodes]
  have hlen : 1 ≤ value.length := by
    cases value with
    | nil => exact absurd rfl hne
    | cons c cs => simp
  show matchRep reSpace none _ [] ([' '] ++ (value ++ '\n' :: rest)) = some value
  apply matchRep_greedy reSpace _ [' '] _ value
  · intro c hc
    rw [List.mem_singleton] at hc
    subst hc
    rfl
  · intro c r0 h
    cases value with
    | nil => exact absurd rfl hne
    | cons v vs =>
      simp only [List.cons_append, List.cons.injEq] at h
      exact h.1 ▸ hsp v (List.mem_cons_self _ _)
  · show matchRep cls none _ [] (value ++ '\n' :: rest) = some value
    apply matchRep_greedy cls _ value ('\n' :: rest) value hcls
    · intro c r0 h
      cases h
      exact hnl
    · simp [hlen]

/-- A pattern `(\S+)\s+W` on a text `domain W ...` captures the domain, when `W` starts
outside white space. -/
theorem match_greeting (W : List Char) (domain rest : List Char)
    (hW : ∃ c cs, W = c :: cs ∧ reSpace c = false) (hne : domain ≠ [])
    (hd : ∀ c ∈ domain, reNotSpace c = true) :
    matchNodes ([.capOpen, .rep reNotSpace 1 none, .capClose, .rep reSpace 1 none] ++
      W.map Node.lit) false [] (domain ++ ' ' :: (W ++ rest)) = some domain := by
  have hlen : 1 ≤ domain.length := by
    cases domain with
    | nil => exact absurd rfl hne
    | cons c cs => simp
  simp only [List.cons_append, List.nil_append, matchNodes]
  apply matchRep_greedy reNotSpace _ domain _ domain hd
  · intro c r0 h
    cases h
    rfl
  · simp only [List.append_nil, List.length_reverse, hlen, if_true]
    show matchRep reSpace none _ [] ([' '] ++ (W ++ rest)) = some domain
    apply matchRep_greedy reSpace _ [' '] _ domain
    · intro c hc
      rw [List.mem_singleton] at hc
      subst hc
      rfl
    · intro c r0 h
      obtain ⟨w, ws, hw, hsp⟩ := hW
      rw [hw] at h
      simp only [List.cons_append, List.cons.injEq] at h
      exact h.1 ▸ hsp
    · have := matchNodes_lits W [] domain.reverse rest
      simp only [List.append_nil] at this
      simp [this, matchNodes]

/-- The greeting pattern captures the domain in front of ` wants you to sign in ...`. -/
theorem find_first_line (domain rest : List Char) (hne : domain ≠ [])
    (hd : ∀ c ∈ domain, reNotSpace c = true) :
    FindStringSubmatch reFirstLine
      (domain ++ ' ' :: ("wants you to sign in with your Ethereum account:".toList ++ rest)) =
      some domain :=
  searchFrom_here reFirstLine none _ _ rfl
    (match_greeting "wants you to sign in with your Ethereum account:".toList domain rest
      ⟨'w', "ants you to sign in with your Ethereum account:".toList, rfl, rfl⟩ hne hd)

/-- A search for a pattern that begins with a newline passes over text without newline. -/
theorem searchFrom_skip_no_newline (a : Anchor) (ns : List Node) (rest : List Char) :
    ∀ (x : List Char) (prev : Option Char), '\n' ∉ x →
      ∃ prev0, searchFrom ⟨a, .lit '\n' :: ns⟩ prev (x ++ rest) =
        searchFrom ⟨a, .lit '\n' :: ns⟩ prev0 rest := by
  intro x
  induction x with
  | nil => intro prev _; exact ⟨prev, rfl⟩
  | cons c cs ih =>
    intro prev hx
    have hc : c ≠ '\n' := fun e => hx (e ▸ List.mem_cons_self _ _)
    obtain ⟨p0, hp0⟩ := ih (some c) (fun e => hx (List.mem_cons_of_mem _ e))
    refine ⟨p0, ?_⟩
    rw [List.cons_append, searchFrom_cons]
    simp only [matchNodes, hc, if_false, ite_self]
    exact hp0

/-- The address pattern captures the line after the first newline, when that line is `0x`
and 40 hexadecimal digits. -/
theorem find_address (line1 h rest : List Char) (h1 : '\n' ∉ line1) (hlen : h.length = 40)
    (hh : ∀ c ∈ h, reHex c = true) :
    FindStringSubmatch reAddress (line1 ++ '\n' :: ('0' :: 'x' :: h ++ '\n' :: rest)) =
      some ('0' :: 'x' :: h) := by
  obtain ⟨p0, hp0⟩ := searchFrom_skip_no_newline .free
    [.capOpen, .lit '0', .lit 'x', .rep reHex 40 (some 40), .capClose, .lit '\n']
    ('\n' :: ('0' :: 'x' :: h ++ '\n' :: rest)) line1 none h1
  unfold FindStringSubmatch reAddress
  rw [hp0]
  apply searchFrom_here ⟨.free, _⟩ p0 _ _ rfl
  simp only [List.cons_append, matchNodes, if_true]
  apply matchRep_bounded reHex _ 40 h _ _ hh [] (by simpa using hlen)
  simp [matchNodes, hlen]

/-! ## Character classes, numerals and trimming -/

/-- The characters of class `\s`. -/
theorem reSpace_cases (c : Char) (h : reSpace c = true) :
    c = '\t' ∨ c = '\n' ∨ c = Char.ofNat 12 ∨ c = '\r' ∨ c = ' ' := by
  simpa [reSpace, or_assoc] using h

/-- Class `\s` contains no digit. -/
theorem reSpace_of_digit (c : Char) (h : reDigit c = true) : reSpace c = false := by
  rw [Bool.eq_false_iff]
  intro hs
  rcases reSpace_cases c hs with rfl | rfl | rfl | rfl | rfl <;> revert h <;> decide

/-- Class `\s` contains no letter or digit. -/
theorem reSpace_of_alnum (c : Char) (h : reAlnum c = true) : reSpace c = false := by
  rw [Bool.eq_false_iff]
  intro hs
  rcases reSpace_cases c hs with rfl | rfl | rfl | rfl | rfl <;> revert h <;> decide

/-- Class `\s` lies within the white space of `unicode.IsSpace`. -/
theorem reSpace_of_not_unicode (c : Char) (h : isSpaceUnicode c = false) : reSpace c = false := by
  rw [Bool.eq_false_iff]
  intro hs
  rcases reSpace_cases c hs with rfl | rfl | rfl | rfl | rfl <;> revert h <;> decide

/-- A character outside class `\s` is not the newline. -/
theorem ne_newline_of_not_space (c : Char) (h : reSpace c = false) : c ≠ '\n' := by
  rintro rfl
  revert h
  decide

/-- Text without characters of class `\s` has no newline. -/
theorem no_newline_of_not_space (s : List Char) (h : ∀ c ∈ s, reSpace c = false) :
    '\n' ∉ s := fun hm => ne_newline_of_not_space _ (h _ hm) rfl

/-- The code of the digit character of a value below 10. -/
theorem toNat_digit (d : Nat) (h : d < 10) : (Char.ofNat (48 + d)).toNat = 48 + d := by
  interval_cases d <;> rfl

/-- The value of a numeral extended by one digit. -/
theorem digitsValue_snoc (ds : List Char) (c : Char) :
    digitsValue (ds ++ [c]) = digitsValue ds * 10 + (c.toNat - 48) := by
  simp [digitsValue, List.foldl_append]

/-- The decimal numeral of `n` consists of digits and has the value `n`. -/
theorem toDigits_spec (n : Nat) :
    (∀ c ∈ Nat.toDigits 10 n, reDigit c = true) ∧ digitsValue (Nat.toDigits 10 n) = n ∧
      Nat.toDigits 10 n ≠ [] := by
  induction n using Nat.strong_induction_on with
  | _ n ih =>
    by_cases hs : n < 10
    · rw [toDigits_small n hs]
      refine ⟨?_, ?_, by simp⟩
      · intro c hc
        rw [List.mem_singleton] at hc
        subst hc
        interval_cases n <;> rfl
      · simp [digitsValue, toNat_digit n hs]
    · obtain ⟨h1, h2, _⟩ := ih (n / 10) (by omega)
      rw [toDigits_step n (by omega)]
      refine ⟨?_, ?_, by simp⟩
      · intro c hc
        rw [List.mem_append, List.mem_singleton] at hc
        rcases hc with hc | hc
        · exact h1 c hc
        · subst hc
          have : n % 10 < 10 := Nat.mod_lt _ (by decide)
          interval_cases (n % 10) <;> rfl
      · rw [digitsValue_snoc, h2, toNat_digit _ (Nat.mod_lt _ (by decide))]
        omega

/-- Trimming leaves text without white space as it is. -/
theorem trimSpace_id (s : List Char) (h : ∀ c ∈ s, isSpaceUnicode c = false) :
    TrimSpace s = s := by
  have hdw : ∀ t : List Char, (∀ c ∈ t, isSpaceUnicode c = false) →
      t.dropWhile isSpaceUnicode = t := by
    intro t ht
    cases t with
    | nil => rfl
    | cons c cs => simp [List.dropWhile, ht c (List.mem_cons_self _ _)]
  unfold TrimSpace
  rw [hdw s h, hdw s.reverse (fun c hc => h c (List.mem_reverse.mp hc)), List.reverse_reverse]

/-- A built message is its header lines followed by its six labelled lines. -/
theorem build_eq_unlines (f : Fields) : f.build = unlines (headerLines f ++ fieldLines f) := by
  have e1 : " wants you to sign in with your Ethereum account:\n".toList =
      " wants you to sign in with your Ethereum account:".toList ++ ['\n'] := by decide
  have e2 : "\n\n".toList = ['\n', '\n'] := rfl
  have e3 : "\n".toList = ['\n'] := rfl
  by_cases hs : f.statement = []
  · simp [Fields.build, BuildSiweString, headerLines, fieldLines, unlines, hs, e1, e2, e3]
  · simp [Fields.build, BuildSiweString, headerLines, fieldLines, unlines, hs, e1, e2, e3]

/-! ## C1: building and parsing a challenge -/

/-- A text that starts with a label has the label either within its first part or across
the boundary of its two parts. -/
theorem isPrefixOf_split (y : List Char) :
    ∀ L x : List Char, L.isPrefixOf (x ++ y) = true →
      L.isPrefixOf x = true ∨ ∃ k, k < L.length ∧ (L.drop k).isPrefixOf y = true := by
  intro L
  induction L with
  | nil => intro x _; left; simp [List.isPrefixOf]
  | cons l ls ih =>
    intro x h
    cases x with
    | nil => right; exact ⟨0, by simp, by simpa using h⟩
    | cons c cs =>
      simp only [List.cons_append, List.isPrefixOf, Bool.and_eq_true] at h
      rcases ih cs h.2 with h1 | ⟨k, hk, h2⟩
      · left; simp only [List.isPrefixOf, Bool.and_eq_true]; exact ⟨h.1, h1⟩
      · right; exact ⟨k + 1, by simpa using hk, by simpa using h2⟩

/-- The field pattern of a label finds the value of its line, after lines that do not
begin with the label. -/
theorem find_field (L : List Char) (cls : Char → Bool) (hL0 : L ≠ []) (hLn : '\n' ∉ L)
    (pre : List GoString) (value rest : List Char)
    (hfree : ∀ l ∈ pre, lineStartsFree L true (l ++ ['\n']) = true)
    (hne : value ≠ []) (hcls : ∀ c ∈ value, cls c = true)
    (hsp : ∀ c ∈ value, reSpace c = false) (hnl : cls '\n' = false) :
    FindStringSubmatch
      ⟨.line, L.map Node.lit ++ [.rep reSpace 0 none, .capOpen, .rep cls 1 none, .capClose]⟩
      (unlines pre ++ (L ++ ' ' :: (value ++ '\n' :: rest))) = some value :=
  search_after_lines L _ hL0 hLn _ value (match_field L cls value rest hne hcls hsp hnl)
    pre none rfl hfree

/-- Facts about the six labels: none is empty, contains a newline or begins with `0`, and
no proper end of a label begins the text ` wants you to sign in ...`. -/
theorem labels_facts :
    ∀ L ∈ labels, L ≠ [] ∧ '\n' ∉ L ∧ L.head? ≠ some '0' ∧
      ∀ k, k < L.length →
        (L.drop k).isPrefixOf
          (" wants you to sign in with your Ethereum account:".toList ++ ['\n']) = false := by
  decide

/-- No header line of a message built from valid fields begins with a label, when neither
the domain nor a line of the statement does. -/
theorem header_free (P : Primitives) (f : Fields) (hv : validFields P f = true)
    (hd : noLabelLine f.domain = true) (hs : noLabelLine f.statement = true) :
    ∀ L ∈ labels, ∀ l ∈ headerLines f, lineStartsFree L true (l ++ ['\n']) = true := by
  intro L hL l hl
  obtain ⟨hL0, hLn, hL1, hLk⟩ := labels_facts L hL
  have hdL : lineStartsFree L true f.domain = true :=
    (List.all_eq_true.mp hd) L hL
  have hsL : lineStartsFree L true f.statement = true :=
    (List.all_eq_true.mp hs) L hL
  simp only [validFields, Bool.and_eq_true] at hv
  obtain ⟨⟨⟨⟨⟨⟨⟨⟨⟨⟨⟨⟨hd0, hd1⟩, ha⟩, _⟩, _⟩, _⟩, _⟩, _⟩, _⟩, _⟩, _⟩, _⟩, _⟩ := hv
  have hempty : lineStartsFree L true ([] ++ ['\n']) = true := by
    rw [List.nil_append, lineStartsFree_cons, isPrefixOf_newline L hL0 hLn []]
    rfl
  have hl2 : l = f.domain ++ " wants you to sign in with your Ethereum account:".toList ∨
      l = f.address ∨ l = [] ∨ (f.statement ≠ [] ∧ l = f.statement) := by
    by_cases hst : f.statement = []
    · simp [headerLines, hst] at hl
      tauto
    · simp [headerLines, hst] at hl
      tauto
  rcases hl2 with rfl | rfl | rfl | ⟨_, rfl⟩
  · -- the greeting line
    have hdn : ∀ c ∈ f.domain, reSpace c = false := by
      intro c hc
      have := (List.all_eq_true.mp hd1) c hc
      simpa [reNotSpace] using this
    apply lineStartsFree_single
    · intro hm
      rw [List.mem_append] at hm
      rcases hm with hm | hm
      · exact no_newline_of_not_space _ hdn hm
      · revert hm; decide
    · intro _
      rw [Bool.eq_false_iff, List.append_assoc]
      intro hp
      rcases isPrefixOf_split _ L f.domain hp with h1 | ⟨k, hk, h2⟩
      · cases hdom : f.domain with
        | nil => simp [hdom] at hd0
        | cons c cs =>
          rw [hdom, lineStartsFree_cons, Bool.and_eq_true] at hdL
          rw [hdom] at h1
          rw [h1] at hdL
          exact absurd hdL.1 (by decide)
      · rw [hLk k hk] at h2
        cases h2
  · -- the address line
    cases haddr : f.address with
    | nil => rw [haddr] at ha; cases ha
    | cons a0 as =>
      have ha0 : a0 = '0' := by
        rw [haddr] at ha
        by_contra hne
        simp [validAddress, hne] at ha
      subst ha0
      have hax : ∀ c ∈ '0' :: as, c ≠ '\n' := by
        intro c hc
        rw [haddr] at ha
        cases as with
        | nil => cases ha
        | cons a1 as1 =>
          by_cases h1 : a1 = 'x'
          · subst h1
            simp only [validAddress, Bool.and_eq_true, List.all_eq_true] at ha
            simp only [List.mem_cons] at hc
            rcases hc with rfl | rfl | hc
            · decide
            · decide
            · rintro rfl
              exact absurd (ha.2 _ hc) (by decide)
          · simp [validAddress, h1] at ha
      apply lineStartsFree_single
      · exact fun hm => hax _ hm rfl
      · intro _
        cases L with
        | nil => exact absurd rfl hL0
        | cons l0 ls =>
          rw [List.cons_append]
          exact isPrefixOf_cons_ne l0 '0' ls _ (fun e => hL1 (by rw [e]; rfl))
  · exact hempty
  · exact lineStartsFree_snoc L hL0 hLn _ true hsL

/-- The text of a list of lines, first line apart. -/
theorem unlines_cons (l : GoString) (ls : List GoString) :
    unlines (l :: ls) = l ++ '\n' :: unlines ls := by
  simp [unlines]

/-- The text of two lists of lines. -/
theorem unlines_append (a b : List GoString) : unlines (a ++ b) = unlines a ++ unlines b := by
  simp [unlines]

/-- A line `label value` with a value without newline has no line beginning with a label
whose first character differs from its own. -/
theorem other_label_free (L L0 value : List Char) (hL : L ≠ []) (hL0 : L0 ≠ [])
    (hh : L.head? ≠ L0.head?) (hn : '\n' ∉ L0) (hv : '\n' ∉ value) :
    lineStartsFree L true ((L0 ++ ' ' :: value) ++ ['\n']) = true := by
  apply lineStartsFree_single
  · intro hm
    rw [List.mem_append, List.mem_cons] at hm
    rcases hm with hm | hm | hm
    · exact hn hm
    · revert hm; decide
    · exact hv hm
  · intro _
    cases L with
    | nil => exact absurd rfl hL
    | cons l ls =>
      cases L0 with
      | nil => exact absurd rfl hL0
      | cons c cs =>
        simp only [List.cons_append]
        exact isPrefixOf_cons_ne l c ls _ (fun e => hh (by rw [e]; rfl))

/-- The parts of a valid field set. -/
theorem validFields_parts (P : Primitives) (f : Fields) (hv : validFields P f = true) :
    (f.domain ≠ [] ∧ ∀ c ∈ f.domain, reNotSpace c = true) ∧
    (∃ h, f.address = '0' :: 'x' :: h ∧ h.length = 40 ∧ ∀ c ∈ h, reHex c = true) ∧
    (f.uri ≠ [] ∧ ∀ c ∈ f.uri, reNotSpace c = true) ∧
    (f.version ≠ [] ∧ ∀ c ∈ f.version, reDigit c = true) ∧
    (0 ≤ f.chainId ∧ f.chainId < 2 ^ 63) ∧
    (f.nonce ≠ [] ∧ ∀ c ∈ f.nonce, reAlnum c = true) ∧
    (f.issuedAt ≠ [] ∧ (∀ c ∈ f.issuedAt, isSpaceUnicode c = false) ∧
      ∃ t, P.parseRFC3339 f.issuedAt = some t) ∧
    (f.expirationTime ≠ [] ∧ (∀ c ∈ f.expirationTime, isSpaceUnicode c = false) ∧
      ∃ t, P.parseRFC3339 f.expirationTime = some t) := by
  simp only [validFields, validTimestamp, Bool.and_eq_true, Bool.not_eq_true',
    List.isEmpty_eq_false, List.all_eq_true, decide_eq_true_eq, Option.isSome_iff_exists,
    Bool.not_eq_true', Bool.not_eq_false'] at hv
  obtain ⟨⟨⟨⟨⟨⟨⟨⟨⟨⟨⟨⟨hd0, hd1⟩, ha⟩, hu0⟩, hu1⟩, hv0⟩, hv1⟩, hc0⟩, hc1⟩, hn0⟩, hn1⟩, hi⟩, he⟩ := hv
  refine ⟨⟨hd0, hd1⟩, ?_, ⟨hu0, hu1⟩, ⟨hv0, hv1⟩, ⟨hc0, hc1⟩, ⟨hn0, hn1⟩, ?_, ?_⟩
  · cases haddr : f.address with
    | nil => rw [haddr] at ha; cases ha
    | cons a0 as =>
      cases as with
      | nil =>
        rw [haddr] at ha
        by_cases h0 : a0 = '0'
        · subst h0; cases ha
        · simp [validAddress] at ha
      | cons a1 as1 =>
        rw [haddr] at ha
        by_cases h0 : a0 = '0'
        · subst h0
          by_cases h1 : a1 = 'x'
          · subst h1
            simp only [validAddress, Bool.and_eq_true, List.all_eq_true, beq_iff_eq] at ha
            exact ⟨as1, rfl, ha.1, ha.2⟩
          · simp [validAddress, h1] at ha
        · simp [validAddress, h0] at ha
  · exact ⟨hi.1.1, fun c hc => by simpa using hi.1.2 c hc, hi.2⟩
  · exact ⟨he.1.1, fun c hc => by simpa using he.1.2 c hc, he.2⟩

/-- The chain id read back from its numeral. -/
theorem parseInt64_fmtInt (n : Int) (h0 : 0 ≤ n) (h1 : n < 2 ^ 63) :
    fmtInt n = Nat.toDigits 10 n.natAbs ∧ parseInt64Digits (fmtInt n) = n := by
  have hf : fmtInt n = Nat.toDigits 10 n.natAbs := by
    unfold fmtInt
    rw [if_neg (not_lt.mpr h0)]
  refine ⟨hf, ?_⟩
  rw [hf]
  unfold parseInt64Digits
  rw [(toDigits_spec n.natAbs).2.1]
  omega

/-- The six labelled fields of a message built from valid fields are found by their
patterns, when neither the domain nor a line of the statement begins with a label. -/
theorem find_fields (P : Primitives) (f : Fields) (hv : validFields P f = true)
    (hd : noLabelLine f.domain = true) (hs : noLabelLine f.statement = true) :
    FindStringSubmatch reURI f.build = some f.uri ∧
    FindStringSubmatch reVersion f.build = some f.version ∧
    FindStringSubmatch reChain f.build = some (fmtInt f.chainId) ∧
    FindStringSubmatch reNonce f.build = some f.nonce ∧
    FindStringSubmatch reIssued f.build = some f.issuedAt ∧
    FindStringSubmatch reExp f.build = some f.expirationTime := by
  obtain ⟨_, _, ⟨hu0, hu1⟩, ⟨hv0, hv1⟩, ⟨hc0, hc1⟩, ⟨hn0, hn1⟩, ⟨hi0, hi1, _⟩, ⟨he0, he1, _⟩⟩ :=
    validFields_parts P f hv
  have hfree := header_free P f hv hd hs
  obtain ⟨hcf, _⟩ := parseInt64_fmtInt f.chainId hc0 hc1
  have hcd := toDigits_spec f.chainId.natAbs
  -- values are outside white space
  have su : ∀ c ∈ f.uri, reSpace c = false := fun c hc => by
    simpa [reNotSpace] using hu1 c hc
  have sv : ∀ c ∈ f.version, reSpace c = false := fun c hc => reSpace_of_digit c (hv1 c hc)
  have sc : ∀ c ∈ fmtInt f.chainId, reSpace c = false := fun c hc =>
    reSpace_of_digit c (hcd.1 c (hcf ▸ hc))
  have sn : ∀ c ∈ f.nonce, reSpace c = false := fun c hc => reSpace_of_alnum c (hn1 c hc)
  have si : ∀ c ∈ f.issuedAt, reSpace c = false := fun c hc =>
    reSpace_of_not_unicode c (hi1 c hc)
  have se : ∀ c ∈ f.expirationTime, reSpace c = false := fun c hc =>
    reSpace_of_not_unicode c (he1 c hc)
  have nu := no_newline_of_not_space _ su
  have nv := no_newline_of_not_space _ sv
  have nc := no_newline_of_not_space _ sc
  have nn := no_newline_of_not_space _ sn
  have ni := no_newline_of_not_space _ si
  have ne := no_newline_of_not_space _ se
  -- an earlier labelled line does not begin with a later label
  have hother : ∀ L ∈ labels, ∀ L0 value : List Char, L0 ≠ [] → '\n' ∉ L0 → '\n' ∉ value →
      L.head? ≠ L0.head? → lineStartsFree L true ((L0 ++ ' ' :: value) ++ ['\n']) = true :=
    fun L hL L0 value h0 hn hv hh =>
      other_label_free L L0 value (labels_facts L hL).1 h0 hh hn hv
  have hb := build_eq_unlines f
  have hfl : fieldLines f = ["URI:".toList ++ ' ' :: f.uri, "Version:".toList ++ ' ' :: f.version,
      "Chain ID:".toList ++ ' ' :: fmtInt f.chainId, "Nonce:".toList ++ ' ' :: f.nonce,
      "Issued At:".toList ++ ' ' :: f.issuedAt,
      "Expiration Time:".toList ++ ' ' :: f.expirationTime] := rfl
  have hsplit : ∀ k : Nat, f.build =
      unlines (headerLines f ++ (fieldLines f).take k) ++ unlines ((fieldLines f).drop k) := by
    intro k
    rw [hb, ← unlines_append, List.append_assoc, List.take_append_drop]
  refine ⟨?_, ?_, ?_, ?_, ?_, ?_⟩
  · have h := find_field "URI:".toList reNotSpace (by decide) (by decide)
      (headerLines f ++ (fieldLines f).take 0) f.uri
      (unlines ((fieldLines f).drop 1))
      (by
        intro l hl
        rw [List.mem_append] at hl
        rcases hl with hl | hl
        · exact hfree _ (by decide) l hl
        · simp [hfl] at hl) hu0 hu1 su rfl
    rw [hsplit 0]
    have ht : unlines ((fieldLines f).drop 0) =
        "URI:".toList ++ ' ' :: (f.uri ++ '\n' :: unlines ((fieldLines f).drop 1)) := by
      rw [hfl]
      simp only [List.drop, unlines_cons, List.append_assoc, List.cons_append]
    rw [ht]
    exact h
  · have h := find_field "Version:".toList reDigit (by decide) (by decide)
      (headerLines f ++ (fieldLines f).take 1) f.version
      (unlines ((fieldLines f).drop 2))
      (by
        intro l hl
        rw [List.mem_append] at hl
        rcases hl with hl | hl
        · exact hfree _ (by decide) l hl
        · rw [hfl] at hl
          simp only [List.take, List.mem_cons, List.mem_singleton, List.not_mem_nil,
            or_false] at hl
          rcases hl with rfl
          · exact hother _ (by decide) "URI:".toList _ (by decide) (by decide) nu
              (by decide)) hv0 hv1 sv rfl
    rw [hsplit 1]
    have ht : unlines ((fieldLines f).drop 1) =
        "Version:".toList ++ ' ' :: (f.version ++ '\n' :: unlines ((fieldLines f).drop 2)) := by
      rw [hfl]
      simp only [List.drop, unlines_cons, List.append_assoc, List.cons_append]
    rw [ht]
    exact h
  · have h := find_field "Chain ID:".toList reDigit (by decide) (by decide)
      (headerLines f ++ (fieldLines f).take 2) (fmtInt f.chainId)
      (unlines ((fieldLines f).drop 3))
      (by
        intro l hl
        rw [List.mem_append] at hl
        rcases hl with hl | hl
        · exact hfree _ (by decide) l hl
        · rw [hfl] at hl
          simp only [List.take, List.mem_cons, List.mem_singleton, List.not_mem_nil,
            or_false] at hl
          rcases hl with rfl | rfl
          · exact hother _ (by decide) "URI:".toList _ (by decide) (by decide) nu
              (by decide)
          · exact hother _ (by decide) "Version:".toList _ (by decide) (by decide) nv
              (by decide)) (hcf ▸ hcd.2.2) (fun c hc => hcd.1 c (hcf ▸ hc)) sc rfl
    rw [hsplit 2]
    have ht : unlines ((fieldLines f).drop 2) =
        "Chain ID:".toList ++ ' ' :: ((fmtInt f.chainId) ++ '\n' :: unlines ((fieldLines f).drop 3)) := by
      rw [hfl]
      simp only [List.drop, unlines_cons, List.append_assoc, List.cons_append]
    rw [ht]
    exact h
  · have h := find_field "Nonce:".toList reAlnum (by decide) (by decide)
      (headerLines f ++ (fieldLines f).take 3) f.nonce
      (unlines ((fieldLines f).drop 4))
      (by
        intro l hl
        rw [List.mem_append] at hl
        rcases hl with hl | hl
        · exact hfree _ (by decide) l hl
        · rw [hfl] at hl
          simp only [List.take, List.mem_cons, List.mem_singleton, List.not_mem_nil,
            or_false] at hl
          rcases hl with rfl | rfl | rfl
          · exact hother _ (by decide) "URI:".toList _ (by decide) (by decide) nu
              (by decide)
          · exact hother _ (by decide) "Version:".toList _ (by decide) (by decide) nv
              (by decide)
          · exact hother _ (by decide) "Chain ID:".toList _ (by decide) (by decide) nc
              (by decide)) hn0 hn1 sn rfl
    rw [hsplit 3]
    have ht : unlines ((fieldLines f).drop 3) =
        "Nonce:".toList ++ ' ' :: (f.nonce ++ '\n' :: unlines ((fieldLines f).drop 4)) := by
      rw [hfl]
      simp only [List.drop, unlines_cons, List.append_assoc, List.cons_append]
    rw [ht]
    exact h
  · have h := find_field "Issued At:".toList reNotNewline (by decide) (by decide)
      (headerLines f ++ (fieldLines f).take 4) f.issuedAt
      (unlines ((fieldLines f).drop 5))
      (by
        intro l hl
        rw [List.mem_append] at hl
        rcases hl with hl | hl
        · exact hfree _ (by decide) l hl
        · rw [hfl] at hl
          simp only [List.take, List.mem_cons, List.mem_singleton, List.not_mem_nil,
            or_false] at hl
          rcases hl with rfl | rfl | rfl | rfl
          · exact hother _ (by decide) "URI:".toList _ (by decide) (by decide) nu
              (by decide)
          · exact hother _ (by decide) "Version:".toList _ (by decide) (by decide) nv
              (by decide)
          · exact hother _ (by decide) "Chain ID:".toList _ (by decide) (by decide) nc
              (by decide)
          · exact hother _ (by decide) "Nonce:".toList _ (by decide) (by decide) nn
              (by decide)) hi0 (fun c hc => by simpa [reNotNewline] using ne_newline_of_not_space c (si c hc)) si rfl
    rw [hsplit 4]
    have ht : unlines ((fieldLines f).drop 4) =
        "Issued At:".toList ++ ' ' :: (f.issuedAt ++ '\n' :: unlines ((fieldLines f).drop 5)) := by
      rw [hfl]
      simp only [List.drop, unlines_cons, List.append_assoc, List.cons_append]
    rw [ht]
    exact h
  · have h := find_field "Expiration Time:".toList reNotNewline (by decide) (by decide)
      (headerLines f ++ (fieldLines f).take 5) f.expirationTime
      (unlines ((fieldLines f).drop 6))
      (by
        intro l hl
        rw [List.mem_append] at hl
        rcases hl with hl | hl
        · exact hfree _ (by decide) l hl
        · rw [hfl] at hl
          simp only [List.take, List.mem_cons, List.mem_singleton, List.not_mem_nil,
            or_false] at hl
          rcases hl with rfl | rfl | rfl | rfl | rfl
          · exact hother _ (by decide) "URI:".toList _ (by decide) (by decide) nu
              (by decide)
          · exact hother _ (by decide) "Version:".toList _ (by decide) (by decide) nv
              (by decide)
          · exact hother _ (by decide) "Chain ID:".toList _ (by decide) (by decide) nc
              (by decide)
          · exact hother _ (by decide) "Nonce:".toList _ (by decide) (by decide) nn
              (by decide)
          · exact hother _ (by decide) "Issued At:".toList _ (by decide) (by decide) ni
              (by decide)) he0 (fun c hc => by simpa [reNotNewline] using ne_newline_of_not_space c (se c hc)) se rfl
    rw [hsplit 5]
    have ht : unlines ((fieldLines f).drop 5) =
        "Expiration Time:".toList ++ ' ' :: (f.expirationTime ++ '\n' :: unlines ((fieldLines f).drop 6)) := by
      rw [hfl]
      simp only [List.drop, unlines_cons, List.append_assoc, List.cons_append]
    rw [ht]
    exact h

/-- A hexadecimal digit has a value below 16, whose lower-case digit is the lower-case form
of the character, and takes one byte. -/
theorem hex_char (c : Char) (h : reHex c = true) :
    c.utf8Size = 1 ∧ ∃ a, a < 16 ∧ fromHexChar c = some a ∧ hexDigit a = asciiLower c := by
  have hc : c = Char.ofNat c.toNat := (Char.ofNat_toNat c).symm
  have hb : (48 ≤ c.toNat ∧ c.toNat ≤ 57) ∨ (97 ≤ c.toNat ∧ c.toNat ≤ 102) ∨
      (65 ≤ c.toNat ∧ c.toNat ≤ 70) := by
    simpa [reHex, reDigit, or_assoc] using h
  generalize c.toNat = n at hc hb
  subst hc
  rcases hb with ⟨h1, h2⟩ | ⟨h1, h2⟩ | ⟨h1, h2⟩ <;> interval_cases n <;>
    exact ⟨by decide, _, by decide, rfl, by decide⟩

/-- Decoding 2n hexadecimal digits gives n bytes whose encoding is the lower-case form of
the digits. -/
theorem hexDecode_hex (n : Nat) :
    ∀ h : List Char, h.length = 2 * n → (∀ c ∈ h, reHex c = true) →
      byteLen h = 2 * n ∧ (hexDecodePrefix h).1.length = n ∧
      (∀ x ∈ (hexDecodePrefix h).1, x < 256) ∧
      hexEncode (hexDecodePrefix h).1 = ToLower h := by
  induction n with
  | zero =>
    intro h hl _
    have : h = [] := List.length_eq_zero.mp (by simpa using hl)
    subst this
    simp [byteLen, hexDecodePrefix, hexEncode, ToLower]
  | succ n ih =>
    intro h hl hh
    match h, hl, hh with
    | p :: q :: rest, hl, hh =>
      obtain ⟨sp, a, ha, hpa, hda⟩ := hex_char p (hh p (by simp))
      obtain ⟨sq, b, hb, hqb, hdb⟩ := hex_char q (hh q (by simp))
      obtain ⟨i1, i2, i3, i4⟩ := ih rest (by simp at hl; omega)
        (fun c hc => hh c (by simp [hc]))
      have e1 : (a * 16 + b) / 16 = a := by omega
      have e2 : (a * 16 + b) % 16 = b := by omega
      refine ⟨?_, ?_, ?_, ?_⟩
      · simp only [byteLen, List.map_cons, List.sum_cons, sp, sq] at i1 ⊢
        omega
      · simp [hexDecodePrefix, hpa, hqb, i2]
      · intro x hx
        simp only [hexDecodePrefix, hpa, hqb, List.mem_cons] at hx
        rcases hx with rfl | hx
        · omega
        · exact i3 x hx
      · simp only [hexDecodePrefix, hpa, hqb, hexEncode, List.flatMap_cons, e1, e2, hda, hdb,
          ToLower, List.map_cons, List.cons_append, List.nil_append]
        simp only [hexEncode, ToLower] at i4
        rw [i4]

/-- The checksum form of a parsed address line is the line itself up to the case of its
letters. -/
theorem toLower_hex_address (P : Primitives) (h : List Char) (hl : h.length = 40)
    (hh : ∀ c ∈ h, reHex c = true) :
    ToLower ((HexToAddress ('0' :: 'x' :: h)).Hex P) = ToLower ('0' :: 'x' :: h) := by
  obtain ⟨i1, i2, i3, i4⟩ := hexDecode_hex 20 h hl hh
  have hf : FromHex ('0' :: 'x' :: h) = (hexDecodePrefix h).1 := by
    simp [FromHex, i1]
  have ha : HexToAddress ('0' :: 'x' :: h) = (hexDecodePrefix h).1 := by
    simp [HexToAddress, BytesToAddress, hf, i2]
  rw [ha, toLower_hex P _ i3, i4]
  rfl

/-- C1, as the code behaves: for every valid field set in which neither the domain nor a
line of the statement begins with one of the six labels, `ParseSiwe` succeeds on the built
message and returns the domain, URI, version, chain id and nonce as given, the two
timestamps as the instants the RFC 3339 parser reads from them, and the address in the
checksum form of `Address.Hex`, which is the given address up to the case of its letters.
The statement is not part of the result. -/
theorem parse_build_roundtrip (P : Primitives) (f : Fields) (hv : validFields P f = true)
    (hd : noLabelLine f.domain = true) (hs : noLabelLine f.statement = true) :
    ∃ tI tE, P.parseRFC3339 f.issuedAt = some tI ∧ P.parseRFC3339 f.expirationTime = some tE ∧
      ParseSiwe P f.build = .ok
        { Domain := f.domain, Address := (HexToAddress f.address).Hex P, URI := f.uri,
          Version := f.version, Nonce := f.nonce, ChainID := f.chainId, IssuedAt := tI,
          Expires := tE } ∧
      ToLower ((HexToAddress f.address).Hex P) = ToLower f.address := by
  obtain ⟨hu, hve, hch, hno, his, hex⟩ := find_fields P f hv hd hs
  obtain ⟨⟨hd0, hd1⟩, ⟨h, hah, hl, hh⟩, _, _, ⟨hc0, hc1⟩, _, ⟨_, hi1, tI, htI⟩,
    ⟨_, he1, tE, htE⟩⟩ := validFields_parts P f hv
  have hdn : ∀ c ∈ f.domain, reSpace c = false := fun c hc => by
    simpa [reNotSpace] using hd1 c hc
  have hb := build_eq_unlines f
  have hhl : headerLines f ++ fieldLines f =
      (f.domain ++ " wants you to sign in with your Ethereum account:".toList) ::
        f.address :: ([] :: ((if f.statement ≠ [] then [f.statement, []] else []) ++
          fieldLines f)) := rfl
  -- the greeting
  have h1 : FindStringSubmatch reFirstLine f.build = some f.domain := by
    have e : " wants you to sign in with your Ethereum account:".toList =
        ' ' :: "wants you to sign in with your Ethereum account:".toList := rfl
    rw [hb, hhl, unlines_cons, e, List.append_assoc, List.cons_append]
    exact find_first_line f.domain _ hd0 hd1
  -- the address line
  have h2 : FindStringSubmatch reAddress f.build = some f.address := by
    rw [hb, hhl, unlines_cons, unlines_cons, hah]
    apply find_address _ h _ _ hl hh
    intro hm
    rw [List.mem_append] at hm
    rcases hm with hm | hm
    · exact no_newline_of_not_space _ hdn hm
    · revert hm; decide
  refine ⟨tI, tE, htI, htE, ?_, ?_⟩
  · simp only [ParseSiwe, h1, h2, hu, hve, hch, hno, his, hex, trimSpace_id _ hi1,
      trimSpace_id _ he1, htI, htE, (parseInt64_fmtInt f.chainId hc0 hc1).2]
  · rw [hah]
    exact toLower_hex_address P h hl hh

set_option maxRecDepth 1000000 in
/-- The theorem `parse_build_roundtrip` on a field set with a statement of two lines. -/
theorem parse_build_roundtrip_witness :
    validFields demoPrimitives demoFields = true ∧ noLabelLine demoFields.domain = true ∧
    noLabelLine demoFields.statement = true ∧
    ∃ tI tE, demoPrimitives.parseRFC3339 demoFields.issuedAt = some tI ∧
      demoPrimitives.parseRFC3339 demoFields.expirationTime = some tE ∧
      ParseSiwe demoPrimitives demoFields.build = .ok
        { Domain := demoFields.domain,
          Address := (HexToAddress demoFields.address).Hex demoPrimitives,
          URI := demoFields.uri, Version := demoFields.version, Nonce := demoFields.nonce,
          ChainID := demoFields.chainId, IssuedAt := tI, Expires := tE } ∧
      ToLower ((HexToAddress demoFields.address).Hex demoPrimitives) =
        ToLower demoFields.address :=
  ⟨by decide, by decide, by decide,
   parse_build_roundtrip demoPrimitives demoFields (by decide) (by decide) (by decide)⟩

set_option maxRecDepth 1000000 in
/-- C1 fails as stated, on three valid field sets: an address given in lower case comes
back in mixed-case checksum form; a domain `URI:evil.example` makes the parsed URI
`evil.example`; a statement line `Nonce: stolen` makes the parsed nonce `stolen`. -/
theorem roundtrip_counterexample :
    (validFields demoPrimitives lowerCaseFields = true ∧
      lowerCaseFields.address = "0x2c7536e3605d9c16a7a3d7b1898e529396a65c23".toList ∧
      ParseSiwe demoPrimitives lowerCaseFields.build = .ok
        { Domain := "example.com".toList,
          Address := "0x2c7536E3605D9C16a7a3D7b1898e529396a65c23".toList,
          URI := "https://app.example".toList, Version := "1".toList,
          Nonce := "abc123".toList, ChainID := 1, IssuedAt := 1735689600000000000,
          Expires := 1735689900000000000 }) ∧
    (validFields demoPrimitives labelDomainFields = true ∧
      labelDomainFields.uri = "https://app.example".toList ∧
      ParseSiwe demoPrimitives labelDomainFields.build = .ok
        { Domain := "URI:evil.example".toList, Address := demoAddress,
          URI := "evil.example".toList, Version := "1".toList,
          Nonce := "abc123".toList, ChainID := 1, IssuedAt := 1735689600000000000,
          Expires := 1735689900000000000 }) ∧
    (validFields demoPrimitives labelStatementFields = true ∧
      labelStatementFields.nonce = "abc123".toList ∧
      ParseSiwe demoPrimitives labelStatementFields.build = .ok
        { Domain := "example.com".toList, Address := demoAddress,
          URI := "https://app.example".toList, Version := "1".toList,
          Nonce := "stolen".toList, ChainID := 1, IssuedAt := 1735689600000000000,
          Expires := 1735689900000000000 }) := by
  decide

/-! ## C10: a statement line that begins with a label -/

set_option maxRecDepth 1000000 in
/-- C10, what the code does: the same valid field set built with an empty statement and
with the statement `URI: https://evil.example` parses to two different URIs; with the
statement, the parsed URI is the text of the statement line, not the URI of the field
set. -/
theorem statement_forges_uri :
    validFields demoPrimitives forgedUriFields = true ∧
    forgedUriFields.uri = "https://app.example".toList ∧
    (ParseSiwe demoPrimitives forgedUriFields.build).toOption.map SiweParsed.URI =
      some "https://evil.example".toList ∧
    (ParseSiwe demoPrimitives { forgedUriFields with statement := [] }.build).toOption.map
      SiweParsed.URI = some "https://app.example".toList := by
  decide

/-- Writing at position `i` leaves the first `i` elements. -/
theorem take_set_self {α : Type} (b : List α) :
    ∀ (i : Nat) (x : α), (b.set i x).take i = b.take i := by
  induction b with
  | nil => intro i x; simp
  | cons y ys ih =>
    intro i x
    cases i with
    | zero => simp
    | succ j => simp [List.set, ih j x]

/-- C19: for every signature string that decodes to exactly 65 bytes, `hexToSigBytes`
returns 65 bytes whose first 64 bytes are the decoded ones; a recovery-id byte 0 or 27
comes out as 27 and a recovery-id byte 1 or 28 comes out as 28, so the two encodings of one
recovery id give the same byte of the pair 27, 28; with any recovery-id byte other than 0
and 1 the decoded bytes are returned unchanged. -/
theorem hexToSigBytes_normalises (sigHex : GoString) (b : Bytes)
    (hdec : hexDecodeString (trimPrefix0x sigHex) = some b) (hlen : b.length = 65) :
    ∃ sig, hexToSigBytes sigHex = .ok sig ∧ sig.length = 65 ∧ sig.take 64 = b.take 64 ∧
      (b.getD 64 0 = 0 ∨ b.getD 64 0 = 27 → sig.getD 64 0 = 27) ∧
      (b.getD 64 0 = 1 ∨ b.getD 64 0 = 28 → sig.getD 64 0 = 28) ∧
      (b.getD 64 0 ≠ 0 → b.getD 64 0 ≠ 1 → sig = b) := by
  rw [hexToSigBytes_decoded sigHex b hdec, if_neg (by simp [hlen])]
  by_cases hv : b.getD 64 0 = 0 ∨ b.getD 64 0 = 1
  · rw [if_pos hv]
    refine ⟨_, rfl, by simp [hlen], ?_, ?_, ?_, ?_⟩
    · exact take_set_self b 64 _
    · intro h
      rw [getD_set_self b 64 _ (by omega)]
      rcases hv with h0 | h1 <;> rcases h with h2 | h2 <;> omega
    · intro h
      rw [getD_set_self b 64 _ (by omega)]
      rcases hv with h0 | h1 <;> rcases h with h2 | h2 <;> omega
    · intro h0 h1
      exact absurd hv (not_or.mpr ⟨h0, h1⟩)
  · rw [if_neg hv]
    refine ⟨b, rfl, hlen, rfl, ?_, ?_, fun _ _ => rfl⟩
    · intro h
      rcases h with h | h
      · exact absurd (Or.inl h) hv
      · exact h
    · intro h
      rcases h with h | h
      · exact absurd (Or.inr h) hv
      · exact h

/-- The signature of the worked example has 65 bytes with the recovery-id byte 28. -/
theorem hexToSigBytes_normalises_witness :
    hexDecodeString (trimPrefix0x honestSignature) = some honestSigBytes ∧
    ∃ sig, hexToSigBytes honestSignature = .ok sig ∧ sig.length = 65 ∧
      sig.take 64 = honestSigBytes.take 64 ∧
      (honestSigBytes.getD 64 0 = 0 ∨ honestSigBytes.getD 64 0 = 27 → sig.getD 64 0 = 27) ∧
      (honestSigBytes.getD 64 0 = 1 ∨ honestSigBytes.getD 64 0 = 28 → sig.getD 64 0 = 28) ∧
      (honestSigBytes.getD 64 0 ≠ 0 → honestSigBytes.getD 64 0 ≠ 1 → sig = honestSigBytes) :=
  ⟨by decide, hexToSigBytes_normalises honestSignature honestSigBytes (by decide) (by decide)⟩

/-! ## C12: the expiration time -/

/-- A pattern that begins with a label at the beginning of a line has no match in a text
none of whose lines begins with the label. -/
theorem searchFrom_none_of_free (L : List Char) (ns : List Node) (hL0 : L ≠ []) :
    ∀ (s : List Char) (prev : Option Char),
      lineStartsFree L (Anchor.line.allows prev) s = true →
      searchFrom ⟨.line, L.map Node.lit ++ ns⟩ prev s = none := by
  intro s
  induction s with
  | nil =>
    intro prev _
    have hm : matchNodes (L.map Node.lit ++ ns) false [] [] = none := by
      apply matchNodes_lits_none
      cases L with
      | nil => exact absurd rfl hL0
      | cons l ls => rfl
    simp [searchFrom, hm]
  | cons c cs ih =>
    intro prev hfree
    rw [lineStartsFree_cons, Bool.and_eq_true] at hfree
    obtain ⟨h1, h2⟩ := hfree
    have hnone : (if (Anchor.line).allows prev = true
        then matchNodes (L.map Node.lit ++ ns) false [] (c :: cs)
        else none) = none := by
      by_cases ha : Anchor.line.allows prev = true
      · rw [if_pos ha]
        apply matchNodes_lits_none
        rw [Bool.eq_false_iff]
        intro hp
        rw [ha, hp] at h1
        cases h1
      · rw [if_neg ha]
    rw [searchFrom_cons]
    simp only [hnone]
    exact ih (some c) (by simpa [Anchor.allows] using h2)

set_option maxRecDepth 1000000 in
/-- C12 fails as stated: the message has the greeting, the address, URI, version, chain id,
nonce and issue time, each found by its pattern, and no line beginning with
`Expiration Time:`; `ParseSiwe` returns the error `no exp`. -/
theorem missing_expiration_counterexample :
    lineStartsFree "Expiration Time:".toList true noExpMessage = true ∧
    FindStringSubmatch reFirstLine noExpMessage = some "example.com".toList ∧
    FindStringSubmatch reAddress noExpMessage = some demoAddress ∧
    FindStringSubmatch reURI noExpMessage = some "https://app.example".toList ∧
    FindStringSubmatch reVersion noExpMessage = some "1".toList ∧
    FindStringSubmatch reChain noExpMessage = some "1".toList ∧
    FindStringSubmatch reNonce noExpMessage = some "abc123".toList ∧
    FindStringSubmatch reIssued noExpMessage = some "2025-01-01T00:00:00Z".toList ∧
    ParseSiwe demoPrimitives noExpMessage = .error .noExp := by
  decide

/-- C12, as the code behaves: the expiration time is required. On every message none of
whose lines begins with `Expiration Time:`, `ParseSiwe` returns an error, and the error is
`no exp` when the greeting, the address, URI, version, chain id, nonce and issue time are
found and the issue time is a timestamp; `BuildSiweString` ends every message with the
`Expiration Time:` line. -/
theorem expiration_required (P : Primitives) (s : GoString)
    (h : lineStartsFree "Expiration Time:".toList true s = true) :
    (∀ p, ParseSiwe P s ≠ .ok p) ∧
    (∀ m1 m2 uri version chain nonce issued t,
      FindStringSubmatch reFirstLine s = some m1 → FindStringSubmatch reAddress s = some m2 →
      FindStringSubmatch reURI s = some uri → FindStringSubmatch reVersion s = some version →
      FindStringSubmatch reChain s = some chain → FindStringSubmatch reNonce s = some nonce →
      FindStringSubmatch reIssued s = some issued →
      P.parseRFC3339 (TrimSpace issued) = some t → ParseSiwe P s = .error .noExp) ∧
    (∀ domain address uri version chainID nonce issuedAt expAt statement,
      ∃ pre, BuildSiweString domain address uri version chainID nonce issuedAt expAt
        statement = pre ++ ("Expiration Time: ".toList ++ expAt ++ "\n".toList)) := by
  have hexp : FindStringSubmatch reExp s = none :=
    searchFrom_none_of_free "Expiration Time:".toList _ (by decide) s none h
  refine ⟨?_, ?_, ?_⟩
  · intro p hp
    unfold ParseSiwe at hp
    rw [hexp] at hp
    split at hp
    · repeat' split at hp
      all_goals first | (cases hp; done) | (rename_i h0 _ _ _; cases h0)
    · cases hp
  · intro m1 m2 uri version chain nonce issued t h1 h2 h3 h4 h5 h6 h7 h8
    simp only [ParseSiwe, h1, h2, h3, h4, h5, h6, h7, h8, hexp]
  · intro domain address uri version chainID nonce issuedAt expAt statement
    exact ⟨_, rfl⟩

set_option maxRecDepth 1000000 in
/-- The theorem `expiration_required` on the message of the worked example without its
last line. -/
theorem expiration_required_witness :
    lineStartsFree "Expiration Time:".toList true noExpMessage = true ∧
    ∀ p, ParseSiwe demoPrimitives noExpMessage ≠ .ok p :=
  ⟨by decide, (expiration_required demoPrimitives noExpMessage (by decide)).1⟩

/-! ## C11: malformed fields -/

set_option maxRecDepth 1000000 in
/-- C11 on three malformed messages: `ParseSiwe` returns a result on each. A chain id of
twenty nines, which does not fit an `int64`, is returned as 9223372036854775807 (the range
error of `strconv.ParseInt` is discarded); the chain id line `Chain ID: 1abc` is returned
as chain id 1; an empty `URI:` line is returned with the URI `Version:`, the first word of
the next line. -/
theorem malformed_fields_accepted :
    ParseSiwe demoPrimitives overflowMessage =
      .ok { demoParsed with ChainID := 9223372036854775807 } ∧
    ParseSiwe demoPrimitives trailingMessage = .ok demoParsed ∧
    ParseSiwe demoPrimitives emptyUriMessage =
      .ok { demoParsed with URI := "Version:".toList } := by
  decide

/-! ## C17: challenge requests -/

/-- C17: a request to `handleNonce` whose chain id differs from the configured one, or whose
origin does not begin with the configured origin URI, is answered 400 (`wrong chainId` or
`wrong origin`) and the database, with its nonce table, is returned as it was; this holds
for every database, every environment and every such request. -/
theorem wrong_chain_or_origin_rejected (formatRFC3339 : Time → GoString) (a : App)
    (env : NonceEnv) (db : DB) (req : nonceReq)
    (h : req.ChainID ≠ a.ChainID ∨ a.OriginURI.isPrefixOf req.Origin = false) :
    (handleNonce formatRFC3339 a env db (some req)).2.status = 400 ∧
    ((handleNonce formatRFC3339 a env db (some req)).2 = .wrongChainId ∨
      (handleNonce formatRFC3339 a env db (some req)).2 = .wrongOrigin) ∧
    (handleNonce formatRFC3339 a env db (some req)).1 = db ∧
    (handleNonce formatRFC3339 a env db (some req)).1.auth_nonces = db.auth_nonces := by
  by_cases hc : req.ChainID = a.ChainID
  · rcases h with h | h
    · exact absurd hc h
    · simp [handleNonce, hc, h, NonceOutcome.status]
  · simp [handleNonce, hc, NonceOutcome.status]

/-- The theorem `wrong_chain_or_origin_rejected` on a request for chain 5 while chain 1 is
configured. -/
theorem wrong_chain_or_origin_rejected_witness :
    (handleNonce demoFormat demoApp demoNonceEnv demoDB (some wrongChainReq)).2.status =
      400 ∧
    (handleNonce demoFormat demoApp demoNonceEnv demoDB (some wrongChainReq)).1 = demoDB :=
  have h := wrong_chain_or_origin_rejected demoFormat demoApp demoNonceEnv demoDB
    wrongChainReq (Or.inl (by decide))
  ⟨h.1, h.2.2.1⟩

/-! ## C14: session resolution -/

/-- The run of `handleMe` and of `authMiddleware` on a request with a session cookie whose
row is found and has not expired. -/
theorem session_found (env : SessionEnv) (db : DB) (sid : GoString) (r : SessionRow)
    {R : Type} (next : GoString → R)
    (hf : env.selectFails = false) (hs : selectSession db sid = some r)
    (he : env.now ≤ r.expires_at) :
    handleMe env db (some sid) = .ok r.address ∧
    authMiddleware next env db (some sid) = .served r.address (next r.address) := by
  simp [handleMe, authMiddleware, querySession, hf, hs, SessionScan.isNoRows,
    SessionScan.exp, SessionScan.isErr, SessionScan.address, Time.After, he]

/-- The run of `handleMe` and of `authMiddleware` on a request with a session cookie when
the query does not fail and returns no row or an expired row. -/
theorem session_not_found (env : SessionEnv) (db : DB) (sid : GoString)
    {R : Type} (next : GoString → R) (hf : env.selectFails = false)
    (hs : ∀ r, selectSession db sid = some r → r.expires_at < env.now) :
    handleMe env db (some sid) = .expired ∧
    authMiddleware next env db (some sid) = .notAuthenticated := by
  cases hq : selectSession db sid with
  | none =>
    simp [handleMe, authMiddleware, querySession, hf, hq, SessionScan.isNoRows]
  | some r =>
    have := hs r hq
    simp [handleMe, authMiddleware, querySession, hf, hq, SessionScan.isNoRows,
      SessionScan.exp, Time.After, this]

/-- C14: for every database, cookie and clock, `handleMe` answers 200 with the address `addr`
exactly when the session query does not fail, the request carries the session cookie, the
query finds a row for its value bound to `addr`, and the clock is not after the expiry of
that row; the handler that `authMiddleware` returns calls the protected handler with `addr`
in the request context under exactly the same condition, and calls it under no other. When
the query does not fail, every other request is answered 401 by both. A row that is found
but has expired gives the same answers as a database without a row for the cookie. -/
theorem session_resolution {R : Type} (next : GoString → R) (env : SessionEnv) (db : DB)
    (cookie : Option GoString) (addr : GoString) :
    (handleMe env db cookie = .ok addr ↔
      (env.selectFails = false ∧ ∃ sid r, cookie = some sid ∧
        selectSession db sid = some r ∧ r.address = addr ∧ env.now ≤ r.expires_at)) ∧
    (authMiddleware next env db cookie = .served addr (next addr) ↔
      (env.selectFails = false ∧ ∃ sid r, cookie = some sid ∧
        selectSession db sid = some r ∧ r.address = addr ∧ env.now ≤ r.expires_at)) ∧
    ((authMiddleware next env db cookie).called = true ↔
      (env.selectFails = false ∧ ∃ sid r, cookie = some sid ∧
        selectSession db sid = some r ∧ env.now ≤ r.expires_at)) ∧
    (env.selectFails = false → (∀ x, handleMe env db cookie ≠ .ok x) →
      (handleMe env db cookie).status = 401) ∧
    (env.selectFails = false → (authMiddleware next env db cookie).called = false →
      (authMiddleware next env db cookie).status = some 401) ∧
    (env.selectFails = false → ∀ sid r db2, cookie = some sid →
      selectSession db sid = some r → r.expires_at < env.now →
      selectSession db2 sid = none →
      handleMe env db cookie = handleMe env db2 cookie ∧
      (handleMe env db cookie).status = 401 ∧
      authMiddleware next env db cookie = authMiddleware next env db2 cookie ∧
      (authMiddleware next env db cookie).status = some 401) := by
  have hlast : env.selectFails = false → ∀ sid r db2, cookie = some sid →
      selectSession db sid = some r → r.expires_at < env.now →
      selectSession db2 sid = none →
      handleMe env db cookie = handleMe env db2 cookie ∧
      (handleMe env db cookie).status = 401 ∧
      authMiddleware next env db cookie = authMiddleware next env db2 cookie ∧
      (authMiddleware next env db cookie).status = some 401 := by
    intro hf sid r db2 hck hs he hs2
    subst hck
    have h1 := session_not_found env db sid next hf
      (fun r0 h0 => by rw [hs] at h0; cases h0; exact he)
    have h2 := session_not_found env db2 sid next hf
      (fun r0 h0 => by rw [hs2] at h0; cases h0)
    rw [h1.1, h1.2, h2.1, h2.2]
    exact ⟨rfl, rfl, rfl, rfl⟩
  refine ⟨?_, ?_, ?_, ?_, ?_, hlast⟩
  all_goals
    clear hlast
    cases cookie with
    | none => simp [handleMe, authMiddleware, AuthOutcome.called, AuthOutcome.status,
        MeOutcome.status]
    | some sid =>
      by_cases hf : env.selectFails = true
      · by_cases hz : zeroTime < env.now
        · simp [handleMe, authMiddleware, querySession, hf, SessionScan.isNoRows,
            SessionScan.exp, SessionScan.isErr, Time.After, hz, AuthOutcome.called]
        · simp [handleMe, authMiddleware, querySession, hf, SessionScan.isNoRows,
            SessionScan.exp, SessionScan.isErr, Time.After, hz, AuthOutcome.called]
      · cases hs : selectSession db sid with
        | none =>
          simp [handleMe, authMiddleware, querySession, hf, hs, SessionScan.isNoRows,
            AuthOutcome.called, AuthOutcome.status, MeOutcome.status]
        | some r =>
          by_cases he : r.expires_at < env.now
          · simp [handleMe, authMiddleware, querySession, hf, hs, SessionScan.isNoRows,
              SessionScan.exp, SessionScan.isErr, SessionScan.address, Time.After, he,
              AuthOutcome.called, AuthOutcome.status, MeOutcome.status]
          · have he2 : env.now ≤ r.expires_at := not_lt.mp he
            simp [handleMe, authMiddleware, querySession, hf, hs, SessionScan.isNoRows,
              SessionScan.exp, SessionScan.isErr, SessionScan.address, Time.After, he,
              he2, AuthOutcome.called, AuthOutcome.status, MeOutcome.status] <;>
            (intro h; rw [h])

/-! ## C16: logout -/

/-- After the `DELETE` for a session id the session query finds no row for it. -/
theorem selectSession_deleteSession (db : DB) (sid : GoString) :
    selectSession (deleteSession db sid) sid = none := by
  simp [selectSession, deleteSession, List.find?_eq_none, List.mem_filter]

/-- The `DELETE` for a session id that has no row leaves the database as it was. -/
theorem deleteSession_absent (db : DB) (sid : GoString)
    (h : selectSession db sid = none) : deleteSession db sid = db := by
  have h2 : ∀ r ∈ db.sessions, ¬ r.sid = sid := by
    simpa [selectSession, List.find?_eq_none] using h
  have h3 : db.sessions.filter (fun r => decide (r.sid ≠ sid)) = db.sessions := by
    rw [List.filter_eq_self]
    intro r hr
    simpa using h2 r hr
  simp only [deleteSession, h3]

/-- C16, as the code behaves: for every database and every request, `handleLogout` answers
204. Without a session cookie, or when the `DELETE` fails, the database is unchanged. With a
session cookie and a `DELETE` that does not fail, no session row with that id remains, the
other session rows and the nonce table are as before, a request whose id has no row leaves
the database unchanged, and `handleMe` with the same cookie then never answers 200 and
answers 401 when its query does not fail. A second `handleLogout` with the same cookie
leaves the database that the first one left, when it is in the same fault state as the
first or when the `DELETE` of the first did not fail. -/
theorem logout_idempotent (deleteFails : Bool) (db : DB) (cookie : Option GoString) :
    (handleLogout deleteFails db cookie).2.status = 204 ∧
    (cookie = none → (handleLogout deleteFails db cookie).1 = db) ∧
    (deleteFails = true → (handleLogout deleteFails db cookie).1 = db) ∧
    (deleteFails = false → ∀ sid, cookie = some sid →
      (∀ r ∈ (handleLogout deleteFails db cookie).1.sessions, r.sid ≠ sid) ∧
      (∀ r, r.sid ≠ sid →
        (r ∈ (handleLogout deleteFails db cookie).1.sessions ↔ r ∈ db.sessions)) ∧
      (handleLogout deleteFails db cookie).1.sessions =
        db.sessions.filter (fun r => decide (r.sid ≠ sid)) ∧
      (handleLogout deleteFails db cookie).1.auth_nonces = db.auth_nonces ∧
      (selectSession db sid = none → (handleLogout deleteFails db cookie).1 = db) ∧
      (∀ env : SessionEnv, env.selectFails = false →
        handleMe env (handleLogout deleteFails db cookie).1 cookie = .expired ∧
        (handleMe env (handleLogout deleteFails db cookie).1 cookie).status = 401) ∧
      (∀ (env : SessionEnv) (x : GoString),
        handleMe env (handleLogout deleteFails db cookie).1 cookie ≠ .ok x)) ∧
    (handleLogout deleteFails (handleLogout deleteFails db cookie).1 cookie).1 =
      (handleLogout deleteFails db cookie).1 ∧
    (deleteFails = false → ∀ again : Bool,
      handleLogout again (handleLogout deleteFails db cookie).1 cookie =
        handleLogout deleteFails db cookie) := by
  refine ⟨rfl, ?_, ?_, ?_, ?_, ?_⟩
  · intro h
    subst h
    rfl
  · intro h
    subst h
    cases cookie <;> rfl
  · intro hf sid hck
    subst hf hck
    have hnone := selectSession_deleteSession db sid
    have hme : ∀ env : SessionEnv, env.selectFails = false →
        handleMe env (deleteSession db sid) (some sid) = .expired := fun env he =>
      (session_not_found env (deleteSession db sid) sid (fun _ => ()) he
        (fun r0 h0 => by rw [hnone] at h0; cases h0)).1
    refine ⟨?_, ?_, rfl, rfl, ?_, ?_, ?_⟩
    · intro r hr
      have h2 : r ∈ db.sessions ∧ ¬ r.sid = sid := by
        simpa [handleLogout, deleteSession, List.mem_filter] using hr
      exact h2.2
    · intro r hr
      simp [handleLogout, deleteSession, List.mem_filter, hr]
    · intro h
      exact deleteSession_absent db sid h
    · intro env he
      simp only [handleLogout, Bool.false_eq_true, if_false]
      rw [hme env he]
      exact ⟨rfl, rfl⟩
    · intro env x
      simp only [handleLogout, Bool.false_eq_true, if_false]
      by_cases he : env.selectFails = true
      · by_cases hz : zeroTime < env.now
        · simp [handleMe, querySession, he, SessionScan.isNoRows, SessionScan.exp,
            SessionScan.isErr, Time.After, hz]
        · simp [handleMe, querySession, he, SessionScan.isNoRows, SessionScan.exp,
            SessionScan.isErr, Time.After, hz]
      · rw [hme env (by simpa using he)]
        simp
  · cases cookie with
    | none => rfl
    | some sid =>
      cases deleteFails with
      | true => rfl
      | false =>
        simp only [handleLogout, Bool.false_eq_true, if_false]
        exact deleteSession_absent _ sid (selectSession_deleteSession db sid)
  · intro hf again
    subst hf
    cases cookie with
    | none => cases again <;> rfl
    | some sid =>
      have h := deleteSession_absent _ sid (selectSession_deleteSession db sid)
      cases again with
      | true => rfl
      | false =>
        simp only [handleLogout, Bool.false_eq_true, if_false]
        rw [h]

/-! ## The life of a session on the worked example -/

set_option maxRecDepth 1000000 in
/-- The session of the worked example is resolved at 00:02:00 by `handleMe` and by
`authMiddleware`, is rejected with 401 at 00:17:00 after its expiry, and is rejected with
401 after `handleLogout`, which answers 204 and leaves an empty session table. -/
theorem session_lifecycle_example :
    handleMe demoSessionEnv sessionDB (some "session-1".toList) =
      .ok "0x2c7536e3605d9c16a7a3d7b1898e529396a65c23".toList ∧
    (authMiddleware (fun x => x) demoSessionEnv sessionDB (some "session-1".toList)).called =
      true ∧
    handleMe lateSessionEnv sessionDB (some "session-1".toList) = .expired ∧
    (authMiddleware (fun x => x) lateSessionEnv sessionDB
      (some "session-1".toList)).status = some 401 ∧
    (handleLogout false sessionDB (some "session-1".toList)).2.status = 204 ∧
    (handleLogout false sessionDB (some "session-1".toList)).1.sessions = [] ∧
    handleMe demoSessionEnv (handleLogout false sessionDB (some "session-1".toList)).1
      (some "session-1".toList) = .expired ∧
    handleMe demoSessionEnv sessionDB none = .noSession := by
  decide

/-! ## The nil context of `IsContract` -/

/-- `IsContract` never returns a boolean: with the nil context it passes, `CodeAt` returns an
error over HTTP and panics on the other transports, whatever the node would answer. -/
theorem isContract_nil_context (rpc : Rpc) (addr : Address) :
    IsContract rpc addr = if rpc.isHTTP then .error else .panic := by
  unfold IsContract Rpc.CodeAt
  cases rpc.isHTTP <;> rfl

/-- The run of `handleVerify` on a request that passes the checks of the message and of the
nonce and whose digest is computed ends at the call of `IsContract`: 500 `rpc` over HTTP, a
panic on the other transports; the database is as it was. -/
theorem handleVerify_after_gate (P : Primitives) (a : App) (env : VerifyEnv) (db : DB)
    (req : verifyReq) (parsed : SiweParsed) (hash : Bytes)
    (hp : ParseSiwe P req.Message = .ok parsed)
    (hd : TrimSpace parsed.Domain = a.Domain) (hu : TrimSpace parsed.URI = a.OriginURI)
    (hc : parsed.ChainID = a.ChainID)
    (hg : env.selectFails = false ∧
      ∃ r, selectNonce db parsed.Nonce = some r ∧ r.used = 0 ∧ env.nowCheck ≤ r.expires_at)
    (hh : EIP191Hash P req.Message = some hash) :
    handleVerify P a env db (some req) =
      (db, if env.rpc.isHTTP then .rpcError else .panicked) := by
  obtain ⟨h1, h2⟩ := (nonce_gate_iff env db parsed.Nonce).mpr hg
  simp only [handleVerify, hp, hd, hu, hc, h1, h2, hh, ne_eq, not_true_eq_false, if_false,
    isContract_nil_context]
  cases env.rpc.isHTTP <;> rfl

/-- No run of `handleVerify` writes to the database, and every run ends at one of the exits
up to the call of `IsContract`. -/
theorem handleVerify_never_writes (P : Primitives) (a : App) (env : VerifyEnv) (db : DB)
    (body : Option verifyReq) :
    (handleVerify P a env db body).1 = db ∧
    (handleVerify P a env db body).2 ∈ [Outcome.badJson, .badSiwe, .domainMismatch,
      .uriMismatch, .chainIdMismatch, .invalidNonce, .dbSelect, .panicked, .rpcError] := by
  rcases handleVerify_paths P a env db body with ⟨h1, _⟩ |
    ⟨req, parsed, hash, c, _, _, _, hk, _⟩
  swap
  · rw [isContract_nil_context] at hk
    cases hhttp : env.rpc.isHTTP <;> simp [hhttp] at hk
  refine ⟨h1, ?_⟩
  cases body with
  | none => simp [handleVerify]
  | some req =>
  cases hp : ParseSiwe P req.Message with
  | error e => simp [handleVerify, hp]
  | ok parsed =>
  by_cases hd : TrimSpace parsed.Domain = a.Domain
  swap
  · simp [handleVerify, hp, hd]
  by_cases hu : TrimSpace parsed.URI = a.OriginURI
  swap
  · simp [handleVerify, hp, hd, hu]
  by_cases hc : parsed.ChainID = a.ChainID
  swap
  · simp [handleVerify, hp, hd, hu, hc]
  by_cases hn : ((queryNonce env db parsed.Nonce).isNoRows ||
      decide ((queryNonce env db parsed.Nonce).used ≠ 0) ||
      env.nowCheck.After (queryNonce env db parsed.Nonce).exp) = true
  · simp only [handleVerify, hp, hd, hu, hc, hn]; simp
  by_cases he : (queryNonce env db parsed.Nonce).isErr = true
  · simp only [handleVerify, hp, hd, hu, hc, hn, he]; simp
  cases hh : EIP191Hash P req.Message with
  | none => simp only [handleVerify, hp, hd, hu, hc, hn, he, hh]; simp
  | some hash =>
    simp only [handleVerify, hp, hd, hu, hc, hn, he, hh, isContract_nil_context]
    cases env.rpc.isHTTP <;> simp

/-- No sequence of runs of `handleVerify` changes the database. -/
theorem runVerify_never_writes (P : Primitives) (a : App)
    (calls : List (VerifyEnv × Option verifyReq)) :
    ∀ db : DB, runVerify P a db calls = db := by
  induction calls with
  | nil => intro db; rfl
  | cons c cs ih =>
    intro db
    simp only [runVerify]
    rw [(handleVerify_never_writes P a c.1 db c.2).1]
    exact ih db

/-! ## C2: a failed proof and the nonce -/

/-- C2, as the code behaves: a submission that passes parsing, the domain, URI and chain
checks and the nonce check, and whose signature neither verifier accepts (`VerifyEOA` and
`VerifyERC1271` each return false or an error on it), does not end in success and leaves the
whole database as it was; the nonce row keeps `used = 0`, and the same submission sent again
gets past the nonce check again whenever its query does not fail and the clock is not after
the expiry of the row. -/
theorem failed_proof_keeps_nonce (P : Primitives) (a : App) (env : VerifyEnv) (db : DB)
    (req : verifyReq) (parsed : SiweParsed) (hash : Bytes)
    (hp : ParseSiwe P req.Message = .ok parsed)
    (hd : TrimSpace parsed.Domain = a.Domain) (hu : TrimSpace parsed.URI = a.OriginURI)
    (hc : parsed.ChainID = a.ChainID)
    (hg : env.selectFails = false ∧
      ∃ r, selectNonce db parsed.Nonce = some r ∧ r.used = 0 ∧ env.nowCheck ≤ r.expires_at)
    (hh : EIP191Hash P req.Message = some hash)
    (hEOA : VerifyEOA P hash req.Signature (HexToAddress parsed.Address) ≠ .ok true)
    (h1271 : VerifyERC1271 P env.rpc (HexToAddress parsed.Address) hash req.Signature ≠
      .ok true) :
    (∀ sid e, (handleVerify P a env db (some req)).2 ≠ .ok sid e) ∧
    (handleVerify P a env db (some req)).1 = db ∧
    (∃ r, selectNonce (handleVerify P a env db (some req)).1 parsed.Nonce = some r ∧
      r.used = 0) ∧
    (∀ env2 : VerifyEnv, env2.selectFails = false →
      (∀ r, selectNonce db parsed.Nonce = some r → env2.nowCheck ≤ r.expires_at) →
      (handleVerify P a env2 (handleVerify P a env db (some req)).1
        (some req)).2.pastNonceCheck = true) := by
  have hdb : (handleVerify P a env db (some req)).1 = db ∧
      ∀ sid e, (handleVerify P a env db (some req)).2 ≠ .ok sid e := by
    rcases handleVerify_paths P a env db (some req) with ⟨h1, hmem⟩ |
      ⟨req2, parsed2, hash2, c, hb, hp2, hh2, _, hv, _⟩
    · refine ⟨h1, fun sid e hok => ?_⟩
      rw [hok] at hmem
      simp at hmem
    · cases hb
      rw [hp] at hp2
      cases hp2
      rw [hh] at hh2
      cases hh2
      cases c with
      | true => exact absurd hv h1271
      | false => exact absurd hv hEOA
  obtain ⟨r, hr, hused, _⟩ := hg.2
  refine ⟨hdb.2, hdb.1, ⟨r, by rw [hdb.1]; exact hr, hused⟩, fun env2 hsel hle => ?_⟩
  rw [hdb.1]
  exact (handleVerify_gate P a env2 db req parsed hp hd hu hc).1.mpr
    ((nonce_gate_iff env2 db parsed.Nonce).mpr ⟨hsel, r, hr, hused, hle r hr⟩)

set_option maxRecDepth 1000000 in
/-- The theorem `failed_proof_keeps_nonce` on the challenge of the worked example sent with
a signature string that is not hexadecimal. -/
theorem failed_proof_keeps_nonce_witness :
    (handleVerify demoPrimitives demoApp demoEnv demoDB (some badSigReq)).1 = demoDB ∧
    ∃ r, selectNonce (handleVerify demoPrimitives demoApp demoEnv demoDB
      (some badSigReq)).1 "abc123".toList = some r ∧ r.used = 0 :=
  have h := failed_proof_keeps_nonce demoPrimitives demoApp demoEnv demoDB badSigReq
    demoParsed honestDigest (by decide) (by decide) (by decide) (by decide) (by decide)
    (by decide) (by decide) (by decide)
  ⟨h.2.1, h.2.2.1⟩

set_option maxRecDepth 1000000 in
/-- C2 fails as stated: the challenge of the worked example is sent with a signature string
that is not hexadecimal, on which both verifiers return an error; the run gets past the
nonce check, the database is returned as it was with the nonce row at `used = 0`, and the
same submission sent again gets past the nonce check again. -/
theorem failed_proof_consumes_nonce_counterexample :
    VerifyEOA demoPrimitives honestDigest badSigReq.Signature
      (HexToAddress demoParsed.Address) = .error .badHex ∧
    VerifyERC1271 demoPrimitives demoEnv.rpc (HexToAddress demoParsed.Address) honestDigest
      badSigReq.Signature = .error .badHex ∧
    (handleVerify demoPrimitives demoApp demoEnv demoDB (some badSigReq)).2.pastNonceCheck =
      true ∧
    (handleVerify demoPrimitives demoApp demoEnv demoDB (some badSigReq)).1 = demoDB ∧
    selectNonce demoDB "abc123".toList = some ⟨"abc123".toList, 0, 1735689900000000000⟩ ∧
    (handleVerify demoPrimitives demoApp demoEnv
      (handleVerify demoPrimitives demoApp demoEnv demoDB (some badSigReq)).1
      (some badSigReq)).2.pastNonceCheck = true := by
  decide

/-! ## C3: a nonce is accepted once -/

set_option maxRecDepth 1000000 in
/-- C3, what the code does: no sequence of runs of `handleVerify` changes the database, so
no nonce is ever marked used and no run ends in success. On the worked example the wallet
contract accepts the signature (`VerifyERC1271` returns true), the submission is answered
500 `rpc`, and the identical submission sent again is not stopped at the nonce check: it
gets past it and is answered 500 `rpc` again. -/
theorem nonce_never_consumed (P : Primitives) (a : App) (db : DB)
    (calls : List (VerifyEnv × Option verifyReq)) :
    runVerify P a db calls = db ∧
    (∀ (env : VerifyEnv) (body : Option verifyReq) sid e,
      (handleVerify P a env (runVerify P a db calls) body).2 ≠ .ok sid e) ∧
    VerifyERC1271 demoPrimitives demoEnv.rpc (HexToAddress demoParsed.Address) honestDigest
      demoReq.Signature = .ok true ∧
    handleVerify demoPrimitives demoApp demoEnv demoDB (some demoReq) =
      (demoDB, .rpcError) ∧
    (handleVerify demoPrimitives demoApp demoEnv
      (handleVerify demoPrimitives demoApp demoEnv demoDB (some demoReq)).1
      (some demoReq)).2.pastNonceCheck = true ∧
    handleVerify demoPrimitives demoApp demoEnv
      (handleVerify demoPrimitives demoApp demoEnv demoDB (some demoReq)).1
      (some demoReq) = (demoDB, .rpcError) := by
  refine ⟨runVerify_never_writes P a calls db, ?_, by decide, by decide, by decide,
    by decide⟩
  intro env body sid e hok
  have h := (handleVerify_never_writes P a env (runVerify P a db calls) body).2
  rw [hok] at h
  simp at h

/-! ## C13: failures of the store and of the chain node -/

/-- C13, what the code does: when the nonce query fails with an error other than
`sql.ErrNoRows`, the variable `exp` keeps the zero time, so with a clock after the zero time
the test `time.Now().After(exp)` holds and the run is answered 400 `invalid nonce`; the test
`err != nil` that answers 500 `db` comes after it and is reached only with a clock not after
the zero time. The database is as it was in both cases. -/
theorem lookup_failure_answered_400 (P : Primitives) (a : App) (env : VerifyEnv) (db : DB)
    (req : verifyReq) (parsed : SiweParsed)
    (hp : ParseSiwe P req.Message = .ok parsed)
    (hd : TrimSpace parsed.Domain = a.Domain) (hu : TrimSpace parsed.URI = a.OriginURI)
    (hc : parsed.ChainID = a.ChainID) (hf : env.selectFails = true) :
    (zeroTime < env.nowCheck →
      handleVerify P a env db (some req) = (db, .invalidNonce) ∧
      (handleVerify P a env db (some req)).2.status = some 400) ∧
    (env.nowCheck ≤ zeroTime →
      handleVerify P a env db (some req) = (db, .dbSelect) ∧
      (handleVerify P a env db (some req)).2.status = some 500) := by
  have hq : queryNonce env db parsed.Nonce = .failed := by simp [queryNonce, hf]
  constructor
  · intro hz
    have h : handleVerify P a env db (some req) = (db, .invalidNonce) := by
      simp [handleVerify, hp, hd, hu, hc, hq, NonceScan.isNoRows, NonceScan.used,
        NonceScan.exp, Time.After, hz]
    rw [h]
    exact ⟨rfl, rfl⟩
  · intro hz
    have h : handleVerify P a env db (some req) = (db, .dbSelect) := by
      simp [handleVerify, hp, hd, hu, hc, hq, NonceScan.isNoRows, NonceScan.used,
        NonceScan.exp, NonceScan.isErr, Time.After, not_lt.mpr hz]
    rw [h]
    exact ⟨rfl, rfl⟩

set_option maxRecDepth 1000000 in
/-- The theorem `lookup_failure_answered_400` on the worked example, at 00:01:00 on 1 January
2025 with a nonce query that fails: the answer is 400 `invalid nonce`. -/
theorem lookup_failure_answered_400_witness :
    lookupFailsEnv.selectFails = true ∧
    handleVerify demoPrimitives demoApp lookupFailsEnv demoDB (some demoReq) =
      (demoDB, .invalidNonce) ∧
    (handleVerify demoPrimitives demoApp lookupFailsEnv demoDB (some demoReq)).2.status =
      some 400 :=
  ⟨rfl, (lookup_failure_answered_400 demoPrimitives demoApp lookupFailsEnv demoDB demoReq
    demoParsed (by decide) (by decide) (by decide) (by decide) rfl).1 (by decide)⟩

/-! ## C15: the session of a successful proof -/

set_option maxRecDepth 1000000 in
/-- C15, what the code does: no run of `handleVerify` ends in success, sets the session
cookie or adds a session row. On the worked example the wallet contract accepts the
signature (`VerifyERC1271` returns true on it), and the submission is answered 500 `rpc`
with the session table as it was; over a websocket the same submission ends in a panic. -/
theorem no_session_minted (P : Primitives) (a : App) (env : VerifyEnv) (db : DB)
    (body : Option verifyReq) :
    (∀ sid e, (handleVerify P a env db body).2 ≠ .ok sid e) ∧
    (handleVerify P a env db body).1.sessions = db.sessions ∧
    VerifyERC1271 demoPrimitives demoEnv.rpc (HexToAddress demoParsed.Address) honestDigest
      demoReq.Signature = .ok true ∧
    handleVerify demoPrimitives demoApp demoEnv demoDB (some demoReq) =
      (demoDB, .rpcError) ∧
    Outcome.rpcError.status = some 500 ∧
    handleVerify demoPrimitives demoApp websocketEnv demoDB (some demoReq) =
      (demoDB, .panicked) := by
  refine ⟨?_, by rw [(handleVerify_never_writes P a env db body).1], by decide, by decide,
    rfl, by decide⟩
  intro sid e hok
  have h := (handleVerify_never_writes P a env db body).2
  rw [hok] at h
  simp at h

/-! ## C18: the choice of the verifier -/

/-- C18, what the code does: `IsContract` never returns a boolean, whatever code the node
reports for the address: over HTTP it returns an error, on the other transports it panics.
A request that reaches the call is answered 500 `rpc` over HTTP and ends in a panic
otherwise, whatever the address, the signature and the result either verifier would give;
neither `VerifyERC1271` nor `VerifyEOA` decides any run. -/
theorem isContract_never_answers (P : Primitives) (a : App) (env : VerifyEnv) (db : DB)
    (req : verifyReq) (parsed : SiweParsed) (hash : Bytes)
    (hp : ParseSiwe P req.Message = .ok parsed)
    (hd : TrimSpace parsed.Domain = a.Domain) (hu : TrimSpace parsed.URI = a.OriginURI)
    (hc : parsed.ChainID = a.ChainID)
    (hg : env.selectFails = false ∧
      ∃ r, selectNonce db parsed.Nonce = some r ∧ r.used = 0 ∧ env.nowCheck ≤ r.expires_at)
    (hh : EIP191Hash P req.Message = some hash) :
    (∀ (rpc : Rpc) (x : Address),
      IsContract rpc x = (if rpc.isHTTP then .error else .panic) ∧
      ∀ b, IsContract rpc x ≠ .value b) ∧
    (env.rpc.isHTTP = true → handleVerify P a env db (some req) = (db, .rpcError)) ∧
    (env.rpc.isHTTP = false → handleVerify P a env db (some req) = (db, .panicked)) ∧
    (∀ (env2 : VerifyEnv) (db2 : DB) (body : Option verifyReq),
      (handleVerify P a env2 db2 body).2 ≠ .signatureInvalid ∧
      ∀ sid e, (handleVerify P a env2 db2 body).2 ≠ .ok sid e) := by
  have key := handleVerify_after_gate P a env db req parsed hash hp hd hu hc hg hh
  refine ⟨fun rpc x => ⟨isContract_nil_context rpc x, fun b hb => ?_⟩, fun h => ?_,
    fun h => ?_, fun env2 db2 body => ?_⟩
  · rw [isContract_nil_context] at hb
    cases hhttp : rpc.isHTTP <;> simp [hhttp] at hb
  · rw [key, h]
    rfl
  · rw [key, h]
    rfl
  · have hm := (handleVerify_never_writes P a env2 db2 body).2
    refine ⟨fun hs => ?_, fun sid e hok => ?_⟩
    · rw [hs] at hm
      simp at hm
    · rw [hok] at hm
      simp at hm

set_option maxRecDepth 1000000 in
/-- The theorem `isContract_never_answers` on the worked example: the node reports code for
the signer's address and its contract accepts the signature, `IsContract` returns an error
and the request is answered 500 `rpc`. -/
theorem isContract_never_answers_witness :
    demoEnv.rpc.getCode (HexToAddress demoParsed.Address) = some [0x60] ∧
    IsContract demoEnv.rpc (HexToAddress demoParsed.Address) = .error ∧
    handleVerify demoPrimitives demoApp demoEnv demoDB (some demoReq) =
      (demoDB, .rpcError) :=
  have h := isContract_never_answers demoPrimitives demoApp demoEnv demoDB demoReq
    demoParsed honestDigest (by decide) (by decide) (by decide) (by decide) (by decide)
    (by decide)
  ⟨by decide, (h.1 demoEnv.rpc (HexToAddress demoParsed.Address)).1, h.2.1 rfl⟩

/-! ## C16: logout when the `DELETE` fails -/

set_option maxRecDepth 1000000 in
/-- C16 fails as stated when the `DELETE` fails: `handleLogout` discards the error and
answers 204, the session row of the cookie is still in the table, and `handleMe` with the
old cookie answers 200 with the address. -/
theorem failed_delete_counterexample :
    (handleLogout true sessionDB (some "session-1".toList)).2.status = 204 ∧
    (handleLogout true sessionDB (some "session-1".toList)).1 = sessionDB ∧
    selectSession (handleLogout true sessionDB (some "session-1".toList)).1
      "session-1".toList =
      some ⟨"session-1".toList, "0x2c7536e3605d9c16a7a3d7b1898e529396a65c23".toList,
        1735690560000000000⟩ ∧
    handleMe demoSessionEnv (handleLogout true sessionDB (some "session-1".toList)).1
      (some "session-1".toList) =
      .ok "0x2c7536e3605d9c16a7a3d7b1898e529396a65c23".toList ∧
    (handleMe demoSessionEnv (handleLogout true sessionDB (some "session-1".toList)).1
      (some "session-1".toList)).status = 200 := by
  decide

end Watson
